import Mathlib

/-!
Verification of the labelgate reconciliation engine.

This file gives a shallow embedding of the parts of the labelgate source
that the specification claims talk about:

* the ledger row type and the SQLite storage operations
  (internal/storage/sqlite.go),
* the orphan/cleanup scheduler (internal/reconciler/reconciler.go),
* the conflict resolver (Reconciler.filterHostnameConflicts),
* the DNS operator reconcile pass (the dns operator file),
* the access operator reconcile pass (internal/operator/access/access.go),
* the credential router (CredentialManager.GetCredentialForZone, matchZone),
* per-client zone resolution (Client.matchZoneForHostname).

Modelling conventions: Go strings are Lean String (zone matching works on
List Char, the character sequence of the string); Go time.Time and
time.Duration are Int (an instant is a tick count, durations subtract);
Go maps that the source iterates for first-wins or last-wins insertion are
association lists built in iteration order; remote Cloudflare calls are
oracle functions supplied as records of functions, and every remote call a
pass issues is logged in an explicit call list; storage writes are
modelled as pure transformations of the ledger list and are assumed not to
fail; uuid.New is modelled by a deterministic fresh identifier derived
from the unique key of the row being inserted.
-/

namespace Labelgate

/-! ### Ledger data model (internal/storage/sqlite.go) -/

/-- Status of a managed resource (storage.ResourceStatus). -/
inductive ResourceStatus where
  | active
  | orphaned
  | pendingCleanup
  | deleted
  | error
deriving DecidableEq, Repr

/-- Kind of a managed resource (storage.ResourceType). -/
inductive ResourceType where
  | dns
  | tunnelIngress
  | accessApp
deriving DecidableEq, Repr

/-- The string constants behind storage.ResourceType. -/
def resourceTypeName : ResourceType → String
  | .dns => "dns"
  | .tunnelIngress => "tunnel_ingress"
  | .accessApp => "access_app"

/-- A ledger row (storage.ManagedResource).  Timestamps are Int ticks;
createdAt = 0 models the Go zero time. -/
structure ManagedResource where
  id : String
  resourceType : ResourceType
  cfID : String
  zoneID : String
  hostname : String
  recordType : String
  content : String
  proxied : Bool
  ttl : Int
  tunnelID : String
  service : String
  path : String
  accessAppID : String
  accountID : String
  containerID : String
  containerName : String
  serviceName : String
  agentID : String
  status : ResourceStatus
  cleanupEnabled : Bool
  lastError : String
  createdAt : Int
  updatedAt : Int
deriving DecidableEq, Repr

/-- A ledger row with every field blank; concrete rows are built from it by
structure update. -/
def blankResource : ManagedResource :=
  ⟨"", .dns, "", "", "", "", "", false, 0, "", "", "", "", "", "", "", "", "",
   .active, true, "", 0, 0⟩

/-- The unique key of the managed_resources table:
UNIQUE(resource_type, hostname, record_type). -/
def tripleOf (r : ManagedResource) : ResourceType × String × String :=
  (r.resourceType, r.hostname, r.recordType)

/-- Deterministic model of uuid.New in SaveResource: fresh row ids are
derived from the unique key of the row being inserted. -/
def freshID (r : ManagedResource) : String :=
  "uuid:" ++ resourceTypeName r.resourceType ++ ":" ++ r.hostname ++ ":" ++ r.recordType

/-- The field normalization SaveResource performs on the in-memory struct:
assign a fresh id when empty, set CreatedAt when zero, always bump
UpdatedAt. -/
def saveNorm (now : Int) (res : ManagedResource) : ManagedResource :=
  let r1 := if res.id = "" then { res with id := freshID res } else res
  let r2 := if r1.createdAt = 0 then { r1 with createdAt := now } else r1
  { r2 with updatedAt := now }

/-- storage.SaveResource: INSERT with ON CONFLICT(resource_type, hostname,
record_type) DO UPDATE SET of every column except id and created_at.
Returns the normalized in-memory struct together with the new ledger. -/
def saveResource (now : Int) (ledger : List ManagedResource) (res : ManagedResource) :
    ManagedResource × List ManagedResource :=
  let r := saveNorm now res
  if ledger.any (fun q => decide (tripleOf q = tripleOf r)) then
    (r, ledger.map (fun q =>
      if tripleOf q = tripleOf r then { r with id := q.id, createdAt := q.createdAt } else q))
  else
    (r, ledger ++ [r])

/-- UPDATE ... WHERE id = ? helper shared by the status and error setters. -/
def patchById (ledger : List ManagedResource) (i : String)
    (f : ManagedResource → ManagedResource) : List ManagedResource :=
  ledger.map (fun q => if q.id = i then f q else q)

/-- storage.UpdateResourceError: set status, last_error and updated_at of
the row with the given id. -/
def updateResourceError (now : Int) (ledger : List ManagedResource)
    (i : String) (s : ResourceStatus) (msg : String) : List ManagedResource :=
  patchById ledger i (fun q => { q with status := s, lastError := msg, updatedAt := now })

/-- storage.UpdateResourceStatus: set status and updated_at of the row with
the given id.  (The deleted_at branch is not modelled: the reconcile paths
verified here never pass StatusDeleted.) -/
def updateResourceStatus (now : Int) (ledger : List ManagedResource)
    (i : String) (s : ResourceStatus) : List ManagedResource :=
  patchById ledger i (fun q => { q with status := s, updatedAt := now })

/-- storage.DeleteResource: DELETE FROM managed_resources WHERE id = ?. -/
def deleteResourceRow (ledger : List ManagedResource) (i : String) : List ManagedResource :=
  ledger.filter (fun q => !(decide (q.id = i)))

/-! ### Orphan listing queries (internal/storage/sqlite.go) -/

/-- Selection predicate of ListOrphanedForCleanup:
status = orphaned AND cleanup_enabled = TRUE AND updated_at < ?. -/
def orphanRemoteSelect (cutoff : Int) (r : ManagedResource) : Bool :=
  decide (r.status = .orphaned) && r.cleanupEnabled && decide (r.updatedAt < cutoff)

/-- Selection predicate of ListExpiredOrphans:
status = orphaned AND cleanup_enabled = FALSE AND updated_at < ?. -/
def orphanExpirySelect (cutoff : Int) (r : ManagedResource) : Bool :=
  decide (r.status = .orphaned) && !r.cleanupEnabled && decide (r.updatedAt < cutoff)

/-- storage.ListOrphanedForCleanup (the ORDER BY clause is irrelevant to
which rows are selected and is not modelled). -/
def listOrphanedForCleanup (ledger : List ManagedResource) (cutoff : Int) :
    List ManagedResource :=
  ledger.filter (orphanRemoteSelect cutoff)

/-- storage.ListExpiredOrphans (the ORDER BY clause is irrelevant to which
rows are selected and is not modelled). -/
def listExpiredOrphans (ledger : List ManagedResource) (cutoff : Int) :
    List ManagedResource :=
  ledger.filter (orphanExpirySelect cutoff)

/-! ### Orphan/cleanup scheduler (internal/reconciler/reconciler.go) -/

/-- The remote delete a kind operator issues when the reconciler cleans up
an orphaned resource (Reconciler.processOrphanedCleanups dispatching to
DeleteDNSRecord, RemoveIngressRule, RemoveAccess). -/
inductive OrphanRemoteCall where
  | dnsDelete (zoneID cfID : String)
  | tunnelRemoveIngress (tunnelID hostname : String)
  | accessDeleteApp (appID : String)
deriving DecidableEq, Repr

/-- The kind-appropriate remote delete for a ledger row. -/
def orphanDeleteCall (r : ManagedResource) : OrphanRemoteCall :=
  match r.resourceType with
  | .dns => .dnsDelete r.zoneID r.cfID
  | .tunnelIngress => .tunnelRemoveIngress r.tunnelID r.hostname
  | .accessApp => .accessDeleteApp r.accessAppID

/-- The outcome of one orphan-processing phase of a reconcile pass. -/
structure OrphanPassResult where
  remoteDeleteTargets : List ManagedResource
  remoteCalls : List OrphanRemoteCall
  dbExpiryTargets : List ManagedResource
  ledger : List ManagedResource
deriving Repr

/-- The orphan-processing tail of Reconciler.reconcile:
processOrphanedCleanups (remote delete plus row delete for
cleanup_enabled=true orphans past the remove delay, row kept when the
remote delete fails), then, only when orphanTTL > 0,
cleanupExpiredOrphans (row-only delete for cleanup_enabled=false orphans
past the orphan TTL).  remoteOk tells whether the remote delete of a row
succeeds (a remote not-found counts as success, as in the operators). -/
def orphanProcessing (now removeDelay orphanTTL : Int)
    (remoteOk : ManagedResource → Bool) (ledger : List ManagedResource) :
    OrphanPassResult :=
  let remoteTargets := listOrphanedForCleanup ledger (now - removeDelay)
  let calls := remoteTargets.map orphanDeleteCall
  let deletedIDs := (remoteTargets.filter remoteOk).map (fun r => r.id)
  let ledger1 := ledger.filter (fun r => !(deletedIDs.contains r.id))
  let expired := if orphanTTL > 0 then listExpiredOrphans ledger1 (now - orphanTTL) else []
  let expiredIDs := expired.map (fun r => r.id)
  let ledger2 := ledger1.filter (fun r => !(expiredIDs.contains r.id))
  ⟨remoteTargets, calls, expired, ledger2⟩

/-! ### Desired-state types (internal/types) -/

/-- types.OriginRequestConfig, with exactly the fields that
originRequestEqual compares. -/
structure OriginRequestConfig where
  connectTimeout : String
  tlsTimeout : String
  tcpKeepAlive : String
  keepAliveConnections : Int
  keepAliveTimeout : String
  noTLSVerify : Bool
  originServerName : String
  caPool : String
  httpHostHeader : String
  noHappyEyeballs : Bool
  disableChunkedEncoding : Bool
  proxyType : String
deriving DecidableEq, Repr

/-- types.DNSService: a naming declaration parsed from container labels. -/
structure DNSService where
  serviceName : String
  hostname : String
  recType : String
  target : String
  proxied : Bool
  ttl : Int
  credential : String
  cleanup : Bool
  access : String
  priority : Int
deriving DecidableEq, Repr

/-- types.TunnelService: an ingress-routing declaration parsed from
container labels. -/
structure TunnelService where
  serviceName : String
  hostname : String
  service : String
  tunnel : String
  path : String
  credential : String
  cleanup : Bool
  access : String
  originRequest : Option OriginRequestConfig
deriving DecidableEq, Repr

/-- types.AccessPolicyDef, reduced to the fields the verified paths read
(the sub-policy list is only ever forwarded opaquely to the remote API). -/
structure AccessPolicyDef where
  name : String
  appName : String
  sessionDuration : String
deriving DecidableEq, Repr

/-- types.ContainerInfo, reduced to the fields the verified paths read.
networks is the name-to-IP map as an association list in iteration order. -/
structure ContainerInfo where
  id : String
  name : String
  networks : List (String × String)
deriving DecidableEq, Repr

/-- types.ParsedContainer: one container worth of desired state.
accessPolicies is the named-template map as an association list. -/
structure ParsedContainer where
  info : ContainerInfo
  dnsServices : List DNSService
  tunnelServices : List TunnelService
  accessPolicies : List (String × AccessPolicyDef)
  agentID : String
deriving DecidableEq, Repr

/-- types.ResolvedAccessBinding: the join of a policy template and a
hostname referencing it, computed once per pass. -/
structure AccessBinding where
  hostname : String
  policyDef : AccessPolicyDef
  containerID : String
  containerName : String
  serviceName : String
  agentID : String
  cleanup : Bool
  credential : String
deriving DecidableEq, Repr

/-! ### Conflict resolver (Reconciler.filterHostnameConflicts) -/

/-- First-wins insertion into a hostname-to-container-name map, mirroring
the two collection loops of filterHostnameConflicts (the map write happens
only when the hostname is not present yet). -/
def firstWinsInsert (m : List (String × String)) (k v : String) : List (String × String) :=
  if m.any (fun p => decide (p.1 = k)) then m else m ++ [(k, v)]

/-- The dnsHostnames map of filterHostnameConflicts. -/
def collectDNSHostnames (cs : List ParsedContainer) : List (String × String) :=
  cs.foldl (fun m c =>
    c.dnsServices.foldl (fun m svc => firstWinsInsert m svc.hostname c.info.name) m) []

/-- The tunnelHostnames map of filterHostnameConflicts. -/
def collectTunnelHostnames (cs : List ParsedContainer) : List (String × String) :=
  cs.foldl (fun m c =>
    c.tunnelServices.foldl (fun m svc => firstWinsInsert m svc.hostname c.info.name) m) []

/-- The conflictedHostnames set of filterHostnameConflicts: hostnames
present in both the DNS map and the tunnel map. -/
def conflictedHostnames (cs : List ParsedContainer) : List String :=
  (collectDNSHostnames cs).filterMap (fun p =>
    if (collectTunnelHostnames cs).any (fun q => decide (q.1 = p.1)) then some p.1 else none)

/-- Reconciler.filterHostnameConflicts: remove every tunnel service whose
hostname is also declared as a DNS hostname; all other services pass
through untouched. -/
def filterHostnameConflicts (cs : List ParsedContainer) : List ParsedContainer :=
  let conflicted := conflictedHostnames cs
  if conflicted.isEmpty then cs
  else
    cs.map (fun c =>
      let hasConflict := c.tunnelServices.any (fun svc => conflicted.contains svc.hostname)
      if !hasConflict then c
      else { c with tunnelServices :=
        c.tunnelServices.filter (fun svc => !(conflicted.contains svc.hostname)) })

/-! ### DNS operator model (the dns operator file) -/

/-- types.DNSRecord. -/
structure DNSRecord where
  id : String
  zoneID : String
  name : String
  recType : String
  content : String
  proxied : Bool
  ttl : Int
  priority : Int
  comment : String
deriving DecidableEq, Repr

/-- A remote call issued by the DNS operator.  createRec, updateRec and
deleteRec mutate the remote system; the others are reads. -/
inductive DNSCall where
  | createRec (record : DNSRecord)
  | updateRec (record : DNSRecord)
  | deleteRec (zoneID cfID : String)
  | getByName (name recType : String)
  | getZone (hostname : String)
  | fetchIP
deriving DecidableEq, Repr

/-- Whether a DNS call mutates the remote system. -/
def isMutatingDNSCall : DNSCall → Bool
  | .createRec _ => true
  | .updateRec _ => true
  | .deleteRec _ _ => true
  | _ => false

/-- Oracle for the remote DNS API as seen by one pass (dnsClient plus
client.GetZoneID plus getPublicIP). -/
structure DNSRemote where
  createResult : DNSRecord → Except String DNSRecord
  updateResult : DNSRecord → Except String DNSRecord
  recordByName : String → String → Except String (Option DNSRecord)
  zoneID : String → Except String String
  publicIP : Except String String

/-- strings.Contains on the character sequences of the two strings. -/
def goContains (s sub : String) : Bool := decide (List.IsInfix sub.data s.data)

/-- isAlreadyExistsError: the error text contains "already exists". -/
def isAlreadyExistsError (err : String) : Bool := goContains err ("already exists")

/-- DNSOperatorImpl.resolveTarget: "auto" or empty queries the external
public-IP endpoints (one oracle read), "container" takes the first
container network address, anything else passes through. -/
def resolveTarget (remote : DNSRemote) (target : String) (container : ContainerInfo) :
    Except String String × List DNSCall :=
  if target = "auto" ∨ target = "" then (remote.publicIP, [.fetchIP])
  else if target = "container" then
    match container.networks.head? with
    | some p => (.ok p.2, [])
    | none => (.error ("container has no network IP"), [])
  else (.ok target, [])

/-- The record literal CreateDNSRecord sends to the remote API. -/
def dnsRecordFor (service : DNSService) (zid target : String) (container : ContainerInfo) :
    DNSRecord :=
  ⟨"", zid, service.hostname, service.recType, target, service.proxied, service.ttl,
   service.priority,
   "Managed by labelgate [container:" ++ container.name ++ " service:" ++ service.serviceName ++ "]"⟩

/-- The ledger row CreateDNSRecord persists after a successful (or adopted)
remote creation. -/
def dnsSavedResource (service : DNSService) (container : ContainerInfo)
    (zid target cfid : String) : ManagedResource :=
  { blankResource with
    resourceType := .dns, cfID := cfid, zoneID := zid, hostname := service.hostname,
    recordType := service.recType, content := target, proxied := service.proxied,
    ttl := service.ttl, containerID := container.id, containerName := container.name,
    serviceName := service.serviceName, status := .active, cleanupEnabled := service.cleanup }

/-- DNSOperatorImpl.CreateDNSRecord.  Credential resolution makes no remote
call and is not modelled; the SaveResource at the end is performed by the
caller (the reconcile pass), which also receives the remote call log.
On a remote already-exists conflict the operator looks the record up by
name and record type and adopts it instead of failing. -/
def createDNSRecord (remote : DNSRemote) (container : ContainerInfo) (service : DNSService) :
    Except String ManagedResource × List DNSCall :=
  match resolveTarget remote service.target container with
  | (.error e, cs) => (.error ("failed to resolve target: " ++ e), cs)
  | (.ok target, cs) =>
    match remote.zoneID service.hostname with
    | .error e => (.error e, cs ++ [.getZone service.hostname])
    | .ok zid =>
      let record := dnsRecordFor service zid target container
      match remote.createResult record with
      | .ok created =>
          (.ok (dnsSavedResource service container zid target created.id),
           cs ++ [.getZone service.hostname, .createRec record])
      | .error err =>
          if isAlreadyExistsError err then
            match remote.recordByName service.hostname service.recType with
            | .ok (some existing) =>
                (.ok (dnsSavedResource service container zid target existing.id),
                 cs ++ [.getZone service.hostname, .createRec record,
                        .getByName service.hostname service.recType])
            | _ =>
                (.error err,
                 cs ++ [.getZone service.hostname, .createRec record,
                        .getByName service.hostname service.recType])
          else
            (.error err, cs ++ [.getZone service.hostname, .createRec record])

/-- DNSOperatorImpl.UpdateDNSRecord.  A missing CFID or zone ID is first
recovered by the same name-and-type lookup; the update fails outright only
when that lookup also finds nothing.  The SaveResource at the end is
performed by the caller, which receives the row to persist. -/
def updateDNSRecord (remote : DNSRemote) (resource : ManagedResource) (service : DNSService) :
    Except String ManagedResource × List DNSCall :=
  let recov : Except String ManagedResource × List DNSCall :=
    if resource.cfID = "" ∨ resource.zoneID = "" then
      match remote.recordByName service.hostname service.recType with
      | .ok (some existing) =>
          (.ok { resource with cfID := existing.id, zoneID := existing.zoneID },
           [.getByName service.hostname service.recType])
      | _ =>
          (.error ("cannot update: record not found in Cloudflare and no CFID in storage for "
                     ++ service.hostname),
           [.getByName service.hostname service.recType])
    else (.ok resource, [])
  match recov with
  | (.error e, cs) => (.error e, cs)
  | (.ok res, cs) =>
    let tr : Except String String × List DNSCall :=
      if service.target = "auto" ∨ service.target = "" then (remote.publicIP, [.fetchIP])
      else (.ok service.target, [])
    match tr with
    | (.error e, cs2) => (.error e, cs ++ cs2)
    | (.ok target, cs2) =>
      let record : DNSRecord :=
        ⟨res.cfID, res.zoneID, service.hostname, service.recType, target,
         service.proxied, service.ttl, service.priority, ""⟩
      match remote.updateResult record with
      | .error e => (.error e, cs ++ cs2 ++ [.updateRec record])
      | .ok _ =>
          let row : ManagedResource :=
            { res with content := target, proxied := service.proxied, ttl := service.ttl,
                       serviceName := service.serviceName, cleanupEnabled := service.cleanup }
          (.ok row, cs ++ cs2 ++ [.updateRec record])

/-- needsUpdate: the kind-specific drift check of the DNS operator.  A
symbolic "auto" target skips the content comparison entirely. -/
def needsUpdate (current : ManagedResource) (desired : DNSService) : Bool :=
  if desired.target ≠ "auto" ∧ desired.target ≠ current.content then true
  else if desired.proxied ≠ current.proxied then true
  else if desired.ttl ≠ current.ttl ∧ desired.ttl ≠ 0 then true
  else if desired.serviceName ≠ current.serviceName then true
  else false

/-- The condition under which DNSOperatorImpl.Reconcile attempts a remote
update on an existing ledger row: previous status error or orphaned, or
kind-specific drift. -/
def dnsUpdateBranch (current : ManagedResource) (desired : DNSService) : Bool :=
  decide (current.status = .error) || decide (current.status = .orphaned)
    || needsUpdate current desired

/-- One desired DNS entry together with its owning container
(the desiredDNS struct of the operator). -/
structure DesiredDNS where
  container : ParsedContainer
  service : DNSService
deriving DecidableEq, Repr

/-- The desired-map key of a DNS service: hostname plus record type. -/
def dnsKeyOf (svc : DNSService) : String := svc.hostname ++ ":" ++ svc.recType

/-- First-wins insertion into the desired map of the DNS operator
(duplicate keys within a pass are dropped with a warning). -/
def firstWinsInsertDNS (m : List (String × DesiredDNS)) (k : String) (v : DesiredDNS) :
    List (String × DesiredDNS) :=
  if m.any (fun p => decide (p.1 = k)) then m else m ++ [(k, v)]

/-- The desiredMap construction of DNSOperatorImpl.Reconcile. -/
def buildDesiredDNSMap (desired : List ParsedContainer) : List (String × DesiredDNS) :=
  desired.foldl (fun m c =>
    c.dnsServices.foldl (fun m svc => firstWinsInsertDNS m (dnsKeyOf svc) ⟨c, svc⟩) m) []

/-- The ledger-side key of a row: hostname plus record type. -/
def keyStr (r : ManagedResource) : String := r.hostname ++ ":" ++ r.recordType

/-- The status filter of the operator ledger queries:
status IN (active, error, orphaned). -/
def dnsListedStatus (s : ResourceStatus) : Bool :=
  decide (s = .active) || decide (s = .error) || decide (s = .orphaned)

/-- Plain Go map write: overwrite the value when the key exists, append
otherwise. -/
def overwriteInsert (m : List (String × ManagedResource)) (k : String) (v : ManagedResource) :
    List (String × ManagedResource) :=
  if m.any (fun p => decide (p.1 = k)) then m.map (fun p => if p.1 = k then (k, v) else p)
  else m ++ [(k, v)]

/-- The currentMap construction of DNSOperatorImpl.Reconcile. -/
def buildDNSCurrentMap (ledger : List ManagedResource) : List (String × ManagedResource) :=
  (ledger.filter (fun r => decide (r.resourceType = .dns) && dnsListedStatus r.status)).foldl
    (fun m r => overwriteInsert m (keyStr r) r) []

/-- Association-list lookup (Go map read). -/
def lookupKey {α : Type} (m : List (String × α)) (k : String) : Option α :=
  (m.find? (fun p => decide (p.1 = k))).map (fun p => p.2)

/-- Association-list removal (Go delete). -/
def removeKey {α : Type} (m : List (String × α)) (k : String) : List (String × α) :=
  m.filter (fun p => !(decide (p.1 = k)))

/-- The error-state ledger row DNSOperatorImpl.Reconcile persists when a
remote creation fails, so the dashboard can see the failure. -/
def dnsErrResource (d : DesiredDNS) (msg : String) : ManagedResource :=
  { blankResource with
    resourceType := .dns, hostname := d.service.hostname, recordType := d.service.recType,
    content := d.service.target, proxied := d.service.proxied, ttl := d.service.ttl,
    containerID := d.container.info.id, containerName := d.container.info.name,
    serviceName := d.service.serviceName, agentID := d.container.agentID,
    status := .error, lastError := msg, cleanupEnabled := d.service.cleanup }

/-- Running state of one DNS reconcile pass: the shrinking current map, the
ledger, and the log of remote calls issued so far. -/
structure DNSPassState where
  currentMap : List (String × ManagedResource)
  ledger : List ManagedResource
  calls : List DNSCall
deriving Repr

/-- The body of the desired-entry loop of DNSOperatorImpl.Reconcile for a
single entry: create when absent from the current map (persisting an
error row when the creation fails), otherwise patch a changed agent id,
take the update branch when the previous status was error or orphaned or
the drift check fires, and drop the key from the current map. -/
def dnsStep (remote : DNSRemote) (now : Int) (st : DNSPassState) (e : String × DesiredDNS) :
    DNSPassState :=
  let d := e.2
  match lookupKey st.currentMap e.1 with
  | none =>
    match createDNSRecord remote d.container.info d.service with
    | (.error err, cs) =>
        { st with ledger := (saveResource now st.ledger (dnsErrResource d err)).2,
                  calls := st.calls ++ cs }
    | (.ok resource, cs) =>
        let (saved, ledger1) := saveResource now st.ledger resource
        let ledger2 :=
          if d.container.agentID ≠ "" then
            (saveResource now ledger1 { saved with agentID := d.container.agentID }).2
          else ledger1
        { st with ledger := ledger2, calls := st.calls ++ cs }
  | some current =>
    let patchPair :=
      if current.agentID ≠ d.container.agentID then
        saveResource now st.ledger { current with agentID := d.container.agentID }
      else (current, st.ledger)
    let current1 := patchPair.1
    let ledger1 := patchPair.2
    let next :=
      if dnsUpdateBranch current1 d.service then
        match updateDNSRecord remote current1 d.service with
        | (.error msg, cs) =>
            (updateResourceError now ledger1 current1.id .error msg, cs)
        | (.ok updatedRow, cs) =>
            let l2 := (saveResource now ledger1 updatedRow).2
            let l3 :=
              if current1.lastError ≠ "" ∨ current1.status ≠ .active then
                updateResourceError now l2 current1.id .active ""
              else l2
            (l3, cs)
      else (ledger1, [])
    { currentMap := removeKey st.currentMap e.1, ledger := next.1,
      calls := st.calls ++ next.2 }

/-- The orphan-marking tail of DNSOperatorImpl.Reconcile: every ledger row
left in the current map is transitioned to orphaned unless it already is. -/
def dnsOrphanPhase (now : Int) (st : DNSPassState) : DNSPassState :=
  st.currentMap.foldl (fun acc p =>
    if p.2.status ≠ .orphaned then
      { acc with ledger := updateResourceStatus now acc.ledger p.2.id .orphaned }
    else acc) st

/-- DNSOperatorImpl.Reconcile: one full DNS reconcile pass. -/
def dnsReconcile (remote : DNSRemote) (now : Int) (desired : List ParsedContainer)
    (ledger : List ManagedResource) : DNSPassState :=
  let desiredMap := buildDesiredDNSMap desired
  let st0 : DNSPassState := ⟨buildDNSCurrentMap ledger, ledger, []⟩
  dnsOrphanPhase now (desiredMap.foldl (dnsStep remote now) st0)

/-! ### Access operator model (internal/operator/access/access.go) -/

/-- A remote call issued by the access operator.  ensureApp stands for
EnsureAccessForHostname, which always mutates the remote system (it
creates account-level reusable policies and then creates or updates the
application); findExisting is the read-only list-and-scan probe. -/
inductive AccessCall where
  | findExisting (hostname : String)
  | ensureApp (hostname existingAppID : String)
  | deleteApp (appID : String)
deriving DecidableEq, Repr

/-- Whether an access call mutates the remote system. -/
def isMutatingAccessCall : AccessCall → Bool
  | .findExisting _ => false
  | .ensureApp _ _ => true
  | .deleteApp _ => true

/-- Oracle for the remote Zero Trust API as seen by one pass.
findExistingApp returns (appID, appName), with an empty appID meaning no
application is bound to the hostname; ensureResult is the outcome of
EnsureAccessForHostname given the hostname and the existing app id. -/
structure AccessRemote where
  findExistingApp : String → Except String (String × String)
  ensureResult : String → String → Except String String

/-- The conflict error EnsureAccess produces when the remote system already
has an application bound to the hostname that labelgate does not manage. -/
def accessConflictMessage (appName appID hostname : String) : String :=
  "access application \"" ++ appName ++ "\" (ID: " ++ appID ++ ") already exists for hostname "
    ++ hostname ++ ", not managed by labelgate — refusing to overwrite"

/-- The ledger row EnsureAccess persists after a successful creation. -/
def accessSavedResource (binding : AccessBinding) (appID accountID : String) :
    ManagedResource :=
  { blankResource with
    resourceType := .accessApp, hostname := binding.hostname, cfID := appID,
    accessAppID := appID, accountID := accountID, containerID := binding.containerID,
    containerName := binding.containerName, serviceName := binding.serviceName,
    agentID := binding.agentID, status := .active, cleanupEnabled := binding.cleanup }

/-- AccessOperatorImpl.EnsureAccess.  Before creating, the operator probes
the remote system for a pre-existing application bound to the hostname and
refuses to overwrite one; a failed probe is non-fatal and creation
proceeds.  The SaveResource at the end is performed by the caller. -/
def ensureAccess (remote : AccessRemote) (accountID : String) (binding : AccessBinding) :
    Except String ManagedResource × List AccessCall :=
  if accountID = "" then (.error ("account ID is required for access operations"), [])
  else
    let probe := remote.findExistingApp binding.hostname
    let conflict : Option String :=
      match probe with
      | .error _ => none
      | .ok (appID, appName) =>
          if appID ≠ "" then some (accessConflictMessage appName appID binding.hostname)
          else none
    match conflict with
    | some msg => (.error msg, [.findExisting binding.hostname])
    | none =>
      match remote.ensureResult binding.hostname "" with
      | .error e => (.error e, [.findExisting binding.hostname, .ensureApp binding.hostname ""])
      | .ok appID =>
          (.ok (accessSavedResource binding appID accountID),
           [.findExisting binding.hostname, .ensureApp binding.hostname ""])

/-- AccessOperatorImpl.updateAccess: unconditionally re-runs
EnsureAccessForHostname against the existing application and rewrites the
ledger row with the binding ownership fields.  The SaveResource at the end
is performed by the caller, which receives the row to persist. -/
def updateAccess (remote : AccessRemote) (existing : ManagedResource)
    (binding : AccessBinding) : Except String ManagedResource × List AccessCall :=
  match remote.ensureResult binding.hostname existing.accessAppID with
  | .error e => (.error e, [.ensureApp binding.hostname existing.accessAppID])
  | .ok _ =>
      let row : ManagedResource :=
        { existing with containerID := binding.containerID,
                        containerName := binding.containerName,
                        serviceName := binding.serviceName, agentID := binding.agentID,
                        cleanupEnabled := binding.cleanup }
      (.ok row, [.ensureApp binding.hostname existing.accessAppID])

/-- The error-state ledger row ReconcileBindings persists when a creation
fails. -/
def accessErrResource (hostname : String) (binding : AccessBinding) (msg : String) :
    ManagedResource :=
  { blankResource with
    resourceType := .accessApp, hostname := hostname, containerID := binding.containerID,
    containerName := binding.containerName, serviceName := binding.serviceName,
    agentID := binding.agentID, status := .error, lastError := msg,
    cleanupEnabled := binding.cleanup }

/-- The desiredMap construction of ReconcileBindings: a plain map write per
binding, keyed by hostname (a later binding for the same hostname
overwrites an earlier one; the reconciler has already deduplicated). -/
def buildAccessDesiredMap (bindings : List AccessBinding) : List (String × AccessBinding) :=
  bindings.foldl (fun m b =>
    if m.any (fun p => decide (p.1 = b.hostname)) then
      m.map (fun p => if p.1 = b.hostname then (b.hostname, b) else p)
    else m ++ [(b.hostname, b)]) []

/-- The currentMap construction of ReconcileBindings, keyed by hostname. -/
def buildAccessCurrentMap (ledger : List ManagedResource) : List (String × ManagedResource) :=
  (ledger.filter (fun r => decide (r.resourceType = .accessApp) && dnsListedStatus r.status)).foldl
    (fun m r => overwriteInsert m r.hostname r) []

/-- Running state of one access reconcile pass. -/
structure AccessPassState where
  currentMap : List (String × ManagedResource)
  ledger : List ManagedResource
  calls : List AccessCall
deriving Repr

/-- The body of the desired-binding loop of ReconcileBindings for a single
entry: update when a ledger row exists for the hostname (clearing a
previous error on success), otherwise create, persisting an error row on
failure. -/
def accessStep (remote : AccessRemote) (accountID : String) (now : Int)
    (st : AccessPassState) (e : String × AccessBinding) : AccessPassState :=
  let binding := e.2
  match lookupKey st.currentMap e.1 with
  | some existing =>
    let next :=
      match updateAccess remote existing binding with
      | (.error msg, cs) =>
          (updateResourceError now st.ledger existing.id .error msg, cs)
      | (.ok row, cs) =>
          let l2 := (saveResource now st.ledger row).2
          let l3 :=
            if existing.lastError ≠ "" ∨ existing.status ≠ .active then
              updateResourceError now l2 existing.id .active ""
            else l2
          (l3, cs)
    { currentMap := removeKey st.currentMap e.1, ledger := next.1,
      calls := st.calls ++ next.2 }
  | none =>
    match ensureAccess remote accountID binding with
    | (.error msg, cs) =>
        { st with ledger := (saveResource now st.ledger (accessErrResource e.1 binding msg)).2,
                  calls := st.calls ++ cs }
    | (.ok resource, cs) =>
        { st with ledger := (saveResource now st.ledger resource).2,
                  calls := st.calls ++ cs }

/-- The orphan-marking tail of ReconcileBindings. -/
def accessOrphanPhase (now : Int) (st : AccessPassState) : AccessPassState :=
  st.currentMap.foldl (fun acc p =>
    if p.2.status ≠ .orphaned then
      { acc with ledger := updateResourceStatus now acc.ledger p.2.id .orphaned }
    else acc) st

/-- AccessOperatorImpl.ReconcileBindings: one full access reconcile pass. -/
def accessReconcile (remote : AccessRemote) (accountID : String) (now : Int)
    (bindings : List AccessBinding) (ledger : List ManagedResource) : AccessPassState :=
  let desiredMap := buildAccessDesiredMap bindings
  let st0 : AccessPassState := ⟨buildAccessCurrentMap ledger, ledger, []⟩
  accessOrphanPhase now (desiredMap.foldl (accessStep remote accountID now) st0)

/-! ### Credential router (the cloudflare credential manager file) -/

/-- A configured Cloudflare credential.  isDefault models the Default flag. -/
structure Credential where
  name : String
  apiToken : String
  zones : List String
  isDefault : Bool
deriving DecidableEq, Repr

/-- strings.HasSuffix on the character sequences of the two strings. -/
def goHasSuffix (s suffix : String) : Bool := suffix.data.isSuffixOf s.data

/-- strings.HasPrefix on the character sequences of the two strings. -/
def goHasPrefix (s pre : String) : Bool := pre.data.isPrefixOf s.data

/-- strings.TrimSuffix: remove one trailing occurrence of the suffix. -/
def goTrimSuffix (s suffix : String) : String :=
  if goHasSuffix s suffix then ⟨s.data.take (s.data.length - suffix.data.length)⟩ else s

/-- String slicing from a character offset (zone[2:] on ASCII zones). -/
def stringDropChars (s : String) (n : Nat) : String := ⟨s.data.drop n⟩

/-- matchZone: does the hostname belong to one of the credential zones?  A
zone matches exactly, as a dot suffix, or as a "*."-prefixed wildcard
whose base domain matches exactly or as a dot suffix. -/
def matchZone (cred : Credential) (hostname : String) : Bool :=
  let hostname := goTrimSuffix hostname (".")
  cred.zones.any (fun zone0 =>
    let zone := goTrimSuffix zone0 (".")
    decide (hostname = zone)
      || goHasSuffix hostname ("." ++ zone)
      || (goHasPrefix zone ("*.") &&
            (let baseDomain := stringDropChars zone 2
             decide (hostname = baseDomain) || goHasSuffix hostname ("." ++ baseDomain))))

/-- The credential list and default of a CredentialManager. -/
structure CredentialManager where
  credentials : List Credential
  defaultCredential : Option Credential
deriving Repr

/-- CredentialManager.GetCredentialForZone: an explicit credential name
wins outright (and is an error when absent), otherwise the first
credential whose zone list matches the hostname, otherwise the default. -/
def getCredentialForZone (cm : CredentialManager) (hostname explicitCredName : String) :
    Except String Credential :=
  if explicitCredName ≠ "" then
    match cm.credentials.find? (fun c => decide (c.name = explicitCredName)) with
    | some c => .ok c
    | none => .error ("credential not found: " ++ explicitCredName)
  else
    match cm.credentials.find? (fun c => matchZone c hostname) with
    | some c => .ok c
    | none =>
      match cm.defaultCredential with
      | some d => .ok d
      | none => .error ("no matching credential found for hostname: " ++ hostname)

/-! ### Per-client zone resolution (Client.matchZoneForHostname)

The walk operates on the character sequence of the hostname. -/

/-- Drop everything up to and including the first dot
(candidate = candidate[strings.Index(candidate, ".")+1:]); none when the
candidate contains no dot (the loop break). -/
def stripThroughDot : List Char → Option (List Char)
  | [] => none
  | c :: rest => if c = '.' then some rest else stripThroughDot rest

/-- strings.TrimSuffix(hostname, ".") on a character sequence. -/
def trimTrailingDot (h : List Char) : List Char :=
  if h.getLast? = some '.' then h.dropLast else h

/-- The zone cache read (zoneCache[candidate]). -/
def lookupZone (cache : List (List Char × String)) (name : List Char) : Option String :=
  (cache.find? (fun p => decide (p.1 = name))).map (fun p => p.2)

/-- The candidate walk of matchZoneForHostname: try the candidate against
the cache, then strip the leading label and repeat; the first hit is
returned. -/
def matchZoneLoop (cache : List (List Char × String)) (cand : List Char) :
    Option (List Char × String) :=
  if h : cand = [] then none
  else
    match lookupZone cache cand with
    | some zid => some (cand, zid)
    | none =>
      match hs : stripThroughDot cand with
      | none => none
      | some next => matchZoneLoop cache next
termination_by cand.length
decreasing_by
  have key : ∀ (l res : List Char), stripThroughDot l = some res → res.length < l.length := by
    intro l
    induction l with
    | nil => intro res hr; simp [stripThroughDot] at hr
    | cons b bs ih =>
      intro res hr
      simp only [stripThroughDot] at hr
      split at hr
      · cases hr; simp
      · have := ih res hr
        simp only [List.length_cons]
        omega
  exact key cand next hs

/-- Client.matchZoneForHostname: trim a trailing dot, then walk the
hostname labels from most to least specific. -/
def matchZoneForHostname (cache : List (List Char × String)) (hostname : List Char) :
    Option (List Char × String) :=
  matchZoneLoop cache (trimTrailingDot hostname)

/-- A zone name that is the hostname itself or a dot-separated suffix of
it: exactly the candidates the walk can try. -/
def IsDotSuffix (z h : List Char) : Prop := z = h ∨ ('.' :: z) <:+ h

/-! ### Derived predicates and concrete instances used by the statements -/

/-- All DNS hostnames declared anywhere in a desired list. -/
def allDNSHostnames (cs : List ParsedContainer) : List String :=
  cs.flatMap (fun c => c.dnsServices.map (fun svc => svc.hostname))

/-- All tunnel hostnames declared anywhere in a desired list. -/
def allTunnelHostnames (cs : List ParsedContainer) : List String :=
  cs.flatMap (fun c => c.tunnelServices.map (fun svc => svc.hostname))

/-- Membership in the conflicted-hostname set of the conflict resolver. -/
def isConflicted (cs : List ParsedContainer) (h : String) : Bool :=
  (conflictedHostnames cs).contains h

/-- Rows of the naming kind bearing a given hostname-plus-record-type key. -/
def dnsKeyP (k : String) (r : ManagedResource) : Bool :=
  decide (r.resourceType = .dns) && decide (keyStr r = k)

/-- Rows of the access kind bearing a given hostname. -/
def accessKeyP (h : String) (r : ManagedResource) : Bool :=
  decide (r.resourceType = .accessApp) && decide (r.hostname = h)

/-- A concrete access policy template. -/
def cPolicyDef : AccessPolicyDef := ⟨"internal", "", "24h"⟩

/-- A concrete resolved access binding. -/
def cBinding : AccessBinding := ⟨"app.example.com", cPolicyDef, "c1", "web", "svc", "", true, ""⟩

/-- A concrete remote oracle: no pre-existing application, every
EnsureAccessForHostname call succeeds with the same app id. -/
def cAccessRemote : AccessRemote :=
  ⟨fun _ => .ok ("", ""), fun _ _ => .ok ("app-123")⟩

/-- A concrete orphaned ledger row with cleanup enabled. -/
def cOrphanCleanupRow : ManagedResource :=
  { blankResource with
    id := "r1", hostname := "a.example.com", recordType := "A",
    status := .orphaned, cleanupEnabled := true, updatedAt := 50 }

/-- A concrete orphaned ledger row with cleanup disabled. -/
def cOrphanKeepRow : ManagedResource :=
  { blankResource with
    id := "r2", hostname := "b.example.com", recordType := "A",
    status := .orphaned, cleanupEnabled := false, updatedAt := 50 }

/-- Per-container effect of conflict resolution: drop exactly the tunnel
services with conflicted hostnames, keep everything else. -/
def dropConflictedTunnels (cs : List ParsedContainer) (c : ParsedContainer) : ParsedContainer :=
  { c with tunnelServices :=
      c.tunnelServices.filter (fun svc => !(isConflicted cs svc.hostname)) }

/-- A concrete desired naming service with the symbolic "auto" target. -/
def cAutoService : DNSService :=
  ⟨"web", "a.example.com", "A", "auto", true, 0, "", true, "", 0⟩

/-- A concrete active naming ledger row for the service above. -/
def cActiveRow : ManagedResource :=
  { blankResource with
    id := "r3", hostname := "a.example.com", recordType := "A",
    content := "1.2.3.4", proxied := true, ttl := 0, serviceName := "web",
    status := .active }

/-- A concrete credential owning the wildcard zone *.example.com. -/
def cWildCred : Credential := ⟨"wild", "tok", ["*.example.com"], false⟩

/-- A concrete default credential with no zone list. -/
def cDefCred : Credential := ⟨"fallback", "tok2", [], true⟩

/-- A concrete credential manager. -/
def cCredManager : CredentialManager := ⟨[cWildCred, cDefCred], some cDefCred⟩

/-- A concrete naming declaration for web.example.com. -/
def cDNSService0 : DNSService :=
  ⟨"w", "web.example.com", "A", "1.2.3.4", false, 300, "", true, "", 0⟩

/-- A concrete tunnel declaration colliding with the naming hostname. -/
def cTunnelSvcConf : TunnelService :=
  ⟨"t1", "web.example.com", "http://app:80", "default", "", "", true, "", none⟩

/-- A concrete tunnel declaration with an unrelated hostname. -/
def cTunnelSvcOther : TunnelService :=
  ⟨"t2", "other.example.com", "http://app:81", "default", "", "", true, "", none⟩

/-- A concrete container declaring only the naming service. -/
def cDNSContainer : ParsedContainer := ⟨⟨"idA", "contA", []⟩, [cDNSService0], [], [], ""⟩

/-- A concrete container declaring the two tunnel services. -/
def cTunnelContainer : ParsedContainer :=
  ⟨⟨"idB", "contB", []⟩, [], [cTunnelSvcConf, cTunnelSvcOther], [], ""⟩

/-- A concrete zone cache holding example.com and b.example.com. -/
def cZoneCache : List (List Char × String) :=
  [("example.com".data, "zid-ex"), ("b.example.com".data, "zid-b")]

/-- A concrete remote DNS record already present in the remote system. -/
def cExistingRec : DNSRecord :=
  ⟨"cf-42", "zone-1", "web.example.com", "A", "198.51.100.7", false, 300, 0, ""⟩

/-- A concrete remote oracle whose create always reports an already-exists
conflict while lookup finds the record above. -/
def cDNSRemoteConflict : DNSRemote :=
  ⟨fun _ => .error ("record already exists (81058)"),
   fun r => .ok r,
   fun _ _ => .ok (some cExistingRec),
   fun _ => .ok ("zone-1"),
   .ok ("198.51.100.7")⟩

/-- Well-formed row ids: either not of the shape the uuid model generates
(an id that predates labelgate management), or exactly the fresh id the
save path derives from the row key.  Every ledger a pass produces from a
well-formed one stays well-formed. -/
def idOKb (q : ManagedResource) : Prop :=
  goHasPrefix q.id ("uuid:") = false ∨ q.id = freshID q

/-- A concrete remote oracle whose creation always fails with a
non-conflict error. -/
def cDNSRemoteFail : DNSRemote :=
  ⟨fun _ => .error ("token expired"),
   fun r => .ok r,
   fun _ _ => .ok none,
   fun _ => .ok ("zone-1"),
   .ok ("198.51.100.7")⟩

/-- A concrete remote oracle with a pre-existing unmanaged application
bound to every probed hostname. -/
def cAccessRemoteConflict : AccessRemote :=
  ⟨fun _ => .ok ("app-9", "legacy"), fun _ _ => .ok ("x")⟩

/-- A concrete active naming row already converged with cDNSService0. -/
def cConvergedRow : ManagedResource :=
  { blankResource with
    id := "r9", resourceType := .dns, hostname := "web.example.com", recordType := "A",
    content := "1.2.3.4", proxied := false, ttl := 300, serviceName := "w",
    status := .active }

/-! ## Theorems -/

/-- Membership in the ListOrphanedForCleanup result. -/
theorem mem_listOrphanedForCleanup {ledger : List ManagedResource} {cutoff : Int}
    {r : ManagedResource} :
    r ∈ listOrphanedForCleanup ledger cutoff ↔
      r ∈ ledger ∧ r.status = .orphaned ∧ r.cleanupEnabled = true ∧ r.updatedAt < cutoff := by
  simp [listOrphanedForCleanup, orphanRemoteSelect, List.mem_filter, and_assoc]

/-- Membership in the ListExpiredOrphans result. -/
theorem mem_listExpiredOrphans {ledger : List ManagedResource} {cutoff : Int}
    {r : ManagedResource} :
    r ∈ listExpiredOrphans ledger cutoff ↔
      r ∈ ledger ∧ r.status = .orphaned ∧ r.cleanupEnabled = false ∧ r.updatedAt < cutoff := by
  simp [listExpiredOrphans, orphanExpirySelect, List.mem_filter, and_assoc]

/-- C3: in every reconcile pass, the remote-delete-plus-row-delete path
selects exactly the ledger entries that are orphaned with cleanupEnabled
true past the remove delay; the row-only-delete path selects only entries
that are orphaned with cleanupEnabled false past the orphan TTL, and only
when the orphan TTL is configured; every remote delete of the phase comes
from the first selection; and no entry is selected by both paths. -/
theorem C3_orphan_cleanup_exclusivity (ledger : List ManagedResource)
    (now removeDelay orphanTTL : Int) (remoteOk : ManagedResource → Bool)
    (r : ManagedResource) :
    (r ∈ (orphanProcessing now removeDelay orphanTTL remoteOk ledger).remoteDeleteTargets ↔
       r ∈ ledger ∧ r.status = .orphaned ∧ r.cleanupEnabled = true
         ∧ r.updatedAt < now - removeDelay)
    ∧ ((orphanProcessing now removeDelay orphanTTL remoteOk ledger).remoteCalls
        = ((orphanProcessing now removeDelay orphanTTL remoteOk ledger).remoteDeleteTargets).map
            orphanDeleteCall)
    ∧ (r ∈ (orphanProcessing now removeDelay orphanTTL remoteOk ledger).dbExpiryTargets →
         orphanTTL > 0 ∧ r ∈ ledger ∧ r.status = .orphaned ∧ r.cleanupEnabled = false
           ∧ r.updatedAt < now - orphanTTL)
    ∧ ¬(r ∈ (orphanProcessing now removeDelay orphanTTL remoteOk ledger).remoteDeleteTargets
         ∧ r ∈ (orphanProcessing now removeDelay orphanTTL remoteOk ledger).dbExpiryTargets) := by
  have hsel : r ∈ (orphanProcessing now removeDelay orphanTTL remoteOk ledger).remoteDeleteTargets ↔
      r ∈ ledger ∧ r.status = .orphaned ∧ r.cleanupEnabled = true
        ∧ r.updatedAt < now - removeDelay := by
    show r ∈ listOrphanedForCleanup ledger (now - removeDelay) ↔ _
    exact mem_listOrphanedForCleanup
  have hexp : r ∈ (orphanProcessing now removeDelay orphanTTL remoteOk ledger).dbExpiryTargets →
      orphanTTL > 0 ∧ r ∈ ledger ∧ r.status = .orphaned ∧ r.cleanupEnabled = false
        ∧ r.updatedAt < now - orphanTTL := by
    intro hr
    show orphanTTL > 0 ∧ _
    by_cases hp : orphanTTL > 0
    · have hr2 : r ∈ listExpiredOrphans
          ((ledger.filter (fun q => !(((listOrphanedForCleanup ledger (now - removeDelay)).filter
            remoteOk).map (fun s => s.id)).contains q.id))) (now - orphanTTL) := by
        simpa [orphanProcessing, hp] using hr
      have := mem_listExpiredOrphans.mp hr2
      exact ⟨hp, List.mem_filter.mp this.1 |>.1, this.2.1, this.2.2.1, this.2.2.2⟩
    · simp [orphanProcessing, hp] at hr
  refine ⟨hsel, rfl, hexp, ?_⟩
  rintro ⟨h1, h2⟩
  have e1 := (hsel.mp h1).2.2.1
  have e2 := (hexp h2).2.2.2.1
  rw [e1] at e2
  exact Bool.true_eq_false.mp e2 |>.elim

/-- Witness for C3 at a concrete ledger. -/
theorem C3_orphan_cleanup_exclusivity_witness :
    (cOrphanCleanupRow ∈ (orphanProcessing 100 10 10 (fun _ => true)
        [cOrphanCleanupRow, cOrphanKeepRow]).remoteDeleteTargets ↔
       cOrphanCleanupRow ∈ [cOrphanCleanupRow, cOrphanKeepRow]
         ∧ cOrphanCleanupRow.status = .orphaned ∧ cOrphanCleanupRow.cleanupEnabled = true
         ∧ cOrphanCleanupRow.updatedAt < 100 - 10)
    ∧ ((orphanProcessing 100 10 10 (fun _ => true)
          [cOrphanCleanupRow, cOrphanKeepRow]).remoteCalls
        = ((orphanProcessing 100 10 10 (fun _ => true)
            [cOrphanCleanupRow, cOrphanKeepRow]).remoteDeleteTargets).map orphanDeleteCall)
    ∧ (cOrphanCleanupRow ∈ (orphanProcessing 100 10 10 (fun _ => true)
          [cOrphanCleanupRow, cOrphanKeepRow]).dbExpiryTargets →
         (10 : Int) > 0 ∧ cOrphanCleanupRow ∈ [cOrphanCleanupRow, cOrphanKeepRow]
           ∧ cOrphanCleanupRow.status = .orphaned ∧ cOrphanCleanupRow.cleanupEnabled = false
           ∧ cOrphanCleanupRow.updatedAt < 100 - 10)
    ∧ ¬(cOrphanCleanupRow ∈ (orphanProcessing 100 10 10 (fun _ => true)
          [cOrphanCleanupRow, cOrphanKeepRow]).remoteDeleteTargets
        ∧ cOrphanCleanupRow ∈ (orphanProcessing 100 10 10 (fun _ => true)
            [cOrphanCleanupRow, cOrphanKeepRow]).dbExpiryTargets) :=
  C3_orphan_cleanup_exclusivity [cOrphanCleanupRow, cOrphanKeepRow] 100 10 10
    (fun _ => true) cOrphanCleanupRow

/-- C4: an orphaned ledger entry with cleanupEnabled = false is never
selected by the remote-delete path (the only source of remote calls in
orphan processing), so no remote call is ever issued for it; with the
orphan TTL unset (not positive) the entry is never deleted at all, and
with a configured TTL only its ledger row is deleted, exactly once it is
orphaned past the TTL. -/
theorem C4_cleanup_disabled_is_remote_preserved (ledger : List ManagedResource)
    (now removeDelay orphanTTL : Int) (remoteOk : ManagedResource → Bool)
    (r : ManagedResource) (hmem : r ∈ ledger) (hc : r.cleanupEnabled = false)
    (hids : (ledger.map (fun q => q.id)).Nodup) :
    (r ∉ (orphanProcessing now removeDelay orphanTTL remoteOk ledger).remoteDeleteTargets)
    ∧ ((orphanProcessing now removeDelay orphanTTL remoteOk ledger).remoteCalls
        = ((orphanProcessing now removeDelay orphanTTL remoteOk ledger).remoteDeleteTargets).map
            orphanDeleteCall)
    ∧ (orphanTTL ≤ 0 → r ∈ (orphanProcessing now removeDelay orphanTTL remoteOk ledger).ledger)
    ∧ (orphanTTL > 0 →
        (r ∈ (orphanProcessing now removeDelay orphanTTL remoteOk ledger).ledger ↔
          ¬(r.status = .orphaned ∧ r.updatedAt < now - orphanTTL))) := by
  have hinj := List.inj_on_of_nodup_map hids
  have hnotsel : r ∉ listOrphanedForCleanup ledger (now - removeDelay) := by
    intro hr
    have hx := (mem_listOrphanedForCleanup.mp hr).2.2.1
    rw [hc] at hx
    exact absurd hx (by simp)
  have hdel : (((listOrphanedForCleanup ledger (now - removeDelay)).filter remoteOk).map
      (fun s => s.id)).contains r.id = false := by
    cases hcc : (((listOrphanedForCleanup ledger (now - removeDelay)).filter remoteOk).map
        (fun s => s.id)).contains r.id with
    | false => rfl
    | true =>
      exfalso
      obtain ⟨s, hs, hsid⟩ := List.mem_map.mp (List.elem_iff.mp hcc)
      have hst := (List.mem_filter.mp hs).1
      have hsl := (mem_listOrphanedForCleanup.mp hst).1
      obtain rfl := hinj hsl hmem hsid
      exact hnotsel hst
  have hr1 : r ∈ ledger.filter (fun q =>
      !((((listOrphanedForCleanup ledger (now - removeDelay)).filter remoteOk).map
          (fun s => s.id)).contains q.id)) := by
    refine List.mem_filter.mpr ⟨hmem, ?_⟩
    rw [hdel]
    rfl
  refine ⟨hnotsel, rfl, ?_, ?_⟩
  · intro hle
    have hng : ¬ orphanTTL > 0 := by omega
    show r ∈ _
    simp only [orphanProcessing, hng, if_false]
    simpa using hr1
  · intro hp
    show r ∈ _ ↔ _
    simp only [orphanProcessing, hp, if_true]
    rw [List.mem_filter]
    constructor
    · rintro ⟨_, hbool⟩ ⟨horph, hold⟩
      have hmemexp : r ∈ listExpiredOrphans (ledger.filter (fun q =>
          !((((listOrphanedForCleanup ledger (now - removeDelay)).filter remoteOk).map
              (fun s => s.id)).contains q.id))) (now - orphanTTL) :=
        mem_listExpiredOrphans.mpr ⟨hr1, horph, hc, hold⟩
      have hcontains : ((listExpiredOrphans (ledger.filter (fun q =>
          !((((listOrphanedForCleanup ledger (now - removeDelay)).filter remoteOk).map
              (fun s => s.id)).contains q.id))) (now - orphanTTL)).map
            (fun s => s.id)).contains r.id = true :=
        List.elem_iff.mpr (List.mem_map.mpr ⟨r, hmemexp, rfl⟩)
      rw [hcontains] at hbool
      exact absurd hbool (by simp)
    · intro hnot
      refine ⟨hr1, ?_⟩
      cases hcc : ((listExpiredOrphans (ledger.filter (fun q =>
          !((((listOrphanedForCleanup ledger (now - removeDelay)).filter remoteOk).map
              (fun s => s.id)).contains q.id))) (now - orphanTTL)).map
            (fun s => s.id)).contains r.id with
      | false => rfl
      | true =>
        exfalso
        obtain ⟨s, hs, hsid⟩ := List.mem_map.mp (List.elem_iff.mp hcc)
        have hsprop := mem_listExpiredOrphans.mp hs
        have hsl : s ∈ ledger := (List.mem_filter.mp hsprop.1).1
        obtain rfl := hinj hsl hmem hsid
        exact hnot ⟨hsprop.2.1, hsprop.2.2.2⟩

/-- Witness for C4 at a concrete ledger. -/
theorem C4_cleanup_disabled_is_remote_preserved_witness :
    (cOrphanKeepRow ∈ [cOrphanCleanupRow, cOrphanKeepRow]
      ∧ cOrphanKeepRow.cleanupEnabled = false
      ∧ ([cOrphanCleanupRow, cOrphanKeepRow].map (fun q => q.id)).Nodup)
    ∧ (cOrphanKeepRow ∉ (orphanProcessing 100 10 0 (fun _ => true)
        [cOrphanCleanupRow, cOrphanKeepRow]).remoteDeleteTargets)
    ∧ ((0 : Int) ≤ 0 → cOrphanKeepRow ∈ (orphanProcessing 100 10 0 (fun _ => true)
        [cOrphanCleanupRow, cOrphanKeepRow]).ledger) := by
  have h := C4_cleanup_disabled_is_remote_preserved [cOrphanCleanupRow, cOrphanKeepRow]
    100 10 0 (fun _ => true) cOrphanKeepRow (by decide) (by decide) (by decide)
  exact ⟨⟨by decide, by decide, by decide⟩, h.1, h.2.2.1⟩

/-- C10: for an active naming ledger row whose desired target is the
symbolic value "auto", the drift check never looks at the stored record
content — it is invariant under any change of the content, so a change of
the externally resolved public IP alone never triggers a remote update —
and the update branch fires exactly when the proxied flag differs, a
non-zero desired TTL differs, or the service name differs. -/
theorem C10_auto_target_content_never_drifts (current : ManagedResource)
    (desired : DNSService) (htarget : desired.target = "auto")
    (hactive : current.status = .active) :
    (∀ c : String, needsUpdate { current with content := c } desired
        = needsUpdate current desired)
    ∧ (dnsUpdateBranch current desired = true ↔
        (desired.proxied ≠ current.proxied
          ∨ (desired.ttl ≠ current.ttl ∧ desired.ttl ≠ 0)
          ∨ desired.serviceName ≠ current.serviceName)) := by
  constructor
  · intro c
    simp [needsUpdate, htarget]
  · simp only [dnsUpdateBranch, needsUpdate, htarget, hactive]
    simp only [ne_eq, not_true_eq_false, false_and, if_false]
    by_cases h1 : desired.proxied = current.proxied <;>
      by_cases h2 : desired.ttl = current.ttl <;>
        by_cases h3 : desired.ttl = 0 <;>
          by_cases h4 : desired.serviceName = current.serviceName <;>
            simp [h1, h2, h3, h4]

/-- Witness for C10 at a concrete row and service. -/
theorem C10_auto_target_content_never_drifts_witness :
    (cAutoService.target = "auto" ∧ cActiveRow.status = .active)
    ∧ (∀ c : String, needsUpdate { cActiveRow with content := c } cAutoService
        = needsUpdate cActiveRow cAutoService)
    ∧ (dnsUpdateBranch cActiveRow cAutoService = true ↔
        (cAutoService.proxied ≠ cActiveRow.proxied
          ∨ (cAutoService.ttl ≠ cActiveRow.ttl ∧ cAutoService.ttl ≠ 0)
          ∨ cAutoService.serviceName ≠ cActiveRow.serviceName)) := by
  have h := C10_auto_target_content_never_drifts cActiveRow cAutoService rfl rfl
  exact ⟨⟨rfl, rfl⟩, h.1, h.2⟩

/-- C9: credential resolution priority: an explicitly named credential is
returned outright when configured (and reported missing otherwise,
regardless of any zone match); with no explicit name the first configured
credential whose zone list matches the hostname wins; with no zone match
the default credential is used when present; and a wildcard zone
"*.example.com" matches both the base domain and any subdomain of it. -/
theorem C9_credential_resolution_priority :
    (∀ (cm : CredentialManager) (hostname name : String) (c : Credential),
       name ≠ "" → cm.credentials.find? (fun q => decide (q.name = name)) = some c →
       getCredentialForZone cm hostname name = .ok c)
    ∧ (∀ (cm : CredentialManager) (hostname name : String),
       name ≠ "" → cm.credentials.find? (fun q => decide (q.name = name)) = none →
       getCredentialForZone cm hostname name = .error ("credential not found: " ++ name))
    ∧ (∀ (cm : CredentialManager) (hostname : String) (c : Credential),
       cm.credentials.find? (fun q => matchZone q hostname) = some c →
       getCredentialForZone cm hostname "" = .ok c)
    ∧ (∀ (cm : CredentialManager) (hostname : String),
       cm.credentials.find? (fun q => matchZone q hostname) = none →
       getCredentialForZone cm hostname ""
         = (match cm.defaultCredential with
            | some d => .ok d
            | none => .error ("no matching credential found for hostname: " ++ hostname)))
    ∧ (matchZone cWildCred ("example.com") = true
       ∧ matchZone cWildCred ("foo.example.com") = true
       ∧ matchZone cWildCred ("other.com") = false) := by
  refine ⟨?_, ?_, ?_, ?_, by decide, by decide, by decide⟩
  · intro cm hostname name c hne hfind
    simp [getCredentialForZone, hne, hfind]
  · intro cm hostname name hne hfind
    simp [getCredentialForZone, hne, hfind]
  · intro cm hostname c hfind
    simp [getCredentialForZone, hfind]
  · intro cm hostname hfind
    simp [getCredentialForZone, hfind]

/-- Witness for C9 at a concrete credential manager. -/
theorem C9_credential_resolution_priority_witness :
    getCredentialForZone cCredManager ("foo.example.com") "" = .ok cWildCred
    ∧ getCredentialForZone cCredManager ("other.com") "" = .ok cDefCred
    ∧ getCredentialForZone cCredManager ("foo.example.com") ("fallback") = .ok cDefCred := by
  refine ⟨?_, ?_, ?_⟩
  · exact C9_credential_resolution_priority.2.2.1 cCredManager ("foo.example.com")
      cWildCred (by decide)
  · have h := C9_credential_resolution_priority.2.2.2.1 cCredManager ("other.com") (by decide)
    simpa [cCredManager] using h
  · exact C9_credential_resolution_priority.1 cCredManager ("foo.example.com") ("fallback")
      cDefCred (by decide) (by decide)

/-- Key membership after a first-wins map write. -/
theorem any_key_firstWinsInsert (m : List (String × String)) (k v h : String) :
    ((firstWinsInsert m k v).any (fun p => decide (p.1 = h)))
      = (m.any (fun p => decide (p.1 = h)) || decide (k = h)) := by
  unfold firstWinsInsert
  split
  · rename_i hc
    by_cases hk : k = h
    · subst hk
      simp [hc]
    · simp [hk]
  · simp [List.any_append]

/-- Key membership after folding the DNS services of one container into the
hostname map. -/
theorem any_key_svcFoldDNS (svcs : List DNSService) (cname : String)
    (m : List (String × String)) (h : String) :
    ((svcs.foldl (fun m svc => firstWinsInsert m svc.hostname cname) m).any
        (fun p => decide (p.1 = h)))
      = (m.any (fun p => decide (p.1 = h)) || svcs.any (fun s => decide (s.hostname = h))) := by
  induction svcs generalizing m with
  | nil => simp
  | cons s ss ih => simp [ih, any_key_firstWinsInsert, Bool.or_assoc]

/-- Key membership after folding the tunnel services of one container into
the hostname map. -/
theorem any_key_svcFoldTunnel (svcs : List TunnelService) (cname : String)
    (m : List (String × String)) (h : String) :
    ((svcs.foldl (fun m svc => firstWinsInsert m svc.hostname cname) m).any
        (fun p => decide (p.1 = h)))
      = (m.any (fun p => decide (p.1 = h)) || svcs.any (fun s => decide (s.hostname = h))) := by
  induction svcs generalizing m with
  | nil => simp
  | cons s ss ih => simp [ih, any_key_firstWinsInsert, Bool.or_assoc]

/-- The keys of the collected DNS-hostname map are exactly the declared DNS
hostnames. -/
theorem any_key_collectDNS (cs : List ParsedContainer) (h : String) :
    ((collectDNSHostnames cs).any (fun p => decide (p.1 = h)))
      = (cs.any (fun c => c.dnsServices.any (fun s => decide (s.hostname = h)))) := by
  suffices key : ∀ (cs : List ParsedContainer) (m : List (String × String)),
      ((cs.foldl (fun m c => c.dnsServices.foldl
          (fun m svc => firstWinsInsert m svc.hostname c.info.name) m) m).any
        (fun p => decide (p.1 = h)))
      = (m.any (fun p => decide (p.1 = h))
         || cs.any (fun c => c.dnsServices.any (fun s => decide (s.hostname = h)))) by
    simpa [collectDNSHostnames] using key cs []
  intro cs
  induction cs with
  | nil => intro m; simp
  | cons c cs ih =>
    intro m
    simp [List.foldl_cons, ih, any_key_svcFoldDNS, Bool.or_assoc]

/-- The keys of the collected tunnel-hostname map are exactly the declared
tunnel hostnames. -/
theorem any_key_collectTunnel (cs : List ParsedContainer) (h : String) :
    ((collectTunnelHostnames cs).any (fun p => decide (p.1 = h)))
      = (cs.any (fun c => c.tunnelServices.any (fun s => decide (s.hostname = h)))) := by
  suffices key : ∀ (cs : List ParsedContainer) (m : List (String × String)),
      ((cs.foldl (fun m c => c.tunnelServices.foldl
          (fun m svc => firstWinsInsert m svc.hostname c.info.name) m) m).any
        (fun p => decide (p.1 = h)))
      = (m.any (fun p => decide (p.1 = h))
         || cs.any (fun c => c.tunnelServices.any (fun s => decide (s.hostname = h)))) by
    simpa [collectTunnelHostnames] using key cs []
  intro cs
  induction cs with
  | nil => intro m; simp
  | cons c cs ih =>
    intro m
    simp [List.foldl_cons, ih, any_key_svcFoldTunnel, Bool.or_assoc]

/-- Declared-hostname membership as a Bool over containers. -/
theorem any_hostname_iff_mem_dns (cs : List ParsedContainer) (h : String) :
    (cs.any (fun c => c.dnsServices.any (fun s => decide (s.hostname = h))) = true)
      ↔ h ∈ allDNSHostnames cs := by
  simp [allDNSHostnames, List.any_eq_true, List.mem_flatMap, List.mem_map]

/-- Declared-hostname membership as a Bool over containers. -/
theorem any_hostname_iff_mem_tunnel (cs : List ParsedContainer) (h : String) :
    (cs.any (fun c => c.tunnelServices.any (fun s => decide (s.hostname = h))) = true)
      ↔ h ∈ allTunnelHostnames cs := by
  simp [allTunnelHostnames, List.any_eq_true, List.mem_flatMap, List.mem_map]

/-- A hostname is conflicted exactly when it is declared both as a DNS and
as a tunnel hostname. -/
theorem isConflicted_iff (cs : List ParsedContainer) (h : String) :
    isConflicted cs h = true ↔ (h ∈ allDNSHostnames cs ∧ h ∈ allTunnelHostnames cs) := by
  rw [show isConflicted cs h = (conflictedHostnames cs).contains h from rfl, List.elem_iff]
  unfold conflictedHostnames
  rw [List.mem_filterMap]
  constructor
  · rintro ⟨p, hp, hsome⟩
    by_cases hcond : (collectTunnelHostnames cs).any (fun q => decide (q.1 = p.1))
    · rw [if_pos hcond] at hsome
      obtain rfl : p.1 = h := by simpa using hsome
      constructor
      · rw [← any_hostname_iff_mem_dns, ← any_key_collectDNS]
        exact List.any_eq_true.mpr ⟨p, hp, by simp⟩
      · rw [← any_hostname_iff_mem_tunnel, ← any_key_collectTunnel]
        exact hcond
    · rw [if_neg hcond] at hsome
      exact absurd hsome (by simp)
  · rintro ⟨hdns, htun⟩
    have hkd : (collectDNSHostnames cs).any (fun p => decide (p.1 = h)) = true := by
      rw [any_key_collectDNS]
      exact (any_hostname_iff_mem_dns cs h).mpr hdns
    obtain ⟨p, hp, hph⟩ := List.any_eq_true.mp hkd
    have hph : p.1 = h := by simpa using hph
    refine ⟨p, hp, ?_⟩
    have hkt : (collectTunnelHostnames cs).any (fun q => decide (q.1 = p.1)) = true := by
      rw [hph, any_key_collectTunnel]
      exact (any_hostname_iff_mem_tunnel cs h).mpr htun
    rw [if_pos hkt, hph]

/-- C2: conflict resolution hands the operators the input list unchanged
except that every tunnel service whose hostname is also declared as a DNS
hostname is removed: per container the DNS services, access policies and
ownership fields are untouched and the tunnel list is filtered exactly on
the conflict predicate, which holds for a hostname exactly when it occurs
both as a DNS and as a tunnel declaration; consequently no surviving
tunnel service bears a DNS-declared hostname. -/
theorem C2_cross_kind_exclusivity (cs : List ParsedContainer) :
    (filterHostnameConflicts cs = cs.map (dropConflictedTunnels cs))
    ∧ (∀ h, isConflicted cs h = true ↔
        (h ∈ allDNSHostnames cs ∧ h ∈ allTunnelHostnames cs))
    ∧ (∀ c, c ∈ filterHostnameConflicts cs → ∀ svc, svc ∈ c.tunnelServices →
        ¬(svc.hostname ∈ allDNSHostnames cs ∧ svc.hostname ∈ allTunnelHostnames cs)) := by
  have hmapeq : filterHostnameConflicts cs = cs.map (dropConflictedTunnels cs) := by
    unfold filterHostnameConflicts
    dsimp only
    split
    · rename_i hempty
      have hnil : conflictedHostnames cs = [] := List.isEmpty_iff.mp hempty
      have hid : ∀ c ∈ cs, dropConflictedTunnels cs c = c := by
        intro c _
        have hall : c.tunnelServices.filter (fun svc => !(isConflicted cs svc.hostname))
            = c.tunnelServices := by
          apply List.filter_eq_self.mpr
          intro svc _
          simp [isConflicted, hnil]
        unfold dropConflictedTunnels
        rw [hall]
      conv_lhs => rw [show cs = cs.map id from (List.map_id cs).symm]
      exact (List.map_congr_left (fun c hc => (hid c hc).symm))
    · apply List.map_congr_left
      intro c _
      by_cases hcf : c.tunnelServices.any
          (fun svc => (conflictedHostnames cs).contains svc.hostname) = true
      · rw [hcf]
        rfl
      · rw [Bool.not_eq_true] at hcf
        rw [hcf]
        show c = dropConflictedTunnels cs c
        have hall : c.tunnelServices.filter (fun svc => !(isConflicted cs svc.hostname))
            = c.tunnelServices := by
          apply List.filter_eq_self.mpr
          intro svc hsvc
          have := List.any_eq_false.mp hcf svc hsvc
          simp only [isConflicted, this, Bool.not_false]
        unfold dropConflictedTunnels
        rw [hall]
  refine ⟨hmapeq, fun h => isConflicted_iff cs h, ?_⟩
  intro c hc svc hsvc hboth
  rw [hmapeq] at hc
  obtain ⟨c0, _, rfl⟩ := List.mem_map.mp hc
  have hfil := List.mem_filter.mp hsvc
  have hfalse : isConflicted cs svc.hostname = false := by
    have := hfil.2
    simpa using this
  rw [(isConflicted_iff cs svc.hostname).mpr hboth] at hfalse
  exact absurd hfalse (by simp)

/-- Witness for C2 at a concrete desired list: the colliding tunnel entry
is dropped, the unrelated one survives. -/
theorem C2_cross_kind_exclusivity_witness :
    (filterHostnameConflicts [cDNSContainer, cTunnelContainer]
      = [cDNSContainer, cTunnelContainer].map
          (dropConflictedTunnels [cDNSContainer, cTunnelContainer]))
    ∧ ((filterHostnameConflicts [cDNSContainer, cTunnelContainer]).map
        (fun c => c.tunnelServices.map (fun s => s.hostname))
        = [[], ["other.example.com"]]) :=
  ⟨(C2_cross_kind_exclusivity [cDNSContainer, cTunnelContainer]).1, by decide⟩

/-- A candidate without a dot never strips. -/
theorem stripThroughDot_eq_none {l : List Char} (h : stripThroughDot l = none) : '.' ∉ l := by
  induction l with
  | nil => simp
  | cons c rest ih =>
    simp only [stripThroughDot] at h
    split at h
    · cases h
    · rename_i hc
      have hrest := ih h
      simp only [List.mem_cons, not_or]
      exact ⟨fun he => hc he.symm, hrest⟩

/-- Stripping decomposes the candidate at its first dot. -/
theorem stripThroughDot_eq_some {l t : List Char} (h : stripThroughDot l = some t) :
    ∃ p, ('.' ∉ p) ∧ l = p ++ '.' :: t := by
  induction l generalizing t with
  | nil => cases h
  | cons c rest ih =>
    simp only [stripThroughDot] at h
    split at h
    · rename_i hc
      cases h
      exact ⟨[], by simp, by simp [hc]⟩
    · rename_i hc
      obtain ⟨p, hp, rfl⟩ := ih h
      exact ⟨c :: p, by simp only [List.mem_cons, not_or]
                        exact ⟨fun he => hc he.symm, hp⟩, rfl⟩

/-- Stripping shortens the candidate. -/
theorem stripThroughDot_length {l t : List Char} (h : stripThroughDot l = some t) :
    t.length < l.length := by
  obtain ⟨p, _, rfl⟩ := stripThroughDot_eq_some h
  simp only [List.length_append, List.length_cons]
  omega

/-- The stripped candidate is a dot-separated suffix of the candidate. -/
theorem isDotSuffix_of_strip {l t : List Char} (h : stripThroughDot l = some t) :
    IsDotSuffix t l := by
  obtain ⟨p, _, rfl⟩ := stripThroughDot_eq_some h
  exact Or.inr ⟨p, rfl⟩

/-- Dot-separated suffixes compose. -/
theorem isDotSuffix_trans {a b c : List Char} (hab : IsDotSuffix a b)
    (hbc : IsDotSuffix b c) : IsDotSuffix a c := by
  rcases hab with rfl | hab
  · exact hbc
  · rcases hbc with rfl | hbc
    · exact Or.inr hab
    · exact Or.inr (hab.trans ((List.suffix_cons '.' b).trans hbc))

/-- A proper dot-separated suffix survives one stripping step. -/
theorem isDotSuffix_strip_step {l t z : List Char} (hs : stripThroughDot l = some t)
    (hz : IsDotSuffix z l) (hne : z ≠ l) : IsDotSuffix z t := by
  rcases hz with rfl | hz
  · exact absurd rfl hne
  · obtain ⟨p0, hp0, rfl⟩ := stripThroughDot_eq_some hs
    have hzt : ('.' :: t) <:+ p0 ++ '.' :: t := ⟨p0, rfl⟩
    rcases List.suffix_or_suffix_of_suffix hz hzt with hcase | hcase
    · rcases (List.suffix_cons_iff.mp hcase) with heq | hsuf
      · exact Or.inl (by simpa using heq)
      · exact Or.inr hsuf
    · rcases (List.suffix_cons_iff.mp hcase) with heq | hsuf
      · exact Or.inl (by simpa using heq.symm)
      · exfalso
        obtain ⟨q, hq⟩ := hz
        obtain ⟨s, rfl⟩ := hsuf
        rw [show ('.' :: (s ++ '.' :: t)) = ('.' :: s) ++ '.' :: t from rfl,
            ← List.append_assoc] at hq
        have hqp : q ++ '.' :: s = p0 := List.append_cancel_right hq
        exact hp0 (hqp ▸ (List.mem_append.mpr (Or.inr (List.mem_cons_self _ _))))

/-- A successful zone-cache read returns an entry of the cache. -/
theorem lookupZone_mem {cache : List (List Char × String)} {z : List Char} {zid : String}
    (h : lookupZone cache z = some zid) : (z, zid) ∈ cache := by
  unfold lookupZone at h
  cases hf : cache.find? (fun p => decide (p.1 = z)) with
  | none => rw [hf] at h; cases h
  | some p =>
    rw [hf] at h
    have hmem := List.mem_of_find?_eq_some hf
    have hptrue := List.find?_some hf
    have hp1 : p.1 = z := by simpa using hptrue
    obtain ⟨p1, p2⟩ := p
    simp only [Option.map_some'] at h
    cases h
    cases hp1
    exact hmem

/-- A cached zone name is always found by the cache read. -/
theorem lookupZone_ne_none {cache : List (List Char × String)} {z : List Char} {zid : String}
    (h : (z, zid) ∈ cache) : lookupZone cache z ≠ none := by
  unfold lookupZone
  intro hn
  rw [Option.map_eq_none'] at hn
  exact absurd (by simp : (fun (p : List Char × String) => decide (p.1 = z)) (z, zid) = true)
    (by simpa using List.find?_eq_none.mp hn (z, zid) h)

/-- Full specification of the candidate walk: a hit is a cached dot-suffix
of the candidate and no cached dot-suffix is longer; a miss means no
cached zone is a dot-suffix of the candidate. -/
theorem matchZoneLoop_spec (cache : List (List Char × String))
    (hcache : ∀ q ∈ cache, q.1 ≠ ([] : List Char)) :
    ∀ (n : Nat) (cand : List Char), cand.length ≤ n →
      (∀ z zid, matchZoneLoop cache cand = some (z, zid) →
        lookupZone cache z = some zid ∧ IsDotSuffix z cand
          ∧ ∀ z' zid', (z', zid') ∈ cache → IsDotSuffix z' cand → z'.length ≤ z.length)
      ∧ (matchZoneLoop cache cand = none →
        ∀ z' zid', (z', zid') ∈ cache → ¬ IsDotSuffix z' cand) := by
  intro n
  induction n with
  | zero =>
    intro cand hlen
    have hnil : cand = [] := List.eq_nil_of_length_eq_zero (Nat.le_zero.mp hlen)
    subst hnil
    constructor
    · intro z zid hm
      rw [matchZoneLoop.eq_def] at hm
      simp at hm
    · intro _ z' zid' hmem hsuf
      rcases hsuf with rfl | hsuf
      · exact hcache _ hmem rfl
      · exact absurd hsuf.length_le (by simp)
  | succ n ih =>
    intro cand hlen
    by_cases hc : cand = []
    · subst hc
      exact ih [] (by simp)
    · constructor
      · intro z zid hm
        rw [matchZoneLoop.eq_def, dif_neg hc] at hm
        cases hlk : lookupZone cache cand with
        | some zid0 =>
          rw [hlk] at hm
          obtain ⟨rfl, rfl⟩ : cand = z ∧ zid0 = zid := by
            have := Option.some.inj hm
            exact ⟨congrArg Prod.fst this, congrArg Prod.snd this⟩
          refine ⟨hlk, Or.inl rfl, ?_⟩
          intro z' zid' hmem hsuf
          rcases hsuf with rfl | hsuf
          · exact le_refl _
          · have := hsuf.length_le
            simp only [List.length_cons] at this
            omega
        | none =>
          rw [hlk] at hm
          cases hs : stripThroughDot cand with
          | none => rw [hs] at hm; cases hm
          | some next =>
            rw [hs] at hm
            have hlt := stripThroughDot_length hs
            have hspec := (ih next (by omega)).1 z zid hm
            refine ⟨hspec.1, isDotSuffix_trans hspec.2.1 (isDotSuffix_of_strip hs), ?_⟩
            intro z' zid' hmem hsuf
            have hne : z' ≠ cand := by
              rintro rfl
              exact lookupZone_ne_none hmem hlk
            exact hspec.2.2 z' zid' hmem (isDotSuffix_strip_step hs hsuf hne)
      · intro hm z' zid' hmem hsuf
        rw [matchZoneLoop.eq_def, dif_neg hc] at hm
        cases hlk : lookupZone cache cand with
        | some zid0 => rw [hlk] at hm; cases hm
        | none =>
          rw [hlk] at hm
          have hne : z' ≠ cand := by
            rintro rfl
            exact lookupZone_ne_none hmem hlk
          cases hs : stripThroughDot cand with
          | none =>
            rcases hsuf with rfl | hsuf
            · exact hne rfl
            · exact stripThroughDot_eq_none hs
                (hsuf.subset (List.mem_cons_self _ _))
          | some next =>
            rw [hs] at hm
            have hlt := stripThroughDot_length hs
            exact (ih next (by omega)).2 hm z' zid' hmem
              (isDotSuffix_strip_step hs hsuf hne)

/-- C8: zone resolution is longest-dot-suffix matching: whenever the walk
returns a zone, that zone is in the cache, it is the hostname itself or a
dot-separated suffix of it, and every cached zone with that property is no
longer; when the walk returns nothing, no cached zone has the property. -/
theorem C8_longest_suffix_zone_match (cache : List (List Char × String))
    (hostname : List Char) (hdot : hostname.getLast? ≠ some '.')
    (hcache : ∀ q ∈ cache, q.1 ≠ ([] : List Char)) :
    (∀ z zid, matchZoneForHostname cache hostname = some (z, zid) →
       lookupZone cache z = some zid ∧ (z, zid) ∈ cache ∧ IsDotSuffix z hostname
         ∧ ∀ z' zid', (z', zid') ∈ cache → IsDotSuffix z' hostname → z'.length ≤ z.length)
    ∧ (matchZoneForHostname cache hostname = none →
       ∀ z' zid', (z', zid') ∈ cache → ¬ IsDotSuffix z' hostname) := by
  have htrim : trimTrailingDot hostname = hostname := by
    unfold trimTrailingDot
    rw [if_neg hdot]
  have hspec := matchZoneLoop_spec cache hcache hostname.length hostname (le_refl _)
  constructor
  · intro z zid hm
    rw [show matchZoneForHostname cache hostname = matchZoneLoop cache hostname from by
      unfold matchZoneForHostname; rw [htrim]] at hm
    obtain ⟨h1, h2, h3⟩ := hspec.1 z zid hm
    exact ⟨h1, lookupZone_mem h1, h2, h3⟩
  · intro hm
    rw [show matchZoneForHostname cache hostname = matchZoneLoop cache hostname from by
      unfold matchZoneForHostname; rw [htrim]] at hm
    exact hspec.2 hm

/-- Concrete walk of the zone matcher on a.b.example.com against the cache
holding example.com and b.example.com. -/
theorem matchZone_concrete_eval :
    matchZoneForHostname cZoneCache ("a.b.example.com".data)
      = some ("b.example.com".data, "zid-b") := by
  have htrim : trimTrailingDot ("a.b.example.com".data) = "a.b.example.com".data := by decide
  unfold matchZoneForHostname
  rw [htrim]
  rw [matchZoneLoop.eq_def]
  rw [dif_neg (by decide : ¬("a.b.example.com".data = []))]
  rw [show lookupZone cZoneCache ("a.b.example.com".data) = none from by decide]
  rw [show stripThroughDot ("a.b.example.com".data) = some ("b.example.com".data) from by decide]
  show matchZoneLoop cZoneCache ("b.example.com".data)
      = some ("b.example.com".data, "zid-b")
  rw [matchZoneLoop.eq_def]
  rw [dif_neg (by decide : ¬("b.example.com".data = []))]
  rw [show lookupZone cZoneCache ("b.example.com".data) = some ("zid-b") from by decide]

/-- Witness for C8: on the cache with example.com and b.example.com, the
hostname a.b.example.com resolves to b.example.com, and the theorem
applies there. -/
theorem C8_longest_suffix_zone_match_witness :
    (("a.b.example.com".data).getLast? ≠ some '.')
    ∧ (∀ q ∈ cZoneCache, q.1 ≠ ([] : List Char))
    ∧ matchZoneForHostname cZoneCache ("a.b.example.com".data)
        = some ("b.example.com".data, "zid-b")
    ∧ (∀ z zid, matchZoneForHostname cZoneCache ("a.b.example.com".data) = some (z, zid) →
        lookupZone cZoneCache z = some zid ∧ (z, zid) ∈ cZoneCache
          ∧ IsDotSuffix z ("a.b.example.com".data)
          ∧ ∀ z' zid', (z', zid') ∈ cZoneCache → IsDotSuffix z' ("a.b.example.com".data) →
              z'.length ≤ z.length) :=
  ⟨by decide, by decide, matchZone_concrete_eval,
   (C8_longest_suffix_zone_match cZoneCache ("a.b.example.com".data)
      (by decide) (by decide)).1⟩

/-- C6: the naming operator self-heals from ledger loss.  On a remote
already-exists conflict during creation it looks the record up by name and
record type and adopts it, succeeding with the adopted remote ID instead
of returning the failure; on update with a missing remote ID or zone ID it
performs the same lookup first and issues the update with the recovered
IDs, and it fails only when that lookup finds nothing. -/
theorem C6_adopt_on_conflict_and_recover_ids :
    (∀ (remote : DNSRemote) (container : ContainerInfo) (service : DNSService)
       (target zid err : String) (csT : List DNSCall) (existing : DNSRecord),
       resolveTarget remote service.target container = (.ok target, csT) →
       remote.zoneID service.hostname = .ok zid →
       remote.createResult (dnsRecordFor service zid target container) = .error err →
       isAlreadyExistsError err = true →
       remote.recordByName service.hostname service.recType = .ok (some existing) →
       (createDNSRecord remote container service).1
         = .ok (dnsSavedResource service container zid target existing.id))
    ∧ (∀ (remote : DNSRemote) (resource : ManagedResource) (service : DNSService)
       (existing : DNSRecord) (rec2 : DNSRecord),
       (resource.cfID = "" ∨ resource.zoneID = "") →
       remote.recordByName service.hostname service.recType = .ok (some existing) →
       (service.target = "auto" ∨ service.target = "") = False →
       remote.updateResult
         ⟨existing.id, existing.zoneID, service.hostname, service.recType, service.target,
          service.proxied, service.ttl, service.priority, ""⟩ = .ok rec2 →
       updateDNSRecord remote resource service
         = (.ok { resource with
                    cfID := existing.id, zoneID := existing.zoneID,
                    content := service.target, proxied := service.proxied,
                    ttl := service.ttl, serviceName := service.serviceName,
                    cleanupEnabled := service.cleanup },
            [.getByName service.hostname service.recType,
             .updateRec ⟨existing.id, existing.zoneID, service.hostname, service.recType,
               service.target, service.proxied, service.ttl, service.priority, ""⟩]))
    ∧ (∀ (remote : DNSRemote) (resource : ManagedResource) (service : DNSService),
       (resource.cfID = "" ∨ resource.zoneID = "") →
       (remote.recordByName service.hostname service.recType = .ok none
         ∨ ∃ e, remote.recordByName service.hostname service.recType = .error e) →
       updateDNSRecord remote resource service
         = (.error ("cannot update: record not found in Cloudflare and no CFID in storage for "
              ++ service.hostname),
            [.getByName service.hostname service.recType])) := by
  refine ⟨?_, ?_, ?_⟩
  · intro remote container service target zid err csT existing h1 h2 h3 h4 h5
    unfold createDNSRecord
    rw [h1]
    dsimp only
    rw [h2]
    dsimp only
    rw [h3]
    dsimp only
    rw [if_pos h4]
    rw [h5]
  · intro remote resource service existing rec2 hmiss hlook htgt hupd
    unfold updateDNSRecord
    rw [if_pos hmiss, hlook]
    simp only [eq_iff_iff, iff_false] at htgt
    rw [if_neg htgt]
    dsimp only
    rw [hupd]
    simp
  · intro remote resource service hmiss hlook
    unfold updateDNSRecord
    rw [if_pos hmiss]
    rcases hlook with hnone | ⟨e, herr⟩
    · rw [hnone]
    · rw [herr]

/-- Witness for C6 at a concrete conflicting remote. -/
theorem C6_adopt_on_conflict_and_recover_ids_witness :
    ((createDNSRecord cDNSRemoteConflict ⟨"idA", "contA", []⟩ cDNSService0).1
      = .ok (dnsSavedResource cDNSService0 ⟨"idA", "contA", []⟩ ("zone-1") ("1.2.3.4") ("cf-42")))
    ∧ (updateDNSRecord cDNSRemoteConflict
         { blankResource with hostname := "web.example.com", recordType := "A" }
         cDNSService0
       = (.ok { blankResource with
                  hostname := "web.example.com", recordType := "A",
                  cfID := "cf-42", zoneID := "zone-1", content := "1.2.3.4",
                  proxied := false, ttl := 300, serviceName := "w",
                  cleanupEnabled := true },
          [.getByName ("web.example.com") ("A"),
           .updateRec ⟨"cf-42", "zone-1", "web.example.com", "A", "1.2.3.4",
             false, 300, 0, ""⟩])) := by
  constructor
  · exact C6_adopt_on_conflict_and_recover_ids.1 cDNSRemoteConflict ⟨"idA", "contA", []⟩
      cDNSService0 ("1.2.3.4") ("zone-1") ("record already exists (81058)") [] cExistingRec
      rfl rfl rfl (by decide) rfl
  · exact C6_adopt_on_conflict_and_recover_ids.2.1 cDNSRemoteConflict
      { blankResource with hostname := "web.example.com", recordType := "A" }
      cDNSService0 cExistingRec
      ⟨"cf-42", "zone-1", "web.example.com", "A", "1.2.3.4", false, 300, 0, ""⟩
      (Or.inl rfl) rfl (by decide) rfl

/-! ### Generic facts about the modelled storage operations -/

/-- String append cancels on the left. -/
theorem string_append_left_cancel {pre a b : String} (h : pre ++ a = pre ++ b) : a = b := by
  have hd : pre.data ++ a.data = pre.data ++ b.data := congrArg String.data h
  exact String.ext (List.append_cancel_left hd)

/-- The fresh id factors through the ledger key. -/
theorem freshID_eq (r : ManagedResource) :
    freshID r = ("uuid:" ++ resourceTypeName r.resourceType ++ ":") ++ keyStr r := by
  unfold freshID keyStr
  simp [String.append_assoc]

/-- Fresh ids of same-kind rows agree only on equal ledger keys. -/
theorem freshID_inj_key {r s : ManagedResource} (ht : r.resourceType = s.resourceType)
    (h : freshID r = freshID s) : keyStr r = keyStr s := by
  rw [freshID_eq, freshID_eq, ht] at h
  exact string_append_left_cancel h

/-- Normalization preserves the unique key of the row. -/
theorem tripleOf_saveNorm (now : Int) (res : ManagedResource) :
    tripleOf (saveNorm now res) = tripleOf res := by
  unfold saveNorm
  by_cases h1 : res.id = "" <;> by_cases h2 : res.createdAt = 0 <;>
    simp [h1, h2, tripleOf]

/-- The id a save assigns to the in-memory row. -/
theorem id_saveNorm (now : Int) (res : ManagedResource) :
    (saveNorm now res).id = if res.id = "" then freshID res else res.id := by
  unfold saveNorm
  by_cases h1 : res.id = "" <;> by_cases h2 : res.createdAt = 0 <;>
    simp [h1, h2]

/-- Normalization of a brand-new row. -/
theorem saveNorm_of_fresh {res : ManagedResource} (now : Int) (hid : res.id = "")
    (hca : res.createdAt = 0) :
    saveNorm now res = { res with id := freshID res, createdAt := now, updatedAt := now } := by
  unfold saveNorm
  simp [hid, hca]

/-- An upsert of a row outside the protected key leaves the protected rows
untouched. -/
theorem filter_save_of_neg {P : ManagedResource → Bool}
    (hP : ∀ q s, tripleOf q = tripleOf s → P q = P s) {res : ManagedResource}
    (hres : P res = false) (now : Int) (L : List ManagedResource) :
    ((saveResource now L res).2).filter P = L.filter P := by
  have hr : P (saveNorm now res) = false := (hP _ res (tripleOf_saveNorm now res)).trans hres
  unfold saveResource
  dsimp only
  split
  · rename_i hany
    clear hany
    dsimp only
    induction L with
    | nil => rfl
    | cons q L ih =>
      simp only [List.map_cons, List.filter_cons]
      by_cases hq : tripleOf q = tripleOf (saveNorm now res)
      · have hpq : P q = false := (hP q (saveNorm now res) hq).trans hr
        have hpq2 : P { saveNorm now res with id := q.id, createdAt := q.createdAt } = false :=
          (hP { saveNorm now res with id := q.id, createdAt := q.createdAt }
            (saveNorm now res) rfl).trans hr
        rw [if_pos hq]
        simp [hpq, hpq2, ih]
      · rw [if_neg hq]
        by_cases hc : P q = true
        · simp [hc, ih]
        · simp [Bool.eq_false_iff.mpr hc, ih]
  · dsimp only
    rw [List.filter_append]
    simp [hr]

/-- An upsert of a protected row into a ledger with no protected rows
inserts exactly the normalized row. -/
theorem filter_save_of_pos_nil {P : ManagedResource → Bool}
    (hP : ∀ q s, tripleOf q = tripleOf s → P q = P s) {res : ManagedResource}
    (hres : P res = true) (now : Int) {L : List ManagedResource}
    (hnil : L.filter P = []) :
    ((saveResource now L res).2).filter P = [saveNorm now res] := by
  have hres2 : P (saveNorm now res) = true := (hP _ res (tripleOf_saveNorm now res)).trans hres
  have hall : ∀ q ∈ L, P q = false := by
    intro q hq
    have := List.filter_eq_nil_iff.mp hnil q hq
    simpa using this
  have hany : L.any (fun q => decide (tripleOf q = tripleOf (saveNorm now res))) = false := by
    rw [List.any_eq_false]
    intro q hq
    simp only [decide_eq_true_eq]
    intro htr
    have hpq : P q = true := (hP q (saveNorm now res) htr).trans hres2
    rw [hall q hq] at hpq
    cases hpq
  unfold saveResource
  dsimp only
  rw [if_neg (by simp [hany])]
  dsimp only
  rw [List.filter_append, hnil]
  simp [hres2]

/-- An upsert of a protected row into a ledger whose protected rows all
share its unique key replaces each of them in place. -/
theorem filter_save_of_pos {P : ManagedResource → Bool}
    (hP : ∀ q s, tripleOf q = tripleOf s → P q = P s) {res : ManagedResource}
    (hres : P res = true) (now : Int) {L : List ManagedResource}
    (htr : ∀ q ∈ L, P q = true → tripleOf q = tripleOf res)
    (hmem : ∃ q ∈ L, P q = true) :
    ((saveResource now L res).2).filter P
      = (L.filter P).map (fun q => { saveNorm now res with id := q.id, createdAt := q.createdAt }) := by
  have hres2 : P (saveNorm now res) = true := (hP _ res (tripleOf_saveNorm now res)).trans hres
  have hany : L.any (fun q => decide (tripleOf q = tripleOf (saveNorm now res))) = true := by
    obtain ⟨q, hq, hpq⟩ := hmem
    rw [List.any_eq_true]
    exact ⟨q, hq, by simp [tripleOf_saveNorm, htr q hq hpq]⟩
  have key : ∀ (M : List ManagedResource),
      (∀ q ∈ M, P q = true → tripleOf q = tripleOf res) →
      (M.map (fun q => if tripleOf q = tripleOf (saveNorm now res) then { saveNorm now res with id := q.id, createdAt := q.createdAt } else q)).filter P
        = (M.filter P).map (fun q => { saveNorm now res with id := q.id, createdAt := q.createdAt }) := by
    intro M
    induction M with
    | nil => intro _; rfl
    | cons q M ih =>
      intro htrM
      have htrq := htrM q (by simp)
      have htrL : ∀ x ∈ M, P x = true → tripleOf x = tripleOf res := by
        intro x hx
        exact htrM x (by simp [hx])
      simp only [List.map_cons, List.filter_cons]
      by_cases hpq : P q = true
      · have hc1 : tripleOf q = tripleOf (saveNorm now res) := by
          rw [tripleOf_saveNorm]
          exact htrq hpq
        have hp2 : P { saveNorm now res with id := q.id, createdAt := q.createdAt } = true :=
          (hP { saveNorm now res with id := q.id, createdAt := q.createdAt }
            (saveNorm now res) rfl).trans hres2
        rw [if_pos hc1]
        simp [hpq, hp2, ih htrL]
      · have hc1 : ¬ tripleOf q = tripleOf (saveNorm now res) := by
          intro hq
          exact hpq ((hP q (saveNorm now res) hq).trans hres2)
        rw [if_neg hc1]
        simp [Bool.eq_false_iff.mpr hpq, ih htrL]
  unfold saveResource
  dsimp only
  rw [if_pos hany]
  dsimp only
  exact key L htr

/-- An id-keyed patch commutes with filtering by a patch-invariant
predicate. -/
theorem filter_patchById {P : ManagedResource → Bool} {f : ManagedResource → ManagedResource}
    (hPf : ∀ q, P (f q) = P q) (L : List ManagedResource) (i : String) :
    (patchById L i f).filter P
      = (L.filter P).map (fun q => if q.id = i then f q else q) := by
  unfold patchById
  induction L with
  | nil => rfl
  | cons q L ih =>
    simp only [List.map_cons, List.filter_cons]
    have hg : P (if q.id = i then f q else q) = P q := by
      split
      · exact hPf q
      · rfl
    rw [hg]
    by_cases hp : P q = true
    · simp [hp, ih]
    · simp [Bool.eq_false_iff.mpr hp, ih]

/-- An id-keyed patch that misses every protected row leaves the protected
rows untouched. -/
theorem filter_patchById_of_ne {P : ManagedResource → Bool}
    {f : ManagedResource → ManagedResource} (hPf : ∀ q, P (f q) = P q)
    {L : List ManagedResource} {i : String} (hid : ∀ q ∈ L.filter P, q.id ≠ i) :
    (patchById L i f).filter P = L.filter P := by
  rw [filter_patchById hPf]
  conv_rhs => rw [← List.map_id (L.filter P)]
  refine List.map_congr_left fun q hq => ?_
  rw [if_neg (hid q hq)]
  rfl

/-- Every id present after an upsert is an old id or the normalized id. -/
theorem ids_save (now : Int) (L : List ManagedResource) (res : ManagedResource) :
    ∀ x ∈ (saveResource now L res).2, x.id = (saveNorm now res).id ∨ ∃ q ∈ L, x.id = q.id := by
  unfold saveResource
  dsimp only
  split
  · intro x hx
    obtain ⟨q, hq, rfl⟩ := List.mem_map.mp hx
    right
    refine ⟨q, hq, ?_⟩
    split <;> rfl
  · intro x hx
    rcases List.mem_append.mp hx with hx | hx
    · exact Or.inr ⟨x, hx, rfl⟩
    · simp only [List.mem_singleton] at hx
      subst hx
      exact Or.inl rfl

/-- An id-keyed patch preserves every row id. -/
theorem ids_patchById {f : ManagedResource → ManagedResource}
    (hf : ∀ q, (f q).id = q.id) (L : List ManagedResource) (i : String) :
    ∀ x ∈ patchById L i f, ∃ q ∈ L, x.id = q.id := by
  intro x hx
  obtain ⟨q, hq, rfl⟩ := List.mem_map.mp hx
  refine ⟨q, hq, ?_⟩
  split
  · exact hf q
  · rfl

/-- The protected-key predicate of the naming pass only reads the unique
key of a row. -/
theorem dnsKeyP_triple (k : String) :
    ∀ q s, tripleOf q = tripleOf s → dnsKeyP k q = dnsKeyP k s := by
  intro q s h
  simp only [tripleOf, Prod.mk.injEq] at h
  unfold dnsKeyP keyStr
  rw [h.1, h.2.1, h.2.2]

/-- The protected-key predicate of the access pass only reads the unique
key of a row. -/
theorem accessKeyP_triple (h0 : String) :
    ∀ q s, tripleOf q = tripleOf s → accessKeyP h0 q = accessKeyP h0 s := by
  intro q s h
  simp only [tripleOf, Prod.mk.injEq] at h
  unfold accessKeyP
  rw [h.1, h.2.1]

/-! ### Facts about the association-list maps of the passes -/

/-- Map lookup on a cons cell. -/
theorem lookupKey_cons {α : Type} (p : String × α) (m : List (String × α)) (k : String) :
    lookupKey (p :: m) k = if p.1 = k then some p.2 else lookupKey m k := by
  unfold lookupKey
  by_cases hp : p.1 = k
  · rw [if_pos hp, List.find?_cons_of_pos _ (by simp [hp])]
    rfl
  · rw [if_neg hp, List.find?_cons_of_neg _ (by simp [hp])]

/-- Map removal on a cons cell. -/
theorem removeKey_cons {α : Type} (p : String × α) (m : List (String × α)) (k : String) :
    removeKey (p :: m) k = if p.1 = k then removeKey m k else p :: removeKey m k := by
  unfold removeKey
  by_cases hp : p.1 = k
  · rw [if_pos hp, List.filter_cons, if_neg (by simp [hp])]
  · rw [if_neg hp, List.filter_cons, if_pos (by simp [hp])]

/-- Map lookup distributes over append. -/
theorem lookupKey_append {α : Type} (m1 m2 : List (String × α)) (k : String) :
    lookupKey (m1 ++ m2) k
      = match lookupKey m1 k with
        | some v => some v
        | none => lookupKey m2 k := by
  induction m1 with
  | nil => rfl
  | cons p m1 ih =>
    rw [List.cons_append, lookupKey_cons, lookupKey_cons]
    by_cases hp : p.1 = k
    · rw [if_pos hp, if_pos hp]
    · rw [if_neg hp, if_neg hp, ih]

/-- Lookup of a missing key is none. -/
theorem lookupKey_eq_none_of_all_ne {α : Type} {m : List (String × α)} {k : String}
    (h : ∀ p ∈ m, p.1 ≠ k) : lookupKey m k = none := by
  unfold lookupKey
  have hf : m.find? (fun p => decide (p.1 = k)) = none := by
    rw [List.find?_eq_none]
    intro p hp
    simp [h p hp]
  rw [hf]
  rfl

/-- A successful lookup returns an entry of the map. -/
theorem lookupKey_mem {α : Type} {m : List (String × α)} {k : String} {v : α}
    (h : lookupKey m k = some v) : (k, v) ∈ m := by
  unfold lookupKey at h
  cases hf : m.find? (fun p => decide (p.1 = k)) with
  | none => rw [hf] at h; cases h
  | some p =>
    rw [hf] at h
    have hmem := List.mem_of_find?_eq_some hf
    have hp1 : p.1 = k := by simpa using List.find?_some hf
    obtain ⟨p1, p2⟩ := p
    simp only [Option.map_some'] at h
    cases h
    cases hp1
    exact hmem

/-- Removal only shrinks the map. -/
theorem mem_removeKey {α : Type} {m : List (String × α)} {k : String} {p : String × α}
    (h : p ∈ removeKey m k) : p ∈ m ∧ p.1 ≠ k := by
  unfold removeKey at h
  have hf := List.mem_filter.mp h
  refine ⟨hf.1, ?_⟩
  simpa using hf.2

/-- Removing one key leaves lookups of other keys unchanged. -/
theorem lookupKey_removeKey_ne {α : Type} {m : List (String × α)} {k k' : String}
    (h : k ≠ k') : lookupKey (removeKey m k') k = lookupKey m k := by
  induction m with
  | nil => rfl
  | cons p m ih =>
    rw [removeKey_cons]
    by_cases hp : p.1 = k'
    · rw [if_pos hp, ih, lookupKey_cons, if_neg (by rw [hp]; exact fun he => h he.symm)]
    · rw [if_neg hp, lookupKey_cons, lookupKey_cons, ih]

/-- A key-preserving overwrite leaves lookups of other keys unchanged. -/
theorem lookupKey_map_overwrite_ne {m : List (String × ManagedResource)} {k k' : String}
    {v : ManagedResource} (h : k' ≠ k) :
    lookupKey (m.map (fun p => if p.1 = k' then (k', v) else p)) k = lookupKey m k := by
  induction m with
  | nil => rfl
  | cons p m ih =>
    rw [List.map_cons, lookupKey_cons, lookupKey_cons]
    by_cases hp : p.1 = k'
    · rw [if_pos hp]
      rw [if_neg (show ¬ (((k', v) : String × ManagedResource).1 = k) from by simpa using h)]
      rw [ih, if_neg (by rw [hp]; exact h)]
    · rw [if_neg hp, ih]

/-- A key-preserving overwrite of a present key finds the new value. -/
theorem lookupKey_map_overwrite_hit {m : List (String × ManagedResource)} {k' : String}
    {v : ManagedResource} (hany : m.any (fun p => decide (p.1 = k')) = true) :
    lookupKey (m.map (fun p => if p.1 = k' then (k', v) else p)) k' = some v := by
  induction m with
  | nil => simp at hany
  | cons p m ih =>
    rw [List.map_cons, lookupKey_cons]
    by_cases hp : p.1 = k'
    · rw [if_pos hp]
      rw [if_pos (show (((k', v) : String × ManagedResource).1 = k') from rfl)]
    · rw [if_neg hp]
      rw [if_neg (show ¬ ((p : String × ManagedResource).1 = k') from hp)]
      apply ih
      simpa [hp] using hany

/-- Lookup after a plain Go map write. -/
theorem lookupKey_overwriteInsert (m : List (String × ManagedResource)) (k' : String)
    (v : ManagedResource) (k : String) :
    lookupKey (overwriteInsert m k' v) k = if k' = k then some v else lookupKey m k := by
  unfold overwriteInsert
  split
  · rename_i hany
    by_cases hk : k' = k
    · subst hk
      rw [if_pos rfl]
      exact lookupKey_map_overwrite_hit hany
    · rw [if_neg hk]
      exact lookupKey_map_overwrite_ne hk
  · rename_i hany
    have hall : ∀ p ∈ m, p.1 ≠ k' := by
      intro p hp
      rw [Bool.not_eq_true] at hany
      simpa using List.any_eq_false.mp hany p hp
    rw [lookupKey_append]
    by_cases hk : k' = k
    · subst hk
      rw [lookupKey_eq_none_of_all_ne hall, if_pos rfl]
      show lookupKey [(k', v)] k' = some v
      rw [lookupKey_cons, if_pos rfl]
    · rw [if_neg hk]
      cases hm : lookupKey m k with
      | some w => rfl
      | none =>
        show lookupKey [(k', v)] k = none
        rw [lookupKey_cons, if_neg hk]
        rfl

/-- Entries of a keyed fold come from the seed or carry a folded row with
its key. -/
theorem mem_foldl_overwriteInsert (f : ManagedResource → String) :
    ∀ (xs : List ManagedResource) (m0 : List (String × ManagedResource))
      (p : String × ManagedResource),
      p ∈ xs.foldl (fun m r => overwriteInsert m (f r) r) m0 →
      p ∈ m0 ∨ ∃ r ∈ xs, p = (f r, r) := by
  intro xs
  induction xs with
  | nil => intro m0 p hp; exact Or.inl hp
  | cons r xs ih =>
    intro m0 p hp
    rcases ih _ p hp with hfirst | ⟨r1, hr1, rfl⟩
    · dsimp only at hfirst
      unfold overwriteInsert at hfirst
      split at hfirst
      · obtain ⟨q, hq, hqe⟩ := List.mem_map.mp hfirst
        by_cases hc : q.1 = f r
        · rw [if_pos hc] at hqe
          exact Or.inr ⟨r, by simp, hqe.symm⟩
        · rw [if_neg hc] at hqe
          exact Or.inl (hqe ▸ hq)
      · rcases List.mem_append.mp hfirst with hq | hq
        · exact Or.inl hq
        · simp only [List.mem_singleton] at hq
          exact Or.inr ⟨r, by simp, hq⟩
    · exact Or.inr ⟨r1, by simp [hr1], rfl⟩

/-- Lookup in a keyed fold whose key-k rows are all one row. -/
theorem lookupKey_foldl_overwriteInsert (f : ManagedResource → String) (k : String)
    (r0 : ManagedResource) :
    ∀ (xs : List ManagedResource) (m0 : List (String × ManagedResource)),
      (∀ x ∈ xs, f x = k → x = r0) →
      lookupKey (xs.foldl (fun m r => overwriteInsert m (f r) r) m0) k
        = if xs.any (fun r => decide (f r = k)) then some r0 else lookupKey m0 k := by
  intro xs
  induction xs with
  | nil => intro m0 _; simp
  | cons r xs ih =>
    intro m0 huniq
    have huniq2 : ∀ x ∈ xs, f x = k → x = r0 := by
      intro x hx
      exact huniq x (by simp [hx])
    rw [List.foldl_cons, ih _ huniq2, List.any_cons]
    by_cases hr : f r = k
    · have hr0 : r = r0 := huniq r (by simp) hr
      by_cases hxs : xs.any (fun r => decide (f r = k)) = true
      · rw [if_pos hxs, if_pos (by simp [hr, hxs])]
      · rw [if_neg hxs, if_pos (by simp [hr])]
        rw [lookupKey_overwriteInsert, if_pos hr, hr0]
    · by_cases hxs : xs.any (fun r => decide (f r = k)) = true
      · rw [if_pos hxs, if_pos (by simp [hxs])]
      · rw [if_neg hxs, if_neg (by simp [hr, hxs])]
        rw [lookupKey_overwriteInsert, if_neg hr]

/-! ### Fresh-id disjointness and id well-formedness -/

/-- Fresh ids only read the unique key of the row. -/
theorem freshID_congr {a b : ManagedResource} (h : tripleOf a = tripleOf b) :
    freshID a = freshID b := by
  simp only [tripleOf, Prod.mk.injEq] at h
  unfold freshID
  rw [h.1, h.2.1, h.2.2]

/-- A string is a prefix of its own extensions. -/
theorem goHasPrefix_prefix_append (pre rest : String) : goHasPrefix (pre ++ rest) pre = true := by
  unfold goHasPrefix
  rw [String.data_append]
  exact List.isPrefixOf_iff_prefix.mpr (List.prefix_append _ _)

/-- Every generated fresh id carries the uuid marker. -/
theorem goHasPrefix_freshID (r : ManagedResource) :
    goHasPrefix (freshID r) ("uuid:") = true := by
  have he : freshID r
      = "uuid:" ++ (resourceTypeName r.resourceType ++ (":" ++ (r.hostname ++ (":" ++ r.recordType)))) := by
    simp [freshID, String.append_assoc]
  rw [he]
  exact goHasPrefix_prefix_append _ _

/-- An unmarked id is never a generated fresh id. -/
theorem ne_freshID_of_not_prefix {x : String} (h : goHasPrefix x ("uuid:") = false)
    (r : ManagedResource) : x ≠ freshID r := by
  intro he
  rw [he, goHasPrefix_freshID] at h
  cases h

/-- Fresh ids of same-kind rows with different keys differ. -/
theorem freshID_ne_of_key {r s : ManagedResource} (ht : r.resourceType = s.resourceType)
    (hk : keyStr r ≠ keyStr s) : freshID r ≠ freshID s :=
  fun h => hk (freshID_inj_key ht h)

/-- Id well-formedness only reads the id and the unique key. -/
theorem idOKb_congr {a b : ManagedResource} (ht : tripleOf a = tripleOf b)
    (hid : a.id = b.id) (h : idOKb a) : idOKb b := by
  unfold idOKb at h ⊢
  rcases h with h | h
  · exact Or.inl (hid ▸ h)
  · right
    rw [← hid, h]
    exact freshID_congr ht

/-- Normalization yields a well-formed id from a blank or well-formed one. -/
theorem idOKb_saveNorm {r : ManagedResource} (now : Int) (h : r.id = "" ∨ idOKb r) :
    idOKb (saveNorm now r) := by
  have ht : tripleOf (saveNorm now r) = tripleOf r := tripleOf_saveNorm now r
  have hid := id_saveNorm now r
  by_cases hr : r.id = ""
  · right
    rw [hid, if_pos hr]
    exact (freshID_congr ht).symm
  · rcases h with h | h
    · exact absurd h hr
    · exact idOKb_congr ht.symm (by rw [hid, if_neg hr]) h

/-- An upsert preserves id well-formedness of the whole ledger. -/
theorem idOK_saveResource {L : List ManagedResource} {res : ManagedResource}
    (hL : ∀ q ∈ L, idOKb q) (hres : res.id = "" ∨ idOKb res) (now : Int) :
    ∀ x ∈ (saveResource now L res).2, idOKb x := by
  have hnorm : idOKb (saveNorm now res) := idOKb_saveNorm now hres
  unfold saveResource
  dsimp only
  split
  · intro x hx
    obtain ⟨q, hq, rfl⟩ := List.mem_map.mp hx
    by_cases hc : tripleOf q = tripleOf (saveNorm now res)
    · rw [if_pos hc]
      exact idOKb_congr hc rfl (hL q hq)
    · rw [if_neg hc]
      exact hL q hq
  · intro x hx
    rcases List.mem_append.mp hx with hx | hx
    · exact hL x hx
    · simp only [List.mem_singleton] at hx
      subst hx
      exact hnorm

/-- An id-keyed patch that keeps ids and keys preserves id well-formedness. -/
theorem idOK_patchById {f : ManagedResource → ManagedResource}
    (hf : ∀ q, (f q).id = q.id ∧ tripleOf (f q) = tripleOf q)
    {L : List ManagedResource} (hL : ∀ q ∈ L, idOKb q) (i : String) :
    ∀ x ∈ patchById L i f, idOKb x := by
  intro x hx
  obtain ⟨q, hq, rfl⟩ := List.mem_map.mp hx
  split
  · exact idOKb_congr (hf q).2.symm ((hf q).1).symm (hL q hq)
  · exact hL q hq

/-! ### Well-formedness of the desired and current maps -/

/-- First-wins insertion with a key derived from the value keeps the entry
shape and the key list duplicate-free. -/
theorem firstWinsInsertDNS_wf {m : List (String × DesiredDNS)} {k : String} {v : DesiredDNS}
    (hQ : (∀ e ∈ m, e.1 = dnsKeyOf e.2.service) ∧ (m.map (fun e => e.1)).Nodup)
    (hk : k = dnsKeyOf v.service) :
    (∀ e ∈ firstWinsInsertDNS m k v, e.1 = dnsKeyOf e.2.service)
      ∧ ((firstWinsInsertDNS m k v).map (fun e => e.1)).Nodup := by
  unfold firstWinsInsertDNS
  split
  · exact hQ
  · rename_i hany
    constructor
    · intro e he
      rcases List.mem_append.mp he with he | he
      · exact hQ.1 e he
      · simp only [List.mem_singleton] at he
        subst he
        exact hk
    · rw [List.map_append]
      simp only [List.map_cons, List.map_nil]
      rw [List.nodup_append]
      refine ⟨hQ.2, List.nodup_singleton k, ?_⟩
      intro a ha hb
      simp only [List.mem_singleton] at hb
      subst hb
      obtain ⟨e, he, hek⟩ := List.mem_map.mp ha
      exact hany (List.any_eq_true.mpr ⟨e, he, by simp [hek]⟩)

/-- The desired map of the naming pass: every entry key is the key of its
service, and the key list is duplicate-free. -/
theorem buildDesiredDNSMap_wf (desired : List ParsedContainer) :
    (∀ e ∈ buildDesiredDNSMap desired, e.1 = dnsKeyOf e.2.service)
      ∧ ((buildDesiredDNSMap desired).map (fun e => e.1)).Nodup := by
  unfold buildDesiredDNSMap
  have inner : ∀ (c : ParsedContainer) (svcs : List DNSService)
      (m : List (String × DesiredDNS)),
      ((∀ e ∈ m, e.1 = dnsKeyOf e.2.service) ∧ (m.map (fun e => e.1)).Nodup) →
      ((∀ e ∈ svcs.foldl (fun m svc => firstWinsInsertDNS m (dnsKeyOf svc) ⟨c, svc⟩) m,
          e.1 = dnsKeyOf e.2.service)
        ∧ ((svcs.foldl (fun m svc => firstWinsInsertDNS m (dnsKeyOf svc) ⟨c, svc⟩) m).map
            (fun e => e.1)).Nodup) := by
    intro c svcs
    induction svcs with
    | nil => intro m hm; exact hm
    | cons s svcs ih =>
      intro m hm
      exact ih _ (firstWinsInsertDNS_wf hm rfl)
  have outer : ∀ (cs : List ParsedContainer) (m : List (String × DesiredDNS)),
      ((∀ e ∈ m, e.1 = dnsKeyOf e.2.service) ∧ (m.map (fun e => e.1)).Nodup) →
      ((∀ e ∈ cs.foldl (fun m c =>
            c.dnsServices.foldl (fun m svc => firstWinsInsertDNS m (dnsKeyOf svc) ⟨c, svc⟩) m) m,
          e.1 = dnsKeyOf e.2.service)
        ∧ ((cs.foldl (fun m c =>
            c.dnsServices.foldl (fun m svc => firstWinsInsertDNS m (dnsKeyOf svc) ⟨c, svc⟩) m) m).map
            (fun e => e.1)).Nodup) := by
    intro cs
    induction cs with
    | nil => intro m hm; exact hm
    | cons c cs ih =>
      intro m hm
      exact ih _ (inner c c.dnsServices m hm)
  exact outer desired [] ⟨by simp, List.nodup_nil⟩

/-- The desired map of the access pass: every entry key is the hostname of
its binding, and the key list is duplicate-free. -/
theorem buildAccessDesiredMap_wf (bindings : List AccessBinding) :
    (∀ e ∈ buildAccessDesiredMap bindings, e.1 = e.2.hostname)
      ∧ ((buildAccessDesiredMap bindings).map (fun e => e.1)).Nodup := by
  unfold buildAccessDesiredMap
  have key : ∀ (bs : List AccessBinding) (m : List (String × AccessBinding)),
      ((∀ e ∈ m, e.1 = e.2.hostname) ∧ (m.map (fun e => e.1)).Nodup) →
      ((∀ e ∈ bs.foldl (fun m b =>
            if m.any (fun p => decide (p.1 = b.hostname)) then
              m.map (fun p => if p.1 = b.hostname then (b.hostname, b) else p)
            else m ++ [(b.hostname, b)]) m, e.1 = e.2.hostname)
        ∧ ((bs.foldl (fun m b =>
            if m.any (fun p => decide (p.1 = b.hostname)) then
              m.map (fun p => if p.1 = b.hostname then (b.hostname, b) else p)
            else m ++ [(b.hostname, b)]) m).map (fun e => e.1)).Nodup) := by
    intro bs
    induction bs with
    | nil => intro m hm; exact hm
    | cons b bs ih =>
      intro m hm
      apply ih
      dsimp only
      by_cases hany : m.any (fun p => decide (p.1 = b.hostname)) = true
      · rw [if_pos hany]
        constructor
        · intro e he
          obtain ⟨p, hp, rfl⟩ := List.mem_map.mp he
          by_cases hpk : p.1 = b.hostname
          · rw [if_pos hpk]
          · rw [if_neg hpk]
            exact hm.1 p hp
        · have hkeys : ((m.map (fun p => if p.1 = b.hostname then (b.hostname, b) else p)).map
              (fun e => e.1)) = m.map (fun e => e.1) := by
            rw [List.map_map]
            refine List.map_congr_left fun p _ => ?_
            by_cases hpk : p.1 = b.hostname
            · simp [Function.comp, hpk]
            · simp [Function.comp, hpk]
          rw [hkeys]
          exact hm.2
      · rw [if_neg hany]
        constructor
        · intro e he
          rcases List.mem_append.mp he with he | he
          · exact hm.1 e he
          · simp only [List.mem_singleton] at he
            subst he
            rfl
        · rw [List.map_append]
          simp only [List.map_cons, List.map_nil]
          rw [List.nodup_append]
          refine ⟨hm.2, List.nodup_singleton _, ?_⟩
          intro a ha hb
          simp only [List.mem_singleton] at hb
          subst hb
          obtain ⟨e, he, hek⟩ := List.mem_map.mp ha
          exact hany (List.any_eq_true.mpr ⟨e, he, by simp [hek]⟩)
  exact key bindings [] ⟨by simp, List.nodup_nil⟩

/-- Every entry of the naming current map is a listed naming row of the
ledger keyed by its ledger key. -/
theorem mem_buildDNSCurrentMap {L : List ManagedResource} {p : String × ManagedResource}
    (h : p ∈ buildDNSCurrentMap L) :
    p.1 = keyStr p.2 ∧ p.2 ∈ L ∧ p.2.resourceType = .dns
      ∧ dnsListedStatus p.2.status = true := by
  unfold buildDNSCurrentMap at h
  rcases mem_foldl_overwriteInsert keyStr _ _ _ h with h0 | ⟨r, hr, rfl⟩
  · cases h0
  · have hf := List.mem_filter.mp hr
    have hc : r.resourceType = .dns ∧ dnsListedStatus r.status = true := by
      simpa [Bool.and_eq_true, decide_eq_true_eq] using hf.2
    exact ⟨rfl, hf.1, hc.1, hc.2⟩

/-- Every entry of the access current map is a listed access row of the
ledger keyed by its hostname. -/
theorem mem_buildAccessCurrentMap {L : List ManagedResource} {p : String × ManagedResource}
    (h : p ∈ buildAccessCurrentMap L) :
    p.1 = p.2.hostname ∧ p.2 ∈ L ∧ p.2.resourceType = .accessApp
      ∧ dnsListedStatus p.2.status = true := by
  unfold buildAccessCurrentMap at h
  rcases mem_foldl_overwriteInsert (fun r => r.hostname) _ _ _ h with h0 | ⟨r, hr, rfl⟩
  · cases h0
  · have hf := List.mem_filter.mp hr
    have hc : r.resourceType = .accessApp ∧ dnsListedStatus r.status = true := by
      simpa [Bool.and_eq_true, decide_eq_true_eq] using hf.2
    exact ⟨rfl, hf.1, hc.1, hc.2⟩

/-- A key borne by no listed naming row misses the naming current map. -/
theorem lookupKey_buildDNSCurrentMap_none {L : List ManagedResource} {k : String}
    (h : ∀ r ∈ L, r.resourceType = .dns → dnsListedStatus r.status = true → keyStr r ≠ k) :
    lookupKey (buildDNSCurrentMap L) k = none := by
  unfold buildDNSCurrentMap
  have hne : ∀ x ∈ L.filter (fun r => decide (r.resourceType = .dns) && dnsListedStatus r.status),
      keyStr x ≠ k := by
    intro x hx
    have hf := List.mem_filter.mp hx
    have hc : x.resourceType = .dns ∧ dnsListedStatus x.status = true := by
      simpa [Bool.and_eq_true, decide_eq_true_eq] using hf.2
    exact h x hf.1 hc.1 hc.2
  rw [lookupKey_foldl_overwriteInsert keyStr k blankResource _ []
    (fun x hx hk => absurd hk (hne x hx))]
  rw [if_neg (by
    intro hany
    obtain ⟨x, hx, hk⟩ := List.any_eq_true.mp hany
    exact hne x hx (by simpa using hk))]
  rfl

/-- A key whose only listed naming row is r0 maps to r0 in the current
map. -/
theorem lookupKey_buildDNSCurrentMap_some {L : List ManagedResource} {k : String}
    {r0 : ManagedResource}
    (huniq : ∀ r ∈ L, r.resourceType = .dns → dnsListedStatus r.status = true →
      keyStr r = k → r = r0)
    (hmem : r0 ∈ L) (ht : r0.resourceType = .dns) (hs : dnsListedStatus r0.status = true)
    (hk : keyStr r0 = k) :
    lookupKey (buildDNSCurrentMap L) k = some r0 := by
  unfold buildDNSCurrentMap
  have huniq2 : ∀ x ∈ L.filter (fun r => decide (r.resourceType = .dns) && dnsListedStatus r.status),
      keyStr x = k → x = r0 := by
    intro x hx hxk
    have hf := List.mem_filter.mp hx
    have hc : x.resourceType = .dns ∧ dnsListedStatus x.status = true := by
      simpa [Bool.and_eq_true, decide_eq_true_eq] using hf.2
    exact huniq x hf.1 hc.1 hc.2 hxk
  rw [lookupKey_foldl_overwriteInsert keyStr k r0 _ [] huniq2]
  rw [if_pos (List.any_eq_true.mpr
    ⟨r0, List.mem_filter.mpr ⟨hmem, by simp [ht, hs]⟩, by simp [hk]⟩)]

/-- A hostname borne by no listed access row misses the access current
map. -/
theorem lookupKey_buildAccessCurrentMap_none {L : List ManagedResource} {k : String}
    (h : ∀ r ∈ L, r.resourceType = .accessApp → dnsListedStatus r.status = true →
      r.hostname ≠ k) :
    lookupKey (buildAccessCurrentMap L) k = none := by
  unfold buildAccessCurrentMap
  have hne : ∀ x ∈ L.filter
      (fun r => decide (r.resourceType = .accessApp) && dnsListedStatus r.status),
      x.hostname ≠ k := by
    intro x hx
    have hf := List.mem_filter.mp hx
    have hc : x.resourceType = .accessApp ∧ dnsListedStatus x.status = true := by
      simpa [Bool.and_eq_true, decide_eq_true_eq] using hf.2
    exact h x hf.1 hc.1 hc.2
  rw [lookupKey_foldl_overwriteInsert (fun r => r.hostname) k blankResource _ []
    (fun x hx hk => absurd hk (hne x hx))]
  rw [if_neg (by
    intro hany
    obtain ⟨x, hx, hk⟩ := List.any_eq_true.mp hany
    exact hne x hx (by simpa using hk))]
  rfl

/-- A hostname whose only listed access row is r0 maps to r0 in the access
current map. -/
theorem lookupKey_buildAccessCurrentMap_some {L : List ManagedResource} {k : String}
    {r0 : ManagedResource}
    (huniq : ∀ r ∈ L, r.resourceType = .accessApp → dnsListedStatus r.status = true →
      r.hostname = k → r = r0)
    (hmem : r0 ∈ L) (ht : r0.resourceType = .accessApp) (hs : dnsListedStatus r0.status = true)
    (hk : r0.hostname = k) :
    lookupKey (buildAccessCurrentMap L) k = some r0 := by
  unfold buildAccessCurrentMap
  have huniq2 : ∀ x ∈ L.filter
      (fun r => decide (r.resourceType = .accessApp) && dnsListedStatus r.status),
      x.hostname = k → x = r0 := by
    intro x hx hxk
    have hf := List.mem_filter.mp hx
    have hc : x.resourceType = .accessApp ∧ dnsListedStatus x.status = true := by
      simpa [Bool.and_eq_true, decide_eq_true_eq] using hf.2
    exact huniq x hf.1 hc.1 hc.2 hxk
  rw [lookupKey_foldl_overwriteInsert (fun r => r.hostname) k r0 _ [] huniq2]
  rw [if_pos (List.any_eq_true.mpr
    ⟨r0, List.mem_filter.mpr ⟨hmem, by simp [ht, hs]⟩, by simp [hk]⟩)]

/-- A member of a map with duplicate-free keys splits the map into a prefix
and suffix free of its key. -/
theorem split_of_mem_nodupKeys {α : Type} {m : List (String × α)} {k : String} {v : α}
    (hnd : (m.map (fun e => e.1)).Nodup) (hmem : (k, v) ∈ m) :
    ∃ pre post, m = pre ++ (k, v) :: post
      ∧ (∀ p ∈ pre, p.1 ≠ k) ∧ (∀ p ∈ post, p.1 ≠ k) := by
  obtain ⟨pre, post, rfl⟩ := List.append_of_mem hmem
  rw [List.map_append, List.map_cons] at hnd
  refine ⟨pre, post, rfl, ?_, ?_⟩
  · intro p hp hpk
    have hd := (List.nodup_append.mp hnd).2.2
    exact hd (List.mem_map.mpr ⟨p, hp, hpk⟩) (by simp)
  · intro p hp hpk
    have h2 := (List.nodup_append.mp hnd).2.1
    rw [List.nodup_cons] at h2
    exact h2.1 (List.mem_map.mpr ⟨p, hp, hpk⟩)

/-! ### Call and value shapes of the operator primitives -/

/-- Target resolution only ever issues the public-IP fetch. -/
theorem resolveTarget_calls (remote : DNSRemote) (t : String) (c : ContainerInfo) :
    ∀ c0 ∈ (resolveTarget remote t c).2, c0 = DNSCall.fetchIP := by
  intro c0 hc0
  unfold resolveTarget at hc0
  by_cases h1 : t = "auto" ∨ t = ""
  · rw [if_pos h1] at hc0
    simpa using hc0
  · rw [if_neg h1] at hc0
    by_cases h2 : t = "container"
    · rw [if_pos h2] at hc0
      cases hh : c.networks.head? with
      | some p => rw [hh] at hc0; simp at hc0
      | none => rw [hh] at hc0; simp at hc0
    · rw [if_neg h2] at hc0
      simp at hc0

/-- Every create call a record creation issues names the desired hostname
and record type. -/
theorem createDNSRecord_createRec_shape {remote : DNSRemote} {c : ContainerInfo}
    {svc : DNSService} {rec : DNSRecord}
    (h : DNSCall.createRec rec ∈ (createDNSRecord remote c svc).2) :
    rec.name = svc.hostname ∧ rec.recType = svc.recType := by
  unfold createDNSRecord at h
  rcases hrt : resolveTarget remote svc.target c with ⟨rt, cs⟩
  rw [hrt] at h
  have hcs : ∀ x ∈ cs, x = DNSCall.fetchIP := by
    intro x hx
    have hx2 := resolveTarget_calls remote svc.target c x
    rw [hrt] at hx2
    exact hx2 hx
  cases rt with
  | error e =>
    dsimp only at h
    have hf := hcs _ h
    simp at hf
  | ok target =>
    dsimp only at h
    cases hz : remote.zoneID svc.hostname with
    | error e =>
      rw [hz] at h
      dsimp only at h
      rcases List.mem_append.mp h with h | h
      · have hf := hcs _ h
        simp at hf
      · simp at h
    | ok zid =>
      rw [hz] at h
      dsimp only at h
      cases hcr : remote.createResult (dnsRecordFor svc zid target c) with
      | ok created =>
        rw [hcr] at h
        dsimp only at h
        rcases List.mem_append.mp h with h | h
        · have hf := hcs _ h
          simp at hf
        · simp only [List.mem_cons, List.not_mem_nil, or_false] at h
          rcases h with h | h
          · simp at h
          · injection h with h1
            subst h1
            exact ⟨rfl, rfl⟩
      | error err =>
        rw [hcr] at h
        dsimp only at h
        by_cases hae : isAlreadyExistsError err = true
        · rw [if_pos hae] at h
          cases hrb : remote.recordByName svc.hostname svc.recType with
          | error e2 =>
            rw [hrb] at h
            dsimp only at h
            rcases List.mem_append.mp h with h | h
            · have hf := hcs _ h
              simp at hf
            · simp only [List.mem_cons, List.not_mem_nil, or_false] at h
              rcases h with h | h | h
              · simp at h
              · injection h with h1
                subst h1
                exact ⟨rfl, rfl⟩
              · simp at h
          | ok o =>
            rw [hrb] at h
            cases o with
            | some existing =>
              dsimp only at h
              rcases List.mem_append.mp h with h | h
              · have hf := hcs _ h
                simp at hf
              · simp only [List.mem_cons, List.not_mem_nil, or_false] at h
                rcases h with h | h | h
                · simp at h
                · injection h with h1
                  subst h1
                  exact ⟨rfl, rfl⟩
                · simp at h
            | none =>
              dsimp only at h
              rcases List.mem_append.mp h with h | h
              · have hf := hcs _ h
                simp at hf
              · simp only [List.mem_cons, List.not_mem_nil, or_false] at h
                rcases h with h | h | h
                · simp at h
                · injection h with h1
                  subst h1
                  exact ⟨rfl, rfl⟩
                · simp at h
        · rw [if_neg hae] at h
          dsimp only at h
          rcases List.mem_append.mp h with h | h
          · have hf := hcs _ h
            simp at hf
          · simp only [List.mem_cons, List.not_mem_nil, or_false] at h
            rcases h with h | h
            · simp at h
            · injection h with h1
              subst h1
              exact ⟨rfl, rfl⟩

/-- A record update never issues a create call. -/
theorem updateDNSRecord_no_createRec {remote : DNSRemote} {resource : ManagedResource}
    {svc : DNSService} {rec : DNSRecord}
    (h : DNSCall.createRec rec ∈ (updateDNSRecord remote resource svc).2) : False := by
  unfold updateDNSRecord at h
  dsimp only at h
  by_cases hrr : resource.cfID = "" ∨ resource.zoneID = ""
  · rw [if_pos hrr] at h
    cases hrb : remote.recordByName svc.hostname svc.recType with
    | error e =>
      rw [hrb] at h
      dsimp only at h
      simp at h
    | ok o =>
      rw [hrb] at h
      cases o with
      | none =>
        dsimp only at h
        simp at h
      | some existing =>
        dsimp only at h
        by_cases hta : svc.target = "auto" ∨ svc.target = ""
        · rw [if_pos hta] at h
          cases hip : remote.publicIP with
          | error e2 =>
            rw [hip] at h
            dsimp only at h
            simp at h
          | ok target =>
            rw [hip] at h
            dsimp only at h
            split at h <;> simp at h
        · rw [if_neg hta] at h
          dsimp only at h
          split at h <;> simp at h
  · rw [if_neg hrr] at h
    dsimp only at h
    by_cases hta : svc.target = "auto" ∨ svc.target = ""
    · rw [if_pos hta] at h
      cases hip : remote.publicIP with
      | error e2 =>
        rw [hip] at h
        dsimp only at h
        simp at h
      | ok target =>
        rw [hip] at h
        dsimp only at h
        split at h <;> simp at h
    · rw [if_neg hta] at h
      dsimp only at h
      split at h <;> simp at h

/-- A successful record creation persists exactly the standard active row
of its service. -/
theorem createDNSRecord_ok_shape {remote : DNSRemote} {c : ContainerInfo}
    {svc : DNSService} {row : ManagedResource}
    (h : (createDNSRecord remote c svc).1 = .ok row) :
    ∃ zid target cfid, row = dnsSavedResource svc c zid target cfid := by
  unfold createDNSRecord at h
  rcases hrt : resolveTarget remote svc.target c with ⟨rt, cs⟩
  rw [hrt] at h
  cases rt with
  | error e =>
    dsimp only at h
    simp at h
  | ok target =>
    dsimp only at h
    cases hz : remote.zoneID svc.hostname with
    | error e =>
      rw [hz] at h
      simp at h
    | ok zid =>
      rw [hz] at h
      dsimp only at h
      cases hcr : remote.createResult (dnsRecordFor svc zid target c) with
      | ok created =>
        rw [hcr] at h
        dsimp only at h
        injection h with h1
        exact ⟨zid, target, created.id, h1.symm⟩
      | error err =>
        rw [hcr] at h
        dsimp only at h
        by_cases hae : isAlreadyExistsError err = true
        · rw [if_pos hae] at h
          cases hrb : remote.recordByName svc.hostname svc.recType with
          | error e2 =>
            rw [hrb] at h
            simp at h
          | ok o =>
            rw [hrb] at h
            cases o with
            | some existing =>
              dsimp only at h
              injection h with h1
              exact ⟨zid, target, existing.id, h1.symm⟩
            | none =>
              dsimp only at h
              simp at h
        · rw [if_neg hae] at h
          simp at h

/-- A successful record update keeps the key and the id of the row it
updates. -/
theorem updateDNSRecord_ok_shape {remote : DNSRemote} {resource : ManagedResource}
    {svc : DNSService} {row : ManagedResource}
    (h : (updateDNSRecord remote resource svc).1 = .ok row) :
    tripleOf row = tripleOf resource ∧ row.id = resource.id := by
  unfold updateDNSRecord at h
  dsimp only at h
  by_cases hrr : resource.cfID = "" ∨ resource.zoneID = ""
  · rw [if_pos hrr] at h
    cases hrb : remote.recordByName svc.hostname svc.recType with
    | error e =>
      rw [hrb] at h
      simp at h
    | ok o =>
      rw [hrb] at h
      cases o with
      | none =>
        dsimp only at h
        simp at h
      | some existing =>
        dsimp only at h
        by_cases hta : svc.target = "auto" ∨ svc.target = ""
        · rw [if_pos hta] at h
          cases hip : remote.publicIP with
          | error e2 =>
            rw [hip] at h
            simp at h
          | ok target =>
            rw [hip] at h
            dsimp only at h
            split at h
            · simp at h
            · injection h with h1
              rw [← h1]
              exact ⟨rfl, rfl⟩
        · rw [if_neg hta] at h
          dsimp only at h
          split at h
          · simp at h
          · injection h with h1
            rw [← h1]
            exact ⟨rfl, rfl⟩
  · rw [if_neg hrr] at h
    dsimp only at h
    by_cases hta : svc.target = "auto" ∨ svc.target = ""
    · rw [if_pos hta] at h
      cases hip : remote.publicIP with
      | error e2 =>
        rw [hip] at h
        simp at h
      | ok target =>
        rw [hip] at h
        dsimp only at h
        split at h
        · simp at h
        · injection h with h1
          rw [← h1]
          exact ⟨rfl, rfl⟩
    · rw [if_neg hta] at h
      dsimp only at h
      split at h
      · simp at h
      · injection h with h1
        rw [← h1]
        exact ⟨rfl, rfl⟩

/-- Every call a creation-side access ensure issues is tagged with the
binding hostname. -/
theorem ensureAccess_calls {remote : AccessRemote} {acct : String} {b : AccessBinding} :
    ∀ c0 ∈ (ensureAccess remote acct b).2,
      c0 = AccessCall.findExisting b.hostname ∨ c0 = AccessCall.ensureApp b.hostname "" := by
  intro c0 hc0
  unfold ensureAccess at hc0
  by_cases ha : acct = ""
  · rw [if_pos ha] at hc0
    simp at hc0
  · rw [if_neg ha] at hc0
    dsimp only at hc0
    cases hp : remote.findExistingApp b.hostname with
    | error e =>
      rw [hp] at hc0
      dsimp only at hc0
      cases he : remote.ensureResult b.hostname "" with
      | error e2 =>
        rw [he] at hc0
        dsimp only at hc0
        simp only [List.mem_cons, List.not_mem_nil, or_false] at hc0
        rcases hc0 with hc0 | hc0
        · exact Or.inl hc0
        · exact Or.inr hc0
      | ok appID =>
        rw [he] at hc0
        dsimp only at hc0
        simp only [List.mem_cons, List.not_mem_nil, or_false] at hc0
        rcases hc0 with hc0 | hc0
        · exact Or.inl hc0
        · exact Or.inr hc0
    | ok pr =>
      rw [hp] at hc0
      obtain ⟨appID, appName⟩ := pr
      dsimp only at hc0
      by_cases hid : appID = ""
      · rw [if_neg (fun hx => hx hid)] at hc0
        dsimp only at hc0
        cases he : remote.ensureResult b.hostname "" with
        | error e2 =>
          rw [he] at hc0
          dsimp only at hc0
          simp only [List.mem_cons, List.not_mem_nil, or_false] at hc0
          rcases hc0 with hc0 | hc0
          · exact Or.inl hc0
          · exact Or.inr hc0
        | ok appID2 =>
          rw [he] at hc0
          dsimp only at hc0
          simp only [List.mem_cons, List.not_mem_nil, or_false] at hc0
          rcases hc0 with hc0 | hc0
          · exact Or.inl hc0
          · exact Or.inr hc0
      · rw [if_pos hid] at hc0
        dsimp only at hc0
        simp only [List.mem_singleton] at hc0
        exact Or.inl hc0

/-- Every call an access update issues is the ensure of the binding
hostname against the existing application. -/
theorem updateAccess_calls {remote : AccessRemote} {existing : ManagedResource}
    {b : AccessBinding} :
    ∀ c0 ∈ (updateAccess remote existing b).2,
      c0 = AccessCall.ensureApp b.hostname existing.accessAppID := by
  intro c0 hc0
  unfold updateAccess at hc0
  cases he : remote.ensureResult b.hostname existing.accessAppID with
  | error e =>
    rw [he] at hc0
    dsimp only at hc0
    simpa using hc0
  | ok s =>
    rw [he] at hc0
    dsimp only at hc0
    simpa using hc0

/-- A successful creation-side access ensure persists exactly the standard
active row of its binding. -/
theorem ensureAccess_ok_shape {remote : AccessRemote} {acct : String} {b : AccessBinding}
    {row : ManagedResource} (h : (ensureAccess remote acct b).1 = .ok row) :
    ∃ appID, row = accessSavedResource b appID acct := by
  unfold ensureAccess at h
  by_cases ha : acct = ""
  · rw [if_pos ha] at h
    simp at h
  · rw [if_neg ha] at h
    dsimp only at h
    cases hp : remote.findExistingApp b.hostname with
    | error e =>
      rw [hp] at h
      dsimp only at h
      cases he : remote.ensureResult b.hostname "" with
      | error e2 =>
        rw [he] at h
        simp at h
      | ok appID =>
        rw [he] at h
        dsimp only at h
        injection h with h1
        exact ⟨appID, h1.symm⟩
    | ok pr =>
      rw [hp] at h
      obtain ⟨appID, appName⟩ := pr
      dsimp only at h
      by_cases hid : appID = ""
      · rw [if_neg (fun hx => hx hid)] at h
        dsimp only at h
        cases he : remote.ensureResult b.hostname "" with
        | error e2 =>
          rw [he] at h
          simp at h
        | ok appID2 =>
          rw [he] at h
          dsimp only at h
          injection h with h1
          exact ⟨appID2, h1.symm⟩
      · rw [if_pos hid] at h
        simp at h

/-- A successful access update keeps the key and the id of the row it
updates. -/
theorem updateAccess_ok_shape {remote : AccessRemote} {existing : ManagedResource}
    {b : AccessBinding} {row : ManagedResource}
    (h : (updateAccess remote existing b).1 = .ok row) :
    tripleOf row = tripleOf existing ∧ row.id = existing.id := by
  unfold updateAccess at h
  cases he : remote.ensureResult b.hostname existing.accessAppID with
  | error e =>
    rw [he] at h
    simp at h
  | ok s =>
    rw [he] at h
    dsimp only at h
    injection h with h1
    rw [← h1]
    exact ⟨rfl, rfl⟩

/-! ### Id well-formedness through a naming pass -/

/-- The ledger key only reads the unique triple. -/
theorem keyStr_congr {a b : ManagedResource} (h : tripleOf a = tripleOf b) :
    keyStr a = keyStr b := by
  simp only [tripleOf, Prod.mk.injEq] at h
  unfold keyStr
  rw [h.2.1, h.2.2]

/-- The resource kind only reads the unique triple. -/
theorem resourceType_congr {a b : ManagedResource} (h : tripleOf a = tripleOf b) :
    a.resourceType = b.resourceType := by
  simp only [tripleOf, Prod.mk.injEq] at h
  exact h.1

/-- A well-formed row of another key never bears the fresh id of the
protected key. -/
theorem id_ne_freshID_of_key {cur errRes : ManagedResource} {k : String}
    (hok : idOKb cur) (htype : cur.resourceType = errRes.resourceType)
    (hkc : keyStr cur ≠ k) (hek : keyStr errRes = k) : cur.id ≠ freshID errRes := by
  rcases hok with hok | hok
  · exact ne_freshID_of_not_prefix hok errRes
  · rw [hok]
    exact freshID_ne_of_key htype (by rw [hek]; exact hkc)

/-- The in-memory row an upsert returns is the normalized input. -/
theorem fst_saveResource (now : Int) (L : List ManagedResource) (res : ManagedResource) :
    (saveResource now L res).1 = saveNorm now res := by
  unfold saveResource
  dsimp only
  split <;> rfl

/-- One desired-loop step of the naming pass keeps every id well-formed. -/
theorem idOK_dnsStep {remote : DNSRemote} {now : Int} {st : DNSPassState}
    {e : String × DesiredDNS}
    (hL : ∀ q ∈ st.ledger, idOKb q)
    (hM : ∀ p ∈ st.currentMap, idOKb p.2) :
    (∀ q ∈ (dnsStep remote now st e).ledger, idOKb q)
      ∧ (∀ p ∈ (dnsStep remote now st e).currentMap, idOKb p.2) := by
  unfold dnsStep
  dsimp only
  cases hlk : lookupKey st.currentMap e.1 with
  | none =>
    rcases hc : createDNSRecord remote e.2.container.info e.2.service with ⟨cr, cs⟩
    cases cr with
    | error err =>
      dsimp only
      exact ⟨idOK_saveResource hL (Or.inl rfl) now, hM⟩
    | ok resource =>
      dsimp only
      refine ⟨?_, hM⟩
      have hid0 : resource.id = "" := by
        obtain ⟨zid, target, cfid, rfl⟩ := createDNSRecord_ok_shape (by rw [hc])
        rfl
      have hL1 : ∀ q ∈ (saveResource now st.ledger resource).2, idOKb q :=
        idOK_saveResource hL (Or.inl hid0) now
      split
      · refine idOK_saveResource hL1 (Or.inr ?_) now
        rw [fst_saveResource]
        exact idOKb_saveNorm now (Or.inl hid0)
      · exact hL1
  | some current =>
    have hcur : idOKb current := hM _ (lookupKey_mem hlk)
    dsimp only
    have hpp : (∀ q ∈ (if current.agentID ≠ e.2.container.agentID then
          saveResource now st.ledger { current with agentID := e.2.container.agentID }
        else (current, st.ledger)).2, idOKb q)
        ∧ idOKb (if current.agentID ≠ e.2.container.agentID then
          saveResource now st.ledger { current with agentID := e.2.container.agentID }
        else (current, st.ledger)).1 := by
      by_cases hag : current.agentID ≠ e.2.container.agentID
      · rw [if_pos hag]
        constructor
        · refine idOK_saveResource hL (Or.inr ?_) now
          exact hcur
        · rw [fst_saveResource]
          exact idOKb_saveNorm now (Or.inr hcur)
      · rw [if_neg hag]
        exact ⟨hL, hcur⟩
    constructor
    · generalize hpair : (if current.agentID ≠ e.2.container.agentID then
          saveResource now st.ledger { current with agentID := e.2.container.agentID }
        else (current, st.ledger)) = patchPair
      rw [hpair] at hpp
      by_cases hub : dnsUpdateBranch patchPair.1 e.2.service = true
      · rw [if_pos hub]
        rcases hu : updateDNSRecord remote patchPair.1 e.2.service with ⟨ur, cs⟩
        cases ur with
        | error msg =>
          dsimp only
          refine idOK_patchById ?_ hpp.1 _
          exact fun q => ⟨rfl, rfl⟩
        | ok updatedRow =>
          dsimp only
          have hshape := updateDNSRecord_ok_shape (by rw [hu])
          have hrow : idOKb updatedRow :=
            idOKb_congr hshape.1.symm hshape.2.symm hpp.2
          have hl2 : ∀ q ∈ (saveResource now patchPair.2 updatedRow).2, idOKb q := by
            refine idOK_saveResource hpp.1 (Or.inr ?_) now
            exact hrow
          by_cases hcl : patchPair.1.lastError ≠ "" ∨ patchPair.1.status ≠ ResourceStatus.active
          · rw [if_pos hcl]
            refine idOK_patchById ?_ hl2 _
            exact fun q => ⟨rfl, rfl⟩
          · rw [if_neg hcl]
            exact hl2
      · rw [if_neg hub]
        exact hpp.1
    · intro p hp
      exact hM p (mem_removeKey hp).1

/-- The orphan-marking tail keeps every id well-formed and never touches
the call log or the current map. -/
theorem idOK_dnsOrphanPhase {now : Int} {st : DNSPassState}
    (hL : ∀ q ∈ st.ledger, idOKb q) :
    (∀ q ∈ (dnsOrphanPhase now st).ledger, idOKb q)
      ∧ (dnsOrphanPhase now st).calls = st.calls
      ∧ (dnsOrphanPhase now st).currentMap = st.currentMap := by
  unfold dnsOrphanPhase
  have key : ∀ (ps : List (String × ManagedResource)) (acc : DNSPassState),
      (∀ q ∈ acc.ledger, idOKb q) →
      (∀ q ∈ (ps.foldl (fun acc p =>
          if p.2.status ≠ .orphaned then
            { acc with ledger := updateResourceStatus now acc.ledger p.2.id .orphaned }
          else acc) acc).ledger, idOKb q)
        ∧ (ps.foldl (fun acc p =>
          if p.2.status ≠ .orphaned then
            { acc with ledger := updateResourceStatus now acc.ledger p.2.id .orphaned }
          else acc) acc).calls = acc.calls
        ∧ (ps.foldl (fun acc p =>
          if p.2.status ≠ .orphaned then
            { acc with ledger := updateResourceStatus now acc.ledger p.2.id .orphaned }
          else acc) acc).currentMap = acc.currentMap := by
    intro ps
    induction ps with
    | nil => intro acc hacc; exact ⟨hacc, rfl, rfl⟩
    | cons p ps ih =>
      intro acc hacc
      rw [List.foldl_cons]
      split
      · refine ih _ ?_
        refine idOK_patchById ?_ hacc _
        exact fun q => ⟨rfl, rfl⟩
      · exact ih _ hacc
  exact key st.currentMap st hL

/-- A full naming pass keeps every id well-formed. -/
theorem idOK_dnsReconcile {remote : DNSRemote} {now : Int}
    {desired : List ParsedContainer} {ledger : List ManagedResource}
    (hL : ∀ q ∈ ledger, idOKb q) :
    ∀ q ∈ (dnsReconcile remote now desired ledger).ledger, idOKb q := by
  unfold dnsReconcile
  dsimp only
  have key : ∀ (es : List (String × DesiredDNS)) (st : DNSPassState),
      (∀ q ∈ st.ledger, idOKb q) → (∀ p ∈ st.currentMap, idOKb p.2) →
      (∀ q ∈ (es.foldl (dnsStep remote now) st).ledger, idOKb q)
        ∧ (∀ p ∈ (es.foldl (dnsStep remote now) st).currentMap, idOKb p.2) := by
    intro es
    induction es with
    | nil => intro st h1 h2; exact ⟨h1, h2⟩
    | cons e es ih =>
      intro st h1 h2
      rw [List.foldl_cons]
      have hstep := @idOK_dnsStep remote now st e h1 h2
      exact ih _ hstep.1 hstep.2
  have hM0 : ∀ p ∈ buildDNSCurrentMap ledger, idOKb p.2 := by
    intro p hp
    exact hL p.2 (mem_buildDNSCurrentMap hp).2.1
  have hfold := key (buildDesiredDNSMap desired) ⟨buildDNSCurrentMap ledger, ledger, []⟩ hL hM0
  exact (idOK_dnsOrphanPhase hfold.1).1

/-! ### Frame lemmas of the naming pass around a protected key -/

/-- A desired-loop step for another key leaves the protected rows, the
protected lookup and the current map intact, and only adds create calls
naming its own service. -/
theorem dnsStep_foreign {remote : DNSRemote} {now : Int} {k : String}
    {errRes : ManagedResource} (hek : keyStr errRes = k) (het : errRes.resourceType = .dns)
    {st : DNSPassState} {e : String × DesiredDNS}
    (hk : e.1 ≠ k) (hkey : e.1 = dnsKeyOf e.2.service)
    (hwf : ∀ p ∈ st.currentMap, p.1 = keyStr p.2 ∧ p.2.resourceType = .dns ∧ idOKb p.2)
    (hprot : ∀ q ∈ st.ledger.filter (dnsKeyP k), q.id = freshID errRes) :
    (dnsStep remote now st e).ledger.filter (dnsKeyP k) = st.ledger.filter (dnsKeyP k)
      ∧ (∀ p ∈ (dnsStep remote now st e).currentMap, p ∈ st.currentMap)
      ∧ lookupKey (dnsStep remote now st e).currentMap k = lookupKey st.currentMap k
      ∧ (∀ rec, DNSCall.createRec rec ∈ (dnsStep remote now st e).calls →
           DNSCall.createRec rec ∈ st.calls
             ∨ (rec.name = e.2.service.hostname ∧ rec.recType = e.2.service.recType)) := by
  have hP := dnsKeyP_triple k
  unfold dnsStep
  dsimp only
  cases hlk : lookupKey st.currentMap e.1 with
  | none =>
    rcases hc : createDNSRecord remote e.2.container.info e.2.service with ⟨cr, cs⟩
    have hcalls : ∀ rec, DNSCall.createRec rec ∈ st.calls ++ cs →
        DNSCall.createRec rec ∈ st.calls
          ∨ (rec.name = e.2.service.hostname ∧ rec.recType = e.2.service.recType) := by
      intro rec hrec
      rcases List.mem_append.mp hrec with hrec | hrec
      · exact Or.inl hrec
      · exact Or.inr (createDNSRecord_createRec_shape (by rw [hc]; exact hrec))
    cases cr with
    | error err =>
      dsimp only
      refine ⟨?_, fun p hp => hp, rfl, hcalls⟩
      refine filter_save_of_neg hP ?_ now st.ledger
      have hks : keyStr (dnsErrResource e.2 err) = dnsKeyOf e.2.service := rfl
      unfold dnsKeyP
      rw [hks, ← hkey]
      simp [hk]
    | ok resource =>
      dsimp only
      obtain ⟨zid, target, cfid, hres⟩ := createDNSRecord_ok_shape (by rw [hc])
      have hksr : keyStr resource = dnsKeyOf e.2.service := by rw [hres]; rfl
      have hPres : dnsKeyP k resource = false := by
        unfold dnsKeyP
        rw [hksr, ← hkey]
        simp [hk]
      have hfil1 : ((saveResource now st.ledger resource).2).filter (dnsKeyP k)
          = st.ledger.filter (dnsKeyP k) := filter_save_of_neg hP hPres now st.ledger
      refine ⟨?_, fun p hp => hp, rfl, hcalls⟩
      split
      · have hP2 : dnsKeyP k { (saveResource now st.ledger resource).1 with
            agentID := e.2.container.agentID } = false := by
          have ht2 : tripleOf { (saveResource now st.ledger resource).1 with
              agentID := e.2.container.agentID } = tripleOf resource := by
            rw [fst_saveResource]
            exact tripleOf_saveNorm now resource
          rw [hP _ resource ht2]
          exact hPres
        rw [filter_save_of_neg hP hP2 now _]
        exact hfil1
      · exact hfil1
  | some current =>
    obtain ⟨hpk, hpt, hpok⟩ := hwf _ (lookupKey_mem hlk)
    have hpk2 : e.1 = keyStr current := hpk
    have hpt2 : current.resourceType = ResourceType.dns := hpt
    have hpok2 : idOKb current := hpok
    have hkc : keyStr current ≠ k := by
      rw [← hpk2]
      exact hk
    have hPcur : dnsKeyP k current = false := by
      unfold dnsKeyP
      simp [hkc]
    dsimp only
    have hpp : ((if current.agentID ≠ e.2.container.agentID then
          saveResource now st.ledger { current with agentID := e.2.container.agentID }
        else (current, st.ledger)).2).filter (dnsKeyP k) = st.ledger.filter (dnsKeyP k)
        ∧ tripleOf (if current.agentID ≠ e.2.container.agentID then
          saveResource now st.ledger { current with agentID := e.2.container.agentID }
        else (current, st.ledger)).1 = tripleOf current
        ∧ idOKb (if current.agentID ≠ e.2.container.agentID then
          saveResource now st.ledger { current with agentID := e.2.container.agentID }
        else (current, st.ledger)).1 := by
      by_cases hag : current.agentID ≠ e.2.container.agentID
      · rw [if_pos hag]
        refine ⟨?_, ?_, ?_⟩
        · refine filter_save_of_neg hP ?_ now st.ledger
          exact (hP _ current rfl).trans hPcur
        · rw [fst_saveResource]
          exact tripleOf_saveNorm now _
        · rw [fst_saveResource]
          exact idOKb_saveNorm now (Or.inr hpok2)
      · rw [if_neg hag]
        exact ⟨rfl, rfl, hpok2⟩
    generalize hpair : (if current.agentID ≠ e.2.container.agentID then
        saveResource now st.ledger { current with agentID := e.2.container.agentID }
      else (current, st.ledger)) = patchPair
    rw [hpair] at hpp
    have hid1 : patchPair.1.id ≠ freshID errRes := by
      refine id_ne_freshID_of_key hpp.2.2 ?_ ?_ hek
      · exact (resourceType_congr hpp.2.1).trans (hpt2.trans het.symm)
      · rw [keyStr_congr hpp.2.1]
        exact hkc
    have hsub : ∀ p ∈ removeKey st.currentMap e.1, p ∈ st.currentMap :=
      fun p hp => (mem_removeKey hp).1
    have hlkk : lookupKey (removeKey st.currentMap e.1) k = lookupKey st.currentMap k :=
      lookupKey_removeKey_ne (fun he => hk he.symm)
    by_cases hub : dnsUpdateBranch patchPair.1 e.2.service = true
    · rw [if_pos hub]
      rcases hu : updateDNSRecord remote patchPair.1 e.2.service with ⟨ur, cs⟩
      have hnoc : ∀ rec, DNSCall.createRec rec ∈ cs → False := fun rec hrec =>
        updateDNSRecord_no_createRec (by rw [hu]; exact hrec)
      have hcalls2 : ∀ rec, DNSCall.createRec rec ∈ st.calls ++ cs →
          DNSCall.createRec rec ∈ st.calls
            ∨ (rec.name = e.2.service.hostname ∧ rec.recType = e.2.service.recType) := by
        intro rec hrec
        rcases List.mem_append.mp hrec with hrec | hrec
        · exact Or.inl hrec
        · exact (hnoc rec hrec).elim
      cases ur with
      | error msg =>
        dsimp only
        refine ⟨?_, hsub, hlkk, hcalls2⟩
        have h1 : (updateResourceError now patchPair.2 patchPair.1.id ResourceStatus.error msg).filter (dnsKeyP k)
            = patchPair.2.filter (dnsKeyP k) := by
          refine filter_patchById_of_ne ?_ ?_
          · exact fun q => hP _ q rfl
          · intro q hq
            rw [hpp.1] at hq
            rw [hprot q hq]
            exact fun hx => hid1 hx.symm
        exact h1.trans hpp.1
      | ok updatedRow =>
        dsimp only
        have hshape := updateDNSRecord_ok_shape (by rw [hu])
        have hProw : dnsKeyP k updatedRow = false :=
          (hP updatedRow current (hshape.1.trans hpp.2.1)).trans hPcur
        have hl2 : ((saveResource now patchPair.2 updatedRow).2).filter (dnsKeyP k)
            = patchPair.2.filter (dnsKeyP k) := filter_save_of_neg hP hProw now _
        refine ⟨?_, hsub, hlkk, hcalls2⟩
        by_cases hcl : patchPair.1.lastError ≠ "" ∨ patchPair.1.status ≠ ResourceStatus.active
        · rw [if_pos hcl]
          have h1 : (updateResourceError now (saveResource now patchPair.2 updatedRow).2 patchPair.1.id ResourceStatus.active "").filter (dnsKeyP k)
              = ((saveResource now patchPair.2 updatedRow).2).filter (dnsKeyP k) := by
            refine filter_patchById_of_ne ?_ ?_
            · exact fun q => hP _ q rfl
            · intro q hq
              rw [hl2, hpp.1] at hq
              rw [hprot q hq]
              exact fun hx => hid1 hx.symm
          exact (h1.trans hl2).trans hpp.1
        · rw [if_neg hcl]
          exact hl2.trans hpp.1
    · rw [if_neg hub]
      dsimp only
      refine ⟨hpp.1, hsub, hlkk, ?_⟩
      intro rec hrec
      rcases List.mem_append.mp hrec with hrec | hrec
      · exact Or.inl hrec
      · simp at hrec

/-- The desired loop over foreign keys preserves the protected rows and
lookup, shrinks the current map, and only adds create calls naming its
own services. -/
theorem dnsFold_foreign {remote : DNSRemote} {now : Int} {k : String}
    {errRes : ManagedResource} (hek : keyStr errRes = k) (het : errRes.resourceType = .dns) :
    ∀ (es : List (String × DesiredDNS)) (st : DNSPassState),
      (∀ e ∈ es, e.1 ≠ k ∧ e.1 = dnsKeyOf e.2.service) →
      (∀ p ∈ st.currentMap, p.1 = keyStr p.2 ∧ p.2.resourceType = .dns ∧ idOKb p.2) →
      (∀ q ∈ st.ledger.filter (dnsKeyP k), q.id = freshID errRes) →
      (es.foldl (dnsStep remote now) st).ledger.filter (dnsKeyP k)
          = st.ledger.filter (dnsKeyP k)
        ∧ (∀ p ∈ (es.foldl (dnsStep remote now) st).currentMap, p ∈ st.currentMap)
        ∧ lookupKey (es.foldl (dnsStep remote now) st).currentMap k
            = lookupKey st.currentMap k
        ∧ (∀ rec, DNSCall.createRec rec ∈ (es.foldl (dnsStep remote now) st).calls →
             DNSCall.createRec rec ∈ st.calls
               ∨ ∃ e ∈ es, rec.name = e.2.service.hostname ∧ rec.recType = e.2.service.recType) := by
  intro es
  induction es with
  | nil =>
    intro st _ _ _
    exact ⟨rfl, fun p hp => hp, rfl, fun rec h => Or.inl h⟩
  | cons e es ih =>
    intro st hes hwf hprot
    rw [List.foldl_cons]
    have he := hes e (by simp)
    have hstep := @dnsStep_foreign remote now k errRes hek het st e he.1 he.2 hwf hprot
    have hwf1 : ∀ p ∈ (dnsStep remote now st e).currentMap,
        p.1 = keyStr p.2 ∧ p.2.resourceType = .dns ∧ idOKb p.2 :=
      fun p hp => hwf p (hstep.2.1 p hp)
    have hprot1 : ∀ q ∈ (dnsStep remote now st e).ledger.filter (dnsKeyP k),
        q.id = freshID errRes := by
      rw [hstep.1]
      exact hprot
    have hrest := ih (dnsStep remote now st e) (fun e2 he2 => hes e2 (by simp [he2]))
      hwf1 hprot1
    refine ⟨hrest.1.trans hstep.1, fun p hp => hstep.2.1 p (hrest.2.1 p hp),
      hrest.2.2.1.trans hstep.2.2.1, ?_⟩
    intro rec hrec
    rcases hrest.2.2.2 rec hrec with hrec2 | ⟨e2, he2, hne⟩
    · rcases hstep.2.2.2 rec hrec2 with hrec3 | hne
      · exact Or.inl hrec3
      · exact Or.inr ⟨e, by simp, hne⟩
    · exact Or.inr ⟨e2, by simp [he2], hne⟩

/-- The orphan-marking tail leaves the protected rows intact when no
remaining current-map entry bears the protected key. -/
theorem dnsOrphanPhase_filter {now : Int} {k : String} {errRes : ManagedResource}
    (hek : keyStr errRes = k) (het : errRes.resourceType = .dns) {st : DNSPassState}
    (hwf : ∀ p ∈ st.currentMap, p.1 = keyStr p.2 ∧ p.2.resourceType = .dns ∧ idOKb p.2)
    (hkne : ∀ p ∈ st.currentMap, p.1 ≠ k)
    (hprot : ∀ q ∈ st.ledger.filter (dnsKeyP k), q.id = freshID errRes) :
    (dnsOrphanPhase now st).ledger.filter (dnsKeyP k) = st.ledger.filter (dnsKeyP k) := by
  unfold dnsOrphanPhase
  have key : ∀ (ps : List (String × ManagedResource)) (acc : DNSPassState),
      (∀ p ∈ ps, p.1 = keyStr p.2 ∧ p.2.resourceType = .dns ∧ idOKb p.2 ∧ p.1 ≠ k) →
      (∀ q ∈ acc.ledger.filter (dnsKeyP k), q.id = freshID errRes) →
      (ps.foldl (fun acc p => if p.2.status ≠ .orphaned then
          { acc with ledger := updateResourceStatus now acc.ledger p.2.id .orphaned }
        else acc) acc).ledger.filter (dnsKeyP k) = acc.ledger.filter (dnsKeyP k) := by
    intro ps
    induction ps with
    | nil => intro acc _ _; rfl
    | cons p ps ihp =>
      intro acc hps hacc
      rw [List.foldl_cons]
      obtain ⟨hp1, hp2, hp3, hp4⟩ := hps p (by simp)
      have hpid : p.2.id ≠ freshID errRes := by
        refine id_ne_freshID_of_key hp3 (hp2.trans het.symm) ?_ hek
        rw [← hp1]
        exact hp4
      split
      · have hstep : (updateResourceStatus now acc.ledger p.2.id ResourceStatus.orphaned).filter (dnsKeyP k)
            = acc.ledger.filter (dnsKeyP k) := by
          refine filter_patchById_of_ne ?_ ?_
          · exact fun q => dnsKeyP_triple k _ q rfl
          · intro q hq
            rw [hacc q hq]
            exact fun hx => hpid hx.symm
        refine (ihp _ (fun x hx => hps x (by simp [hx])) ?_).trans hstep
        intro q hq
        have hq2 : q ∈ (updateResourceStatus now acc.ledger p.2.id ResourceStatus.orphaned).filter (dnsKeyP k) := hq
        rw [hstep] at hq2
        exact hacc q hq2
      · exact ihp _ (fun x hx => hps x (by simp [hx])) hacc
  exact key st.currentMap st
    (fun p hp => ⟨(hwf p hp).1, (hwf p hp).2.1, (hwf p hp).2.2, hkne p hp⟩) hprot

/-- The desired-loop step at a key absent from the current map whose remote
creation fails persists exactly the normalized error row and leaves the
current map unchanged. -/
theorem dnsStep_create_error {remote : DNSRemote} {now : Int} {st : DNSPassState}
    {e : String × DesiredDNS} {msg : String}
    (hlk : lookupKey st.currentMap e.1 = none)
    (hfail : (createDNSRecord remote e.2.container.info e.2.service).1 = .error msg)
    (hkey : e.1 = dnsKeyOf e.2.service)
    (hnil : st.ledger.filter (dnsKeyP e.1) = []) :
    (dnsStep remote now st e).ledger.filter (dnsKeyP e.1)
        = [saveNorm now (dnsErrResource e.2 msg)]
      ∧ (dnsStep remote now st e).currentMap = st.currentMap := by
  unfold dnsStep
  dsimp only
  rw [hlk]
  rcases hc : createDNSRecord remote e.2.container.info e.2.service with ⟨cr, cs⟩
  rw [hc] at hfail
  dsimp only at hfail
  subst hfail
  dsimp only
  refine ⟨?_, rfl⟩
  refine filter_save_of_pos_nil (dnsKeyP_triple e.1) ?_ now hnil
  have hks : keyStr (dnsErrResource e.2 msg) = dnsKeyOf e.2.service := rfl
  unfold dnsKeyP
  rw [hks, ← hkey]
  simp [dnsErrResource]

/-- An id-keyed patch map over a singleton whose id matches. -/
theorem map_patch_singleton (f : ManagedResource → ManagedResource) (i : String)
    (x : ManagedResource) (hx : x.id = i) :
    [x].map (fun q => if q.id = i then f q else q) = [f x] := by
  simp [hx]

/-- The desired-loop step at a key whose only protected row is an error row
with matching ownership takes the update path: the protected rows stay a
single row with the same id, the key is consumed, and no create call is
issued. -/
theorem dnsStep_retry {remote : DNSRemote} {now : Int} {st : DNSPassState}
    {e : String × DesiredDNS} {cur : ManagedResource}
    (hlk : lookupKey st.currentMap e.1 = some cur)
    (hag : cur.agentID = e.2.container.agentID)
    (hst : cur.status = .error)
    (hfil : st.ledger.filter (dnsKeyP e.1) = [cur]) :
    (∃ r, (dnsStep remote now st e).ledger.filter (dnsKeyP e.1) = [r] ∧ r.id = cur.id)
      ∧ (dnsStep remote now st e).currentMap = removeKey st.currentMap e.1
      ∧ ∀ rec, DNSCall.createRec rec ∈ (dnsStep remote now st e).calls →
          DNSCall.createRec rec ∈ st.calls := by
  have hP := dnsKeyP_triple e.1
  have hPcur : dnsKeyP e.1 cur = true := by
    have hm : cur ∈ st.ledger.filter (dnsKeyP e.1) := by
      rw [hfil]
      simp
    exact List.of_mem_filter hm
  have hcurmem : cur ∈ st.ledger := by
    have hm : cur ∈ st.ledger.filter (dnsKeyP e.1) := by
      rw [hfil]
      simp
    exact List.mem_of_mem_filter hm
  unfold dnsStep
  dsimp only
  rw [hlk]
  dsimp only
  rw [if_neg (show ¬(cur.agentID ≠ e.2.container.agentID) from fun hx => hx hag)]
  dsimp only
  rw [if_pos (show dnsUpdateBranch cur e.2.service = true by simp [dnsUpdateBranch, hst])]
  rcases hu : updateDNSRecord remote cur e.2.service with ⟨ur, cs⟩
  have hnoc : ∀ rec, DNSCall.createRec rec ∈ cs → False := fun rec hrec =>
    updateDNSRecord_no_createRec (by rw [hu]; exact hrec)
  have hcallsOK : ∀ rec, DNSCall.createRec rec ∈ st.calls ++ cs →
      DNSCall.createRec rec ∈ st.calls := by
    intro rec hrec
    rcases List.mem_append.mp hrec with hrec | hrec
    · exact hrec
    · exact (hnoc rec hrec).elim
  cases ur with
  | error msg =>
    dsimp only
    have h1 : (updateResourceError now st.ledger cur.id ResourceStatus.error msg).filter (dnsKeyP e.1)
        = (st.ledger.filter (dnsKeyP e.1)).map
            (fun q => if q.id = cur.id then
              { q with status := ResourceStatus.error, lastError := msg, updatedAt := now }
            else q) := by
      refine filter_patchById ?_ st.ledger cur.id
      exact fun q => hP _ q rfl
    have h2 : (updateResourceError now st.ledger cur.id ResourceStatus.error msg).filter (dnsKeyP e.1)
        = [{ cur with status := ResourceStatus.error, lastError := msg, updatedAt := now }] := by
      rw [h1, hfil]
      simp
    exact ⟨⟨{ cur with status := ResourceStatus.error, lastError := msg, updatedAt := now },
      h2, rfl⟩, rfl, hcallsOK⟩
  | ok updatedRow =>
    dsimp only
    have hshape := updateDNSRecord_ok_shape (by rw [hu])
    have hProw : dnsKeyP e.1 updatedRow = true := (hP updatedRow cur hshape.1).trans hPcur
    have htr : ∀ q ∈ st.ledger, dnsKeyP e.1 q = true → tripleOf q = tripleOf updatedRow := by
      intro q hq hPq
      have hm : q ∈ st.ledger.filter (dnsKeyP e.1) := List.mem_filter.mpr ⟨hq, hPq⟩
      rw [hfil] at hm
      simp only [List.mem_singleton] at hm
      subst hm
      exact hshape.1.symm
    have hres2 : dnsKeyP e.1 updatedRow = true := hProw
    have hl2 : ((saveResource now st.ledger updatedRow).2).filter (dnsKeyP e.1)
        = [{ saveNorm now updatedRow with id := cur.id, createdAt := cur.createdAt }] := by
      rw [filter_save_of_pos hP hres2 now htr ⟨cur, hcurmem, hPcur⟩, hfil]
      rfl
    by_cases hcl : cur.lastError ≠ "" ∨ cur.status ≠ ResourceStatus.active
    · rw [if_pos hcl]
      have h1 : (updateResourceError now (saveResource now st.ledger updatedRow).2 cur.id ResourceStatus.active "").filter (dnsKeyP e.1)
          = (((saveResource now st.ledger updatedRow).2).filter (dnsKeyP e.1)).map
              (fun q => if q.id = cur.id then
                { q with status := ResourceStatus.active, lastError := "", updatedAt := now }
              else q) := by
        refine filter_patchById ?_ _ cur.id
        exact fun q => hP _ q rfl
      have h2 : (updateResourceError now (saveResource now st.ledger updatedRow).2 cur.id ResourceStatus.active "").filter (dnsKeyP e.1)
          = [(fun q => { q with status := ResourceStatus.active, lastError := "", updatedAt := now })
              { saveNorm now updatedRow with id := cur.id, createdAt := cur.createdAt }] := by
        rw [h1, hl2]
        exact map_patch_singleton
          (fun q => { q with status := ResourceStatus.active, lastError := "", updatedAt := now })
          cur.id { saveNorm now updatedRow with id := cur.id, createdAt := cur.createdAt } rfl
      exact ⟨⟨_, h2, rfl⟩, rfl, hcallsOK⟩
    · rw [if_neg hcl]
      exact ⟨⟨{ saveNorm now updatedRow with id := cur.id, createdAt := cur.createdAt },
        hl2, rfl⟩, rfl, hcallsOK⟩

/-! ### The naming pass on a failing creation (claim C7) -/

/-- The orphan-marking tail never touches the call log. -/
theorem dnsOrphanPhase_calls (now : Int) (st : DNSPassState) :
    (dnsOrphanPhase now st).calls = st.calls := by
  unfold dnsOrphanPhase
  have key : ∀ (ps : List (String × ManagedResource)) (acc : DNSPassState),
      (ps.foldl (fun acc p => if p.2.status ≠ .orphaned then
          { acc with ledger := updateResourceStatus now acc.ledger p.2.id .orphaned }
        else acc) acc).calls = acc.calls := by
    intro ps
    induction ps with
    | nil => intro acc; rfl
    | cons p ps ihp =>
      intro acc
      rw [List.foldl_cons]
      split
      · exact ihp _
      · exact ihp _
  exact key st.currentMap st

/-- A naming pass whose creation for a fresh desired key fails persists
exactly the normalized error row for that key. -/
theorem dnsPass_create_error {remote : DNSRemote} {now : Int}
    {desired : List ParsedContainer} {ledger : List ManagedResource}
    {k : String} {d : DesiredDNS} {msg : String}
    (hmem : (k, d) ∈ buildDesiredDNSMap desired)
    (hfail : (createDNSRecord remote d.container.info d.service).1 = .error msg)
    (hnone : ledger.filter (dnsKeyP k) = [])
    (hids : ∀ q ∈ ledger, goHasPrefix q.id ("uuid:") = false) :
    (dnsReconcile remote now desired ledger).ledger.filter (dnsKeyP k)
      = [saveNorm now (dnsErrResource d msg)] := by
  have hwfmap := buildDesiredDNSMap_wf desired
  have hkd : k = dnsKeyOf d.service := hwfmap.1 (k, d) hmem
  have hek : keyStr (dnsErrResource d msg) = k := by
    rw [hkd]
    rfl
  have het : (dnsErrResource d msg).resourceType = ResourceType.dns := rfl
  obtain ⟨pre, post, hsplit, hpre, hpost⟩ := split_of_mem_nodupKeys hwfmap.2 hmem
  have hpre2 : ∀ e ∈ pre, e.1 ≠ k ∧ e.1 = dnsKeyOf e.2.service := by
    intro e he
    refine ⟨hpre e he, hwfmap.1 e ?_⟩
    rw [hsplit]
    exact List.mem_append_left _ he
  have hpost2 : ∀ e ∈ post, e.1 ≠ k ∧ e.1 = dnsKeyOf e.2.service := by
    intro e he
    refine ⟨hpost e he, hwfmap.1 e ?_⟩
    rw [hsplit]
    exact List.mem_append_right _ (List.mem_cons_of_mem _ he)
  have hwf0 : ∀ p ∈ buildDNSCurrentMap ledger,
      p.1 = keyStr p.2 ∧ p.2.resourceType = .dns ∧ idOKb p.2 := by
    intro p hp
    obtain ⟨h1, h2, h3, h4⟩ := mem_buildDNSCurrentMap hp
    exact ⟨h1, h3, Or.inl (hids p.2 h2)⟩
  have hkne0 : ∀ p ∈ buildDNSCurrentMap ledger, p.1 ≠ k := by
    intro p hp hpk
    obtain ⟨h1, h2, h3, h4⟩ := mem_buildDNSCurrentMap hp
    have hmem2 : p.2 ∈ ledger.filter (dnsKeyP k) := by
      refine List.mem_filter.mpr ⟨h2, ?_⟩
      unfold dnsKeyP
      rw [← h1, hpk]
      simp [h3]
    rw [hnone] at hmem2
    exact absurd hmem2 (List.not_mem_nil p.2)
  have hprot0 : ∀ q ∈ ledger.filter (dnsKeyP k), q.id = freshID (dnsErrResource d msg) := by
    intro q hq
    rw [hnone] at hq
    exact absurd hq (List.not_mem_nil q)
  have hlk0 : lookupKey (buildDNSCurrentMap ledger) k = none := by
    refine lookupKey_buildDNSCurrentMap_none ?_
    intro r hr ht hs hkk
    have hmem2 : r ∈ ledger.filter (dnsKeyP k) := by
      refine List.mem_filter.mpr ⟨hr, ?_⟩
      unfold dnsKeyP
      rw [hkk]
      simp [ht]
    rw [hnone] at hmem2
    exact absurd hmem2 (List.not_mem_nil r)
  have hfold1 := @dnsFold_foreign remote now k (dnsErrResource d msg) hek het pre
    (⟨buildDNSCurrentMap ledger, ledger, []⟩ : DNSPassState) hpre2 hwf0 hprot0
  have hnil1 : (List.foldl (dnsStep remote now) (⟨buildDNSCurrentMap ledger, ledger, []⟩ : DNSPassState) pre).ledger.filter (dnsKeyP k) = [] := hfold1.1.trans hnone
  have hlk1 : lookupKey (List.foldl (dnsStep remote now) (⟨buildDNSCurrentMap ledger, ledger, []⟩ : DNSPassState) pre).currentMap k = none := hfold1.2.2.1.trans hlk0
  have hstep := @dnsStep_create_error remote now (List.foldl (dnsStep remote now) (⟨buildDNSCurrentMap ledger, ledger, []⟩ : DNSPassState) pre) (k, d) msg hlk1 hfail hkd hnil1
  have hstep1 : (dnsStep remote now (List.foldl (dnsStep remote now) (⟨buildDNSCurrentMap ledger, ledger, []⟩ : DNSPassState) pre) (k, d)).ledger.filter (dnsKeyP k) = [saveNorm now (dnsErrResource d msg)] :=
    hstep.1
  have hstep2 : (dnsStep remote now (List.foldl (dnsStep remote now) (⟨buildDNSCurrentMap ledger, ledger, []⟩ : DNSPassState) pre) (k, d)).currentMap = (List.foldl (dnsStep remote now) (⟨buildDNSCurrentMap ledger, ledger, []⟩ : DNSPassState) pre).currentMap := hstep.2
  have herrid : (saveNorm now (dnsErrResource d msg)).id = freshID (dnsErrResource d msg) := by
    rw [id_saveNorm, if_pos (show (dnsErrResource d msg).id = "" from rfl)]
  have hwf1 : ∀ p ∈ (List.foldl (dnsStep remote now) (⟨buildDNSCurrentMap ledger, ledger, []⟩ : DNSPassState) pre).currentMap,
      p.1 = keyStr p.2 ∧ p.2.resourceType = .dns ∧ idOKb p.2 :=
    fun p hp => hwf0 p (hfold1.2.1 p hp)
  have hwf2 : ∀ p ∈ (dnsStep remote now (List.foldl (dnsStep remote now) (⟨buildDNSCurrentMap ledger, ledger, []⟩ : DNSPassState) pre) (k, d)).currentMap,
      p.1 = keyStr p.2 ∧ p.2.resourceType = .dns ∧ idOKb p.2 := by
    rw [hstep2]
    exact hwf1
  have hprot2 : ∀ q ∈ (dnsStep remote now (List.foldl (dnsStep remote now) (⟨buildDNSCurrentMap ledger, ledger, []⟩ : DNSPassState) pre) (k, d)).ledger.filter (dnsKeyP k),
      q.id = freshID (dnsErrResource d msg) := by
    intro q hq
    rw [hstep1] at hq
    simp only [List.mem_singleton] at hq
    subst hq
    exact herrid
  have hfold3 := @dnsFold_foreign remote now k (dnsErrResource d msg) hek het post
    (dnsStep remote now (List.foldl (dnsStep remote now) (⟨buildDNSCurrentMap ledger, ledger, []⟩ : DNSPassState) pre) (k, d)) hpost2 hwf2 hprot2
  have hfil3 : (List.foldl (dnsStep remote now) (dnsStep remote now (List.foldl (dnsStep remote now) (⟨buildDNSCurrentMap ledger, ledger, []⟩ : DNSPassState) pre) (k, d)) post).ledger.filter (dnsKeyP k) = [saveNorm now (dnsErrResource d msg)] :=
    hfold3.1.trans hstep1
  have hwf3 : ∀ p ∈ (List.foldl (dnsStep remote now) (dnsStep remote now (List.foldl (dnsStep remote now) (⟨buildDNSCurrentMap ledger, ledger, []⟩ : DNSPassState) pre) (k, d)) post).currentMap,
      p.1 = keyStr p.2 ∧ p.2.resourceType = .dns ∧ idOKb p.2 :=
    fun p hp => hwf2 p (hfold3.2.1 p hp)
  have hkne3 : ∀ p ∈ (List.foldl (dnsStep remote now) (dnsStep remote now (List.foldl (dnsStep remote now) (⟨buildDNSCurrentMap ledger, ledger, []⟩ : DNSPassState) pre) (k, d)) post).currentMap, p.1 ≠ k := by
    intro p hp
    have hp2 : p ∈ (dnsStep remote now (List.foldl (dnsStep remote now) (⟨buildDNSCurrentMap ledger, ledger, []⟩ : DNSPassState) pre) (k, d)).currentMap := hfold3.2.1 p hp
    rw [hstep2] at hp2
    exact hkne0 p (hfold1.2.1 p hp2)
  have hprot3 : ∀ q ∈ (List.foldl (dnsStep remote now) (dnsStep remote now (List.foldl (dnsStep remote now) (⟨buildDNSCurrentMap ledger, ledger, []⟩ : DNSPassState) pre) (k, d)) post).ledger.filter (dnsKeyP k),
      q.id = freshID (dnsErrResource d msg) := by
    intro q hq
    rw [hfil3] at hq
    simp only [List.mem_singleton] at hq
    subst hq
    exact herrid
  show (dnsReconcile remote now desired ledger).ledger.filter (dnsKeyP k)
    = [saveNorm now (dnsErrResource d msg)]
  unfold dnsReconcile
  dsimp only
  rw [hsplit, List.foldl_append, List.foldl_cons]
  exact (dnsOrphanPhase_filter hek het hwf3 hkne3 hprot3).trans hfil3

/-- A naming pass over a ledger whose only row for a desired key is the
error row of a previous failed creation takes the update path: a single
row with the same id survives and no create call for that entry is
issued. -/
theorem dnsPass_retry {remote : DNSRemote} {now : Int}
    {desired : List ParsedContainer} {ledger1 : List ManagedResource}
    {k : String} {d : DesiredDNS} {msg : String} {cur : ManagedResource}
    (hmem : (k, d) ∈ buildDesiredDNSMap desired)
    (hfil : ledger1.filter (dnsKeyP k) = [cur])
    (hids1 : ∀ q ∈ ledger1, idOKb q)
    (hag : cur.agentID = d.container.agentID)
    (hst : cur.status = .error)
    (hcurid : cur.id = freshID (dnsErrResource d msg)) :
    (∃ r, (dnsReconcile remote now desired ledger1).ledger.filter (dnsKeyP k) = [r]
        ∧ r.id = cur.id)
      ∧ (∀ rec, DNSCall.createRec rec ∈ (dnsReconcile remote now desired ledger1).calls →
          ¬(rec.name = d.service.hostname ∧ rec.recType = d.service.recType)) := by
  have hwfmap := buildDesiredDNSMap_wf desired
  have hkd : k = dnsKeyOf d.service := hwfmap.1 (k, d) hmem
  have hek : keyStr (dnsErrResource d msg) = k := by
    rw [hkd]
    rfl
  have het : (dnsErrResource d msg).resourceType = ResourceType.dns := rfl
  obtain ⟨pre, post, hsplit, hpre, hpost⟩ := split_of_mem_nodupKeys hwfmap.2 hmem
  have hpre2 : ∀ e ∈ pre, e.1 ≠ k ∧ e.1 = dnsKeyOf e.2.service := by
    intro e he
    refine ⟨hpre e he, hwfmap.1 e ?_⟩
    rw [hsplit]
    exact List.mem_append_left _ he
  have hpost2 : ∀ e ∈ post, e.1 ≠ k ∧ e.1 = dnsKeyOf e.2.service := by
    intro e he
    refine ⟨hpost e he, hwfmap.1 e ?_⟩
    rw [hsplit]
    exact List.mem_append_right _ (List.mem_cons_of_mem _ he)
  have hcmem : cur ∈ ledger1.filter (dnsKeyP k) := by
    rw [hfil]
    simp
  have hcurmem : cur ∈ ledger1 := List.mem_of_mem_filter hcmem
  have hPcur : dnsKeyP k cur = true := List.of_mem_filter hcmem
  have hcurt : cur.resourceType = .dns ∧ keyStr cur = k := by
    unfold dnsKeyP at hPcur
    simpa [Bool.and_eq_true, decide_eq_true_eq] using hPcur
  have hlisted : dnsListedStatus cur.status = true := by
    simp [dnsListedStatus, hst]
  have hwf0 : ∀ p ∈ buildDNSCurrentMap ledger1,
      p.1 = keyStr p.2 ∧ p.2.resourceType = .dns ∧ idOKb p.2 := by
    intro p hp
    obtain ⟨h1, h2, h3, h4⟩ := mem_buildDNSCurrentMap hp
    exact ⟨h1, h3, hids1 p.2 h2⟩
  have hprot0 : ∀ q ∈ ledger1.filter (dnsKeyP k), q.id = freshID (dnsErrResource d msg) := by
    intro q hq
    rw [hfil] at hq
    simp only [List.mem_singleton] at hq
    subst hq
    exact hcurid
  have huniq : ∀ r ∈ ledger1, r.resourceType = .dns → dnsListedStatus r.status = true →
      keyStr r = k → r = cur := by
    intro r hr ht hs hkk
    have hmem2 : r ∈ ledger1.filter (dnsKeyP k) := by
      refine List.mem_filter.mpr ⟨hr, ?_⟩
      unfold dnsKeyP
      rw [hkk]
      simp [ht]
    rw [hfil] at hmem2
    simpa using hmem2
  have hlk0 : lookupKey (buildDNSCurrentMap ledger1) k = some cur :=
    lookupKey_buildDNSCurrentMap_some huniq hcurmem hcurt.1 hlisted hcurt.2
  have hfold1 := @dnsFold_foreign remote now k (dnsErrResource d msg) hek het pre
    (⟨buildDNSCurrentMap ledger1, ledger1, []⟩ : DNSPassState) hpre2 hwf0 hprot0
  have hlk1 : lookupKey (List.foldl (dnsStep remote now) (⟨buildDNSCurrentMap ledger1, ledger1, []⟩ : DNSPassState) pre).currentMap k = some cur := hfold1.2.2.1.trans hlk0
  have hfil1 : (List.foldl (dnsStep remote now) (⟨buildDNSCurrentMap ledger1, ledger1, []⟩ : DNSPassState) pre).ledger.filter (dnsKeyP k) = [cur] := hfold1.1.trans hfil
  have hstep := @dnsStep_retry remote now (List.foldl (dnsStep remote now) (⟨buildDNSCurrentMap ledger1, ledger1, []⟩ : DNSPassState) pre) (k, d) cur hlk1 hag hst hfil1
  obtain ⟨⟨r2, hr2, hr2id⟩, hcm2, hcalls2⟩ := hstep
  have hr2b : (dnsStep remote now (List.foldl (dnsStep remote now) (⟨buildDNSCurrentMap ledger1, ledger1, []⟩ : DNSPassState) pre) (k, d)).ledger.filter (dnsKeyP k) = [r2] := hr2
  have hcm2b : (dnsStep remote now (List.foldl (dnsStep remote now) (⟨buildDNSCurrentMap ledger1, ledger1, []⟩ : DNSPassState) pre) (k, d)).currentMap = removeKey (List.foldl (dnsStep remote now) (⟨buildDNSCurrentMap ledger1, ledger1, []⟩ : DNSPassState) pre).currentMap k := hcm2
  have hwf2 : ∀ p ∈ (dnsStep remote now (List.foldl (dnsStep remote now) (⟨buildDNSCurrentMap ledger1, ledger1, []⟩ : DNSPassState) pre) (k, d)).currentMap,
      p.1 = keyStr p.2 ∧ p.2.resourceType = .dns ∧ idOKb p.2 := by
    intro p hp
    rw [hcm2b] at hp
    exact hwf0 p (hfold1.2.1 p (mem_removeKey hp).1)
  have hprot2 : ∀ q ∈ (dnsStep remote now (List.foldl (dnsStep remote now) (⟨buildDNSCurrentMap ledger1, ledger1, []⟩ : DNSPassState) pre) (k, d)).ledger.filter (dnsKeyP k),
      q.id = freshID (dnsErrResource d msg) := by
    intro q hq
    rw [hr2b] at hq
    simp only [List.mem_singleton] at hq
    subst hq
    rw [hr2id]
    exact hcurid
  have hfold3 := @dnsFold_foreign remote now k (dnsErrResource d msg) hek het post
    (dnsStep remote now (List.foldl (dnsStep remote now) (⟨buildDNSCurrentMap ledger1, ledger1, []⟩ : DNSPassState) pre) (k, d)) hpost2 hwf2 hprot2
  have hfil3 : (List.foldl (dnsStep remote now) (dnsStep remote now (List.foldl (dnsStep remote now) (⟨buildDNSCurrentMap ledger1, ledger1, []⟩ : DNSPassState) pre) (k, d)) post).ledger.filter (dnsKeyP k) = [r2] := hfold3.1.trans hr2b
  have hwf3 : ∀ p ∈ (List.foldl (dnsStep remote now) (dnsStep remote now (List.foldl (dnsStep remote now) (⟨buildDNSCurrentMap ledger1, ledger1, []⟩ : DNSPassState) pre) (k, d)) post).currentMap,
      p.1 = keyStr p.2 ∧ p.2.resourceType = .dns ∧ idOKb p.2 :=
    fun p hp => hwf2 p (hfold3.2.1 p hp)
  have hkne3 : ∀ p ∈ (List.foldl (dnsStep remote now) (dnsStep remote now (List.foldl (dnsStep remote now) (⟨buildDNSCurrentMap ledger1, ledger1, []⟩ : DNSPassState) pre) (k, d)) post).currentMap, p.1 ≠ k := by
    intro p hp
    have hp2 : p ∈ (dnsStep remote now (List.foldl (dnsStep remote now) (⟨buildDNSCurrentMap ledger1, ledger1, []⟩ : DNSPassState) pre) (k, d)).currentMap := hfold3.2.1 p hp
    rw [hcm2b] at hp2
    exact (mem_removeKey hp2).2
  have hprot3 : ∀ q ∈ (List.foldl (dnsStep remote now) (dnsStep remote now (List.foldl (dnsStep remote now) (⟨buildDNSCurrentMap ledger1, ledger1, []⟩ : DNSPassState) pre) (k, d)) post).ledger.filter (dnsKeyP k),
      q.id = freshID (dnsErrResource d msg) := by
    intro q hq
    rw [hfil3] at hq
    simp only [List.mem_singleton] at hq
    subst hq
    rw [hr2id]
    exact hcurid
  constructor
  · refine ⟨r2, ?_, hr2id⟩
    show (dnsReconcile remote now desired ledger1).ledger.filter (dnsKeyP k) = [r2]
    unfold dnsReconcile
    dsimp only
    rw [hsplit, List.foldl_append, List.foldl_cons]
    exact (dnsOrphanPhase_filter hek het hwf3 hkne3 hprot3).trans hfil3
  · intro rec hrec heq
    have hcallseq : (dnsReconcile remote now desired ledger1).calls = (List.foldl (dnsStep remote now) (dnsStep remote now (List.foldl (dnsStep remote now) (⟨buildDNSCurrentMap ledger1, ledger1, []⟩ : DNSPassState) pre) (k, d)) post).calls := by
      unfold dnsReconcile
      dsimp only
      rw [hsplit, List.foldl_append, List.foldl_cons]
      exact dnsOrphanPhase_calls now _
    rw [hcallseq] at hrec
    have hcontr : ∀ (e2 : String × DesiredDNS), (e2.1 ≠ k ∧ e2.1 = dnsKeyOf e2.2.service) →
        (rec.name = e2.2.service.hostname ∧ rec.recType = e2.2.service.recType) → False := by
      intro e2 he2 hne
      have hkeq : dnsKeyOf e2.2.service = dnsKeyOf d.service := by
        unfold dnsKeyOf
        rw [← hne.1, ← hne.2, heq.1, heq.2]
      exact he2.1 (he2.2.trans (hkeq.trans hkd.symm))
    rcases hfold3.2.2.2 rec hrec with hrec3 | ⟨e2, he2, hne⟩
    · have hrec4 := hcalls2 rec hrec3
      rcases hfold1.2.2.2 rec hrec4 with hrec5 | ⟨e2, he2, hne⟩
      · have hnil : DNSCall.createRec rec ∈ ([] : List DNSCall) := hrec5
        exact absurd hnil (List.not_mem_nil _)
      · exact hcontr e2 (hpre2 e2 he2) hne
    · exact hcontr e2 (hpost2 e2 he2) hne

/-- C7: for a desired naming entry whose remote creation fails, the pass
persists exactly one ledger row for its (kind, hostname, record type) key,
carrying status error and the failure message, while the loop model
processes every other desired entry; a subsequent pass over the same
desired set finds that row, keeps a single row with the same id (no
duplicate insert), and issues no remote create call for that entry — the
update/retry path. -/
theorem C7_create_failure_persists_one_error_row
    (remote : DNSRemote) (now now2 : Int) (desired : List ParsedContainer)
    (ledger : List ManagedResource) (k : String) (d : DesiredDNS) (msg : String)
    (hmem : (k, d) ∈ buildDesiredDNSMap desired)
    (hfail : (createDNSRecord remote d.container.info d.service).1 = .error msg)
    (hnone : ledger.filter (dnsKeyP k) = [])
    (hids : ∀ q ∈ ledger, goHasPrefix q.id ("uuid:") = false) :
    (dnsReconcile remote now desired ledger).ledger.filter (dnsKeyP k)
        = [saveNorm now (dnsErrResource d msg)]
      ∧ (saveNorm now (dnsErrResource d msg)).status = .error
      ∧ (saveNorm now (dnsErrResource d msg)).lastError = msg
      ∧ (∃ r, (dnsReconcile remote now2 desired
            (dnsReconcile remote now desired ledger).ledger).ledger.filter (dnsKeyP k)
              = [r]
          ∧ r.id = (saveNorm now (dnsErrResource d msg)).id)
      ∧ (∀ rec, DNSCall.createRec rec ∈ (dnsReconcile remote now2 desired
            (dnsReconcile remote now desired ledger).ledger).calls →
          ¬(rec.name = d.service.hostname ∧ rec.recType = d.service.recType)) := by
  have hpass1 := @dnsPass_create_error remote now desired ledger k d msg
    hmem hfail hnone hids
  have hsn : saveNorm now (dnsErrResource d msg)
      = { dnsErrResource d msg with
          id := freshID (dnsErrResource d msg), createdAt := now, updatedAt := now } :=
    saveNorm_of_fresh now rfl rfl
  have hstat : (saveNorm now (dnsErrResource d msg)).status = ResourceStatus.error := by
    rw [hsn]
    rfl
  have hlast : (saveNorm now (dnsErrResource d msg)).lastError = msg := by
    rw [hsn]
    rfl
  have hag : (saveNorm now (dnsErrResource d msg)).agentID = d.container.agentID := by
    rw [hsn]
    rfl
  have herrid : (saveNorm now (dnsErrResource d msg)).id = freshID (dnsErrResource d msg) := by
    rw [id_saveNorm, if_pos (show (dnsErrResource d msg).id = "" from rfl)]
  have hids1 : ∀ q ∈ (dnsReconcile remote now desired ledger).ledger, idOKb q :=
    idOK_dnsReconcile (fun q hq => Or.inl (hids q hq))
  have hpass2 := @dnsPass_retry remote now2 desired
    (dnsReconcile remote now desired ledger).ledger k d msg
    (saveNorm now (dnsErrResource d msg)) hmem hpass1 hids1 hag hstat herrid
  exact ⟨hpass1, hstat, hlast, hpass2.1, hpass2.2⟩

/-- Witness: the concrete failing creation persists one error row that the
second pass retries without a duplicate or a create call. -/
theorem C7_create_failure_persists_one_error_row_witness :
    (dnsReconcile cDNSRemoteFail 1 [cDNSContainer] []).ledger.filter
        (dnsKeyP ("web.example.com:A"))
        = [saveNorm 1 (dnsErrResource ⟨cDNSContainer, cDNSService0⟩ ("token expired"))]
      ∧ (saveNorm 1 (dnsErrResource ⟨cDNSContainer, cDNSService0⟩ ("token expired"))).status
          = .error
      ∧ (saveNorm 1 (dnsErrResource ⟨cDNSContainer, cDNSService0⟩ ("token expired"))).lastError
          = "token expired"
      ∧ (∃ r, (dnsReconcile cDNSRemoteFail 2 [cDNSContainer]
            (dnsReconcile cDNSRemoteFail 1 [cDNSContainer] []).ledger).ledger.filter
              (dnsKeyP ("web.example.com:A")) = [r]
          ∧ r.id = (saveNorm 1 (dnsErrResource ⟨cDNSContainer, cDNSService0⟩ ("token expired"))).id)
      ∧ (∀ rec, DNSCall.createRec rec ∈ (dnsReconcile cDNSRemoteFail 2 [cDNSContainer]
            (dnsReconcile cDNSRemoteFail 1 [cDNSContainer] []).ledger).calls →
          ¬(rec.name = cDNSService0.hostname ∧ rec.recType = cDNSService0.recType)) :=
  C7_create_failure_persists_one_error_row cDNSRemoteFail 1 2 [cDNSContainer] []
    ("web.example.com:A") ⟨cDNSContainer, cDNSService0⟩ ("token expired")
    (by decide) rfl (by decide) (by decide)

/-! ### Frame lemmas of the access pass around a protected hostname -/

/-- A desired-binding step for another hostname leaves the protected rows,
lookup and current map intact and adds no ensure call for the protected
hostname. -/
theorem accessStep_foreign {remote : AccessRemote} {acct : String} {now : Int}
    {h : String} {errRes : ManagedResource}
    {st : AccessPassState} {e : String × AccessBinding}
    (hk : e.1 ≠ h) (hkey : e.1 = e.2.hostname)
    (hwf : ∀ p ∈ st.currentMap, p.1 = p.2.hostname ∧ goHasPrefix p.2.id ("uuid:") = false)
    (hprot : ∀ q ∈ st.ledger.filter (accessKeyP h), q.id = freshID errRes) :
    (accessStep remote acct now st e).ledger.filter (accessKeyP h)
        = st.ledger.filter (accessKeyP h)
      ∧ (∀ p ∈ (accessStep remote acct now st e).currentMap, p ∈ st.currentMap)
      ∧ lookupKey (accessStep remote acct now st e).currentMap h
          = lookupKey st.currentMap h
      ∧ (∀ a, AccessCall.ensureApp h a ∈ (accessStep remote acct now st e).calls →
          AccessCall.ensureApp h a ∈ st.calls) := by
  have hP := accessKeyP_triple h
  unfold accessStep
  dsimp only
  cases hlk : lookupKey st.currentMap e.1 with
  | some existing =>
    obtain ⟨hpk, hpid⟩ := hwf _ (lookupKey_mem hlk)
    have hpk2 : e.1 = existing.hostname := hpk
    have hpid2 : goHasPrefix existing.id ("uuid:") = false := hpid
    have hneq : existing.hostname ≠ h := by
      rw [← hpk2]
      exact hk
    have hPex : accessKeyP h existing = false := by
      unfold accessKeyP
      simp [hneq]
    have hexid : existing.id ≠ freshID errRes := ne_freshID_of_not_prefix hpid2 errRes
    dsimp only
    rcases hu : updateAccess remote existing e.2 with ⟨ur, cs⟩
    have hcs : ∀ a, AccessCall.ensureApp h a ∈ cs → False := by
      intro a hmemc
      have hq := updateAccess_calls _ (by rw [hu]; exact hmemc)
      injection hq with h1 h2
      exact hk (hkey.trans h1.symm)
    have hsub : ∀ p ∈ removeKey st.currentMap e.1, p ∈ st.currentMap :=
      fun p hp => (mem_removeKey hp).1
    have hlkk : lookupKey (removeKey st.currentMap e.1) h = lookupKey st.currentMap h :=
      lookupKey_removeKey_ne (fun he => hk he.symm)
    have hcalls : ∀ a, AccessCall.ensureApp h a ∈ st.calls ++ cs →
        AccessCall.ensureApp h a ∈ st.calls := by
      intro a hmemc
      rcases List.mem_append.mp hmemc with hmemc | hmemc
      · exact hmemc
      · exact (hcs a hmemc).elim
    cases ur with
    | error msg =>
      dsimp only
      refine ⟨?_, hsub, hlkk, hcalls⟩
      refine filter_patchById_of_ne ?_ ?_
      · exact fun q => hP _ q rfl
      · intro q hq
        rw [hprot q hq]
        exact fun hx => hexid hx.symm
    | ok row =>
      dsimp only
      have hshape := updateAccess_ok_shape (by rw [hu])
      have hProw : accessKeyP h row = false := (hP row existing hshape.1).trans hPex
      have hl2 : ((saveResource now st.ledger row).2).filter (accessKeyP h)
          = st.ledger.filter (accessKeyP h) := filter_save_of_neg hP hProw now st.ledger
      by_cases hcl : existing.lastError ≠ "" ∨ existing.status ≠ ResourceStatus.active
      · rw [if_pos hcl]
        refine ⟨?_, hsub, hlkk, hcalls⟩
        have h1 : (updateResourceError now (saveResource now st.ledger row).2 existing.id ResourceStatus.active "").filter (accessKeyP h)
            = ((saveResource now st.ledger row).2).filter (accessKeyP h) := by
          refine filter_patchById_of_ne ?_ ?_
          · exact fun q => hP _ q rfl
          · intro q hq
            rw [hl2] at hq
            rw [hprot q hq]
            exact fun hx => hexid hx.symm
        exact h1.trans hl2
      · rw [if_neg hcl]
        exact ⟨hl2, hsub, hlkk, hcalls⟩
  | none =>
    rcases hc : ensureAccess remote acct e.2 with ⟨cr, cs⟩
    have hcs : ∀ a, AccessCall.ensureApp h a ∈ cs → False := by
      intro a hmemc
      rcases ensureAccess_calls _ (by rw [hc]; exact hmemc) with h1 | h1
      · exact absurd h1 (by simp)
      · injection h1 with h2 h3
        exact hk (hkey.trans h2.symm)
    have hcalls : ∀ a, AccessCall.ensureApp h a ∈ st.calls ++ cs →
        AccessCall.ensureApp h a ∈ st.calls := by
      intro a hmemc
      rcases List.mem_append.mp hmemc with hmemc | hmemc
      · exact hmemc
      · exact (hcs a hmemc).elim
    cases cr with
    | error msg =>
      dsimp only
      refine ⟨?_, fun p hp => hp, rfl, hcalls⟩
      refine filter_save_of_neg hP ?_ now st.ledger
      unfold accessKeyP
      rw [show (accessErrResource e.1 e.2 msg).hostname = e.1 from rfl]
      simp [hk]
    | ok row =>
      dsimp only
      refine ⟨?_, fun p hp => hp, rfl, hcalls⟩
      obtain ⟨appID, hres⟩ := ensureAccess_ok_shape (by rw [hc])
      have hrowh : row.hostname = e.2.hostname := by
        rw [hres]
        rfl
      refine filter_save_of_neg hP ?_ now st.ledger
      unfold accessKeyP
      rw [hrowh, ← hkey]
      simp [hk]

/-- The desired-binding loop over foreign hostnames preserves the
protected rows and lookup, shrinks the current map, and adds no ensure
call for the protected hostname. -/
theorem accessFold_foreign {remote : AccessRemote} {acct : String} {now : Int}
    {h : String} {errRes : ManagedResource} :
    ∀ (es : List (String × AccessBinding)) (st : AccessPassState),
      (∀ e ∈ es, e.1 ≠ h ∧ e.1 = e.2.hostname) →
      (∀ p ∈ st.currentMap, p.1 = p.2.hostname ∧ goHasPrefix p.2.id ("uuid:") = false) →
      (∀ q ∈ st.ledger.filter (accessKeyP h), q.id = freshID errRes) →
      (es.foldl (accessStep remote acct now) st).ledger.filter (accessKeyP h)
          = st.ledger.filter (accessKeyP h)
        ∧ (∀ p ∈ (es.foldl (accessStep remote acct now) st).currentMap, p ∈ st.currentMap)
        ∧ lookupKey (es.foldl (accessStep remote acct now) st).currentMap h
            = lookupKey st.currentMap h
        ∧ (∀ a, AccessCall.ensureApp h a ∈ (es.foldl (accessStep remote acct now) st).calls →
            AccessCall.ensureApp h a ∈ st.calls) := by
  intro es
  induction es with
  | nil =>
    intro st _ _ _
    exact ⟨rfl, fun p hp => hp, rfl, fun a ha => ha⟩
  | cons e es ih =>
    intro st hes hwf hprot
    rw [List.foldl_cons]
    have he := hes e (by simp)
    have hstep := @accessStep_foreign remote acct now h errRes st e he.1 he.2 hwf hprot
    have hwf1 : ∀ p ∈ (accessStep remote acct now st e).currentMap,
        p.1 = p.2.hostname ∧ goHasPrefix p.2.id ("uuid:") = false :=
      fun p hp => hwf p (hstep.2.1 p hp)
    have hprot1 : ∀ q ∈ (accessStep remote acct now st e).ledger.filter (accessKeyP h),
        q.id = freshID errRes := by
      rw [hstep.1]
      exact hprot
    have hrest := ih (accessStep remote acct now st e)
      (fun e2 he2 => hes e2 (by simp [he2])) hwf1 hprot1
    exact ⟨hrest.1.trans hstep.1, fun p hp => hstep.2.1 p (hrest.2.1 p hp),
      hrest.2.2.1.trans hstep.2.2.1,
      fun a ha => hstep.2.2.2 a (hrest.2.2.2 a ha)⟩

/-- The access orphan-marking tail never touches the call log. -/
theorem accessOrphanPhase_calls (now : Int) (st : AccessPassState) :
    (accessOrphanPhase now st).calls = st.calls := by
  unfold accessOrphanPhase
  have key : ∀ (ps : List (String × ManagedResource)) (acc : AccessPassState),
      (ps.foldl (fun acc p => if p.2.status ≠ .orphaned then
          { acc with ledger := updateResourceStatus now acc.ledger p.2.id .orphaned }
        else acc) acc).calls = acc.calls := by
    intro ps
    induction ps with
    | nil => intro acc; rfl
    | cons p ps ihp =>
      intro acc
      rw [List.foldl_cons]
      split
      · exact ihp _
      · exact ihp _
  exact key st.currentMap st

/-- The access orphan-marking tail leaves the protected rows intact: it
only patches rows of the original ledger, whose ids never carry the uuid
marker of the freshly inserted error row. -/
theorem accessOrphanPhase_filter {now : Int} {h : String} {errRes : ManagedResource}
    {st : AccessPassState}
    (hwf : ∀ p ∈ st.currentMap, p.1 = p.2.hostname ∧ goHasPrefix p.2.id ("uuid:") = false)
    (hprot : ∀ q ∈ st.ledger.filter (accessKeyP h), q.id = freshID errRes) :
    (accessOrphanPhase now st).ledger.filter (accessKeyP h)
      = st.ledger.filter (accessKeyP h) := by
  unfold accessOrphanPhase
  have key : ∀ (ps : List (String × ManagedResource)) (acc : AccessPassState),
      (∀ p ∈ ps, goHasPrefix p.2.id ("uuid:") = false) →
      (∀ q ∈ acc.ledger.filter (accessKeyP h), q.id = freshID errRes) →
      (ps.foldl (fun acc p => if p.2.status ≠ .orphaned then
          { acc with ledger := updateResourceStatus now acc.ledger p.2.id .orphaned }
        else acc) acc).ledger.filter (accessKeyP h) = acc.ledger.filter (accessKeyP h) := by
    intro ps
    induction ps with
    | nil => intro acc _ _; rfl
    | cons p ps ihp =>
      intro acc hps hacc
      rw [List.foldl_cons]
      have hpid : p.2.id ≠ freshID errRes :=
        ne_freshID_of_not_prefix (hps p (by simp)) errRes
      split
      · have hstep : (updateResourceStatus now acc.ledger p.2.id ResourceStatus.orphaned).filter (accessKeyP h)
            = acc.ledger.filter (accessKeyP h) := by
          refine filter_patchById_of_ne ?_ ?_
          · exact fun q => accessKeyP_triple h _ q rfl
          · intro q hq
            rw [hacc q hq]
            exact fun hx => hpid hx.symm
        refine (ihp _ (fun x hx => hps x (by simp [hx])) ?_).trans hstep
        intro q hq
        have hq2 : q ∈ (updateResourceStatus now acc.ledger p.2.id ResourceStatus.orphaned).filter (accessKeyP h) := hq
        rw [hstep] at hq2
        exact hacc q hq2
      · exact ihp _ (fun x hx => hps x (by simp [hx])) hacc
  exact key st.currentMap st (fun p hp => (hwf p hp).2) hprot

/-- The desired-binding step at a hostname with no ledger row and a
pre-existing unmanaged remote application refuses to overwrite: it
persists exactly the normalized conflict error row and only issues the
read-only probe. -/
theorem accessStep_conflict {remote : AccessRemote} {acct : String} {now : Int}
    {st : AccessPassState} {e : String × AccessBinding} {appID appName : String}
    (hlk : lookupKey st.currentMap e.1 = none)
    (hacct : acct ≠ "")
    (hprobe : remote.findExistingApp e.2.hostname = .ok (appID, appName))
    (happ : appID ≠ "")
    (hnil : st.ledger.filter (accessKeyP e.1) = []) :
    (accessStep remote acct now st e).ledger.filter (accessKeyP e.1)
        = [saveNorm now (accessErrResource e.1 e.2
            (accessConflictMessage appName appID e.2.hostname))]
      ∧ (accessStep remote acct now st e).currentMap = st.currentMap
      ∧ (accessStep remote acct now st e).calls
          = st.calls ++ [AccessCall.findExisting e.2.hostname] := by
  have hens : ensureAccess remote acct e.2
      = (.error (accessConflictMessage appName appID e.2.hostname),
         [AccessCall.findExisting e.2.hostname]) := by
    unfold ensureAccess
    rw [if_neg hacct]
    dsimp only
    rw [hprobe]
    dsimp only
    rw [if_pos happ]
  unfold accessStep
  dsimp only
  rw [hlk, hens]
  dsimp only
  refine ⟨?_, rfl, rfl⟩
  refine filter_save_of_pos_nil (accessKeyP_triple e.1) ?_ now hnil
  unfold accessKeyP
  simp [accessErrResource]

/-! ### The access pass on a remote conflict (claim C5) -/

/-- An access pass whose fresh binding hits a pre-existing unmanaged remote
application persists exactly the normalized conflict error row and issues
no ensure call for that hostname. -/
theorem accessPass_conflict {remote : AccessRemote} {acct : String} {now : Int}
    {bindings : List AccessBinding} {ledger : List ManagedResource}
    {h : String} {b : AccessBinding} {appID appName : String}
    (hmem : (h, b) ∈ buildAccessDesiredMap bindings)
    (hacct : acct ≠ "")
    (hprobe : remote.findExistingApp b.hostname = .ok (appID, appName))
    (happ : appID ≠ "")
    (hnone : ledger.filter (accessKeyP h) = [])
    (hids : ∀ q ∈ ledger, goHasPrefix q.id ("uuid:") = false) :
    (accessReconcile remote acct now bindings ledger).ledger.filter (accessKeyP h)
        = [saveNorm now (accessErrResource h b
            (accessConflictMessage appName appID b.hostname))]
      ∧ (∀ a, AccessCall.ensureApp h a ∉
          (accessReconcile remote acct now bindings ledger).calls) := by
  have hwfmap := buildAccessDesiredMap_wf bindings
  have hhb : h = b.hostname := hwfmap.1 (h, b) hmem
  obtain ⟨pre, post, hsplit, hpre, hpost⟩ := split_of_mem_nodupKeys hwfmap.2 hmem
  have hpre2 : ∀ e ∈ pre, e.1 ≠ h ∧ e.1 = e.2.hostname := by
    intro e he
    refine ⟨hpre e he, hwfmap.1 e ?_⟩
    rw [hsplit]
    exact List.mem_append_left _ he
  have hpost2 : ∀ e ∈ post, e.1 ≠ h ∧ e.1 = e.2.hostname := by
    intro e he
    refine ⟨hpost e he, hwfmap.1 e ?_⟩
    rw [hsplit]
    exact List.mem_append_right _ (List.mem_cons_of_mem _ he)
  have hwf0 : ∀ p ∈ buildAccessCurrentMap ledger,
      p.1 = p.2.hostname ∧ goHasPrefix p.2.id ("uuid:") = false := by
    intro p hp
    obtain ⟨h1, h2, h3, h4⟩ := mem_buildAccessCurrentMap hp
    exact ⟨h1, hids p.2 h2⟩
  have hprot0 : ∀ q ∈ ledger.filter (accessKeyP h),
      q.id = freshID (accessErrResource h b (accessConflictMessage appName appID b.hostname)) := by
    intro q hq
    rw [hnone] at hq
    exact absurd hq (List.not_mem_nil q)
  have hlk0 : lookupKey (buildAccessCurrentMap ledger) h = none := by
    refine lookupKey_buildAccessCurrentMap_none ?_
    intro r hr ht hs hkk
    have hmem2 : r ∈ ledger.filter (accessKeyP h) := by
      refine List.mem_filter.mpr ⟨hr, ?_⟩
      unfold accessKeyP
      rw [hkk]
      simp [ht]
    rw [hnone] at hmem2
    exact absurd hmem2 (List.not_mem_nil r)
  have herr : (saveNorm now (accessErrResource h b
      (accessConflictMessage appName appID b.hostname))).id
      = freshID (accessErrResource h b (accessConflictMessage appName appID b.hostname)) := by
    rw [id_saveNorm, if_pos (show (accessErrResource h b
      (accessConflictMessage appName appID b.hostname)).id = "" from rfl)]
  have hfold1 := @accessFold_foreign remote acct now h
    (accessErrResource h b (accessConflictMessage appName appID b.hostname)) pre
    (⟨buildAccessCurrentMap ledger, ledger, []⟩ : AccessPassState) hpre2 hwf0 hprot0
  have hlk1 : lookupKey (List.foldl (accessStep remote acct now) (⟨buildAccessCurrentMap ledger, ledger, []⟩ : AccessPassState) pre).currentMap h = none := hfold1.2.2.1.trans hlk0
  have hnil1 : (List.foldl (accessStep remote acct now) (⟨buildAccessCurrentMap ledger, ledger, []⟩ : AccessPassState) pre).ledger.filter (accessKeyP h) = [] := hfold1.1.trans hnone
  have hprobe2 : remote.findExistingApp ((h, b) : String × AccessBinding).2.hostname
      = .ok (appID, appName) := hprobe
  have hstep := @accessStep_conflict remote acct now (List.foldl (accessStep remote acct now) (⟨buildAccessCurrentMap ledger, ledger, []⟩ : AccessPassState) pre) (h, b) appID appName
    hlk1 hacct hprobe2 happ hnil1
  have hstep1 : (accessStep remote acct now (List.foldl (accessStep remote acct now) (⟨buildAccessCurrentMap ledger, ledger, []⟩ : AccessPassState) pre) (h, b)).ledger.filter (accessKeyP h)
      = [saveNorm now (accessErrResource h b
          (accessConflictMessage appName appID b.hostname))] := hstep.1
  have hstep2 : (accessStep remote acct now (List.foldl (accessStep remote acct now) (⟨buildAccessCurrentMap ledger, ledger, []⟩ : AccessPassState) pre) (h, b)).currentMap = (List.foldl (accessStep remote acct now) (⟨buildAccessCurrentMap ledger, ledger, []⟩ : AccessPassState) pre).currentMap := hstep.2.1
  have hstep3 : (accessStep remote acct now (List.foldl (accessStep remote acct now) (⟨buildAccessCurrentMap ledger, ledger, []⟩ : AccessPassState) pre) (h, b)).calls = (List.foldl (accessStep remote acct now) (⟨buildAccessCurrentMap ledger, ledger, []⟩ : AccessPassState) pre).calls ++ [AccessCall.findExisting b.hostname] := hstep.2.2
  have hwf2 : ∀ p ∈ (accessStep remote acct now (List.foldl (accessStep remote acct now) (⟨buildAccessCurrentMap ledger, ledger, []⟩ : AccessPassState) pre) (h, b)).currentMap,
      p.1 = p.2.hostname ∧ goHasPrefix p.2.id ("uuid:") = false := by
    rw [hstep2]
    exact fun p hp => hwf0 p (hfold1.2.1 p hp)
  have hprot2 : ∀ q ∈ (accessStep remote acct now (List.foldl (accessStep remote acct now) (⟨buildAccessCurrentMap ledger, ledger, []⟩ : AccessPassState) pre) (h, b)).ledger.filter (accessKeyP h),
      q.id = freshID (accessErrResource h b (accessConflictMessage appName appID b.hostname)) := by
    intro q hq
    rw [hstep1] at hq
    simp only [List.mem_singleton] at hq
    subst hq
    exact herr
  have hfold3 := @accessFold_foreign remote acct now h
    (accessErrResource h b (accessConflictMessage appName appID b.hostname)) post
    (accessStep remote acct now (List.foldl (accessStep remote acct now) (⟨buildAccessCurrentMap ledger, ledger, []⟩ : AccessPassState) pre) (h, b)) hpost2 hwf2 hprot2
  have hfil3 : (List.foldl (accessStep remote acct now) (accessStep remote acct now (List.foldl (accessStep remote acct now) (⟨buildAccessCurrentMap ledger, ledger, []⟩ : AccessPassState) pre) (h, b)) post).ledger.filter (accessKeyP h)
      = [saveNorm now (accessErrResource h b
          (accessConflictMessage appName appID b.hostname))] := hfold3.1.trans hstep1
  have hwf3 : ∀ p ∈ (List.foldl (accessStep remote acct now) (accessStep remote acct now (List.foldl (accessStep remote acct now) (⟨buildAccessCurrentMap ledger, ledger, []⟩ : AccessPassState) pre) (h, b)) post).currentMap,
      p.1 = p.2.hostname ∧ goHasPrefix p.2.id ("uuid:") = false :=
    fun p hp => hwf2 p (hfold3.2.1 p hp)
  have hprot3 : ∀ q ∈ (List.foldl (accessStep remote acct now) (accessStep remote acct now (List.foldl (accessStep remote acct now) (⟨buildAccessCurrentMap ledger, ledger, []⟩ : AccessPassState) pre) (h, b)) post).ledger.filter (accessKeyP h),
      q.id = freshID (accessErrResource h b (accessConflictMessage appName appID b.hostname)) := by
    intro q hq
    rw [hfil3] at hq
    simp only [List.mem_singleton] at hq
    subst hq
    exact herr
  constructor
  · show (accessReconcile remote acct now bindings ledger).ledger.filter (accessKeyP h)
      = [saveNorm now (accessErrResource h b (accessConflictMessage appName appID b.hostname))]
    unfold accessReconcile
    dsimp only
    rw [hsplit, List.foldl_append, List.foldl_cons]
    exact (accessOrphanPhase_filter hwf3 hprot3).trans hfil3
  · intro a ha
    have hcallseq : (accessReconcile remote acct now bindings ledger).calls = (List.foldl (accessStep remote acct now) (accessStep remote acct now (List.foldl (accessStep remote acct now) (⟨buildAccessCurrentMap ledger, ledger, []⟩ : AccessPassState) pre) (h, b)) post).calls := by
      unfold accessReconcile
      dsimp only
      rw [hsplit, List.foldl_append, List.foldl_cons]
      exact accessOrphanPhase_calls now _
    rw [hcallseq] at ha
    have ha2 := hfold3.2.2.2 a ha
    rw [hstep3] at ha2
    rcases List.mem_append.mp ha2 with ha2 | ha2
    · have ha3 := hfold1.2.2.2 a ha2
      have ha4 : AccessCall.ensureApp h a ∈ ([] : List AccessCall) := ha3
      exact absurd ha4 (List.not_mem_nil _)
    · simp at ha2

/-- C5: a binding for a hostname with no ledger row whose remote system
already has an unmanaged application bound to it fails with the conflict
message naming that application; the pass persists one error row with that
message for the hostname and never calls the mutating ensure for it. -/
theorem C5_access_conflict_refuses_and_persists_error
    (remote : AccessRemote) (acct : String) (now : Int)
    (bindings : List AccessBinding) (ledger : List ManagedResource)
    (h : String) (b : AccessBinding) (appID appName : String)
    (hmem : (h, b) ∈ buildAccessDesiredMap bindings)
    (hacct : acct ≠ "")
    (hprobe : remote.findExistingApp b.hostname = .ok (appID, appName))
    (happ : appID ≠ "")
    (hnone : ledger.filter (accessKeyP h) = [])
    (hids : ∀ q ∈ ledger, goHasPrefix q.id ("uuid:") = false) :
    (ensureAccess remote acct b).1
        = .error (accessConflictMessage appName appID b.hostname)
      ∧ (accessReconcile remote acct now bindings ledger).ledger.filter (accessKeyP h)
          = [saveNorm now (accessErrResource h b
              (accessConflictMessage appName appID b.hostname))]
      ∧ (saveNorm now (accessErrResource h b
          (accessConflictMessage appName appID b.hostname))).status = .error
      ∧ (saveNorm now (accessErrResource h b
          (accessConflictMessage appName appID b.hostname))).lastError
          = accessConflictMessage appName appID b.hostname
      ∧ (∀ a, AccessCall.ensureApp h a ∉
          (accessReconcile remote acct now bindings ledger).calls) := by
  have hens : ensureAccess remote acct b
      = (.error (accessConflictMessage appName appID b.hostname),
         [AccessCall.findExisting b.hostname]) := by
    unfold ensureAccess
    rw [if_neg hacct]
    dsimp only
    rw [hprobe]
    dsimp only
    rw [if_pos happ]
  have hpass := @accessPass_conflict remote acct now bindings ledger h b appID appName
    hmem hacct hprobe happ hnone hids
  have hsn : saveNorm now (accessErrResource h b
      (accessConflictMessage appName appID b.hostname))
      = { accessErrResource h b (accessConflictMessage appName appID b.hostname) with
          id := freshID (accessErrResource h b (accessConflictMessage appName appID b.hostname)),
          createdAt := now, updatedAt := now } :=
    saveNorm_of_fresh now rfl rfl
  refine ⟨by rw [hens], hpass.1, ?_, ?_, hpass.2⟩
  · rw [hsn]
    rfl
  · rw [hsn]
    rfl

/-- Witness: the concrete conflicting binding is refused and persisted as
one error row, with no mutating ensure call for its hostname. -/
theorem C5_access_conflict_refuses_and_persists_error_witness :
    (ensureAccess cAccessRemoteConflict "acct" cBinding).1
        = .error (accessConflictMessage "legacy" "app-9" cBinding.hostname)
      ∧ (accessReconcile cAccessRemoteConflict "acct" 1 [cBinding] []).ledger.filter
          (accessKeyP ("app.example.com"))
          = [saveNorm 1 (accessErrResource ("app.example.com") cBinding
              (accessConflictMessage "legacy" "app-9" cBinding.hostname))]
      ∧ (saveNorm 1 (accessErrResource ("app.example.com") cBinding
          (accessConflictMessage "legacy" "app-9" cBinding.hostname))).status = .error
      ∧ (saveNorm 1 (accessErrResource ("app.example.com") cBinding
          (accessConflictMessage "legacy" "app-9" cBinding.hostname))).lastError
          = accessConflictMessage "legacy" "app-9" cBinding.hostname
      ∧ (∀ a, AccessCall.ensureApp ("app.example.com") a ∉
          (accessReconcile cAccessRemoteConflict "acct" 1 [cBinding] []).calls) :=
  C5_access_conflict_refuses_and_persists_error cAccessRemoteConflict "acct" 1 [cBinding] []
    ("app.example.com") cBinding "app-9" "legacy"
    (by decide) (by decide) rfl (by decide) (by decide) (by decide)

/-! ### The converged naming pass (claim C1, amended) -/

/-- A desired-loop step whose current row matches ownership and shows no
drift only consumes the key: no ledger change, no remote call. -/
theorem dnsStep_converged {remote : DNSRemote} {now : Int} {st : DNSPassState}
    {e : String × DesiredDNS} {r : ManagedResource}
    (hlk : lookupKey st.currentMap e.1 = some r)
    (hag : r.agentID = e.2.container.agentID)
    (hub : dnsUpdateBranch r e.2.service = false) :
    (dnsStep remote now st e).ledger = st.ledger
      ∧ (dnsStep remote now st e).calls = st.calls
      ∧ (dnsStep remote now st e).currentMap = removeKey st.currentMap e.1 := by
  unfold dnsStep
  dsimp only
  rw [hlk]
  dsimp only
  rw [if_neg (show ¬(r.agentID ≠ e.2.container.agentID) from fun hx => hx hag)]
  dsimp only
  rw [if_neg (show ¬(dnsUpdateBranch r e.2.service = true) from by rw [hub]; simp)]
  exact ⟨rfl, List.append_nil _, rfl⟩

/-- The desired loop over a converged current map changes nothing but the
current map, consuming exactly the desired keys. -/
theorem dnsFold_converged {remote : DNSRemote} {now : Int} {ledger : List ManagedResource} :
    ∀ (es : List (String × DesiredDNS)) (st : DNSPassState),
      (es.map (fun e => e.1)).Nodup →
      (∀ e ∈ es, ∃ r, lookupKey (buildDNSCurrentMap ledger) e.1 = some r
        ∧ r.agentID = e.2.container.agentID ∧ dnsUpdateBranch r e.2.service = false) →
      st.ledger = ledger → st.calls = [] →
      (∀ e ∈ es, lookupKey st.currentMap e.1 = lookupKey (buildDNSCurrentMap ledger) e.1) →
      (es.foldl (dnsStep remote now) st).ledger = ledger
        ∧ (es.foldl (dnsStep remote now) st).calls = []
        ∧ (∀ p ∈ (es.foldl (dnsStep remote now) st).currentMap,
            p ∈ st.currentMap ∧ ∀ e ∈ es, p.1 ≠ e.1) := by
  intro es
  induction es with
  | nil =>
    intro st _ _ hl hc _
    exact ⟨hl, hc, fun p hp => ⟨hp, fun e he => absurd he (List.not_mem_nil e)⟩⟩
  | cons e es ih =>
    intro st hnd hconv hl hc hlk
    rw [List.foldl_cons]
    obtain ⟨r, hr0, hag, hub⟩ := hconv e (by simp)
    have hlke : lookupKey st.currentMap e.1 = some r := (hlk e (by simp)).trans hr0
    have hstep := @dnsStep_converged remote now st e r hlke hag hub
    rw [List.map_cons, List.nodup_cons] at hnd
    have hne : ∀ e2 ∈ es, e2.1 ≠ e.1 := by
      intro e2 he2 heq
      exact hnd.1 (List.mem_map.mpr ⟨e2, he2, heq⟩)
    have hlk1 : ∀ e2 ∈ es, lookupKey (dnsStep remote now st e).currentMap e2.1
        = lookupKey (buildDNSCurrentMap ledger) e2.1 := by
      intro e2 he2
      rw [hstep.2.2, lookupKey_removeKey_ne (hne e2 he2)]
      exact hlk e2 (by simp [he2])
    have hrest := ih (dnsStep remote now st e) hnd.2
      (fun e2 he2 => hconv e2 (by simp [he2]))
      (hstep.1.trans hl) (hstep.2.1.trans hc) hlk1
    refine ⟨hrest.1, hrest.2.1, ?_⟩
    intro p hp
    obtain ⟨hp1, hp2⟩ := hrest.2.2 p hp
    rw [hstep.2.2] at hp1
    obtain ⟨hp3, hp4⟩ := mem_removeKey hp1
    refine ⟨hp3, ?_⟩
    intro e2 he2
    rcases List.mem_cons.mp he2 with he2 | he2
    · rw [he2]
      exact hp4
    · exact hp2 e2 he2

/-- The orphan-marking tail over only already-orphaned remnants is the
identity. -/
theorem dnsOrphanPhase_noop {now : Int} {st : DNSPassState}
    (h : ∀ p ∈ st.currentMap, p.2.status = .orphaned) :
    dnsOrphanPhase now st = st := by
  unfold dnsOrphanPhase
  have key : ∀ (ps : List (String × ManagedResource)) (acc : DNSPassState),
      (∀ p ∈ ps, p.2.status = .orphaned) →
      (ps.foldl (fun acc p => if p.2.status ≠ .orphaned then
          { acc with ledger := updateResourceStatus now acc.ledger p.2.id .orphaned }
        else acc) acc) = acc := by
    intro ps
    induction ps with
    | nil => intro acc _; rfl
    | cons p ps ihp =>
      intro acc hps
      rw [List.foldl_cons]
      rw [if_neg (show ¬(p.2.status ≠ ResourceStatus.orphaned) from
        fun hx => hx (hps p (by simp)))]
      exact ihp acc (fun x hx => hps x (by simp [hx]))
  exact key st.currentMap st h

/-- C1 (amended): the naming pass is idempotent — in a converged state
(every desired key has a listed row whose ownership matches and whose
drift check is silent, and every other listed naming row is already
orphaned) a naming reconcile pass issues no remote call at all and leaves
the ledger byte-identical.  The original all-operator claim is refuted by
the access pass, whose update path re-runs the mutating remote ensure on
every pass. -/
theorem C1_dns_converged_pass_is_noop
    (remote : DNSRemote) (now : Int) (desired : List ParsedContainer)
    (ledger : List ManagedResource)
    (hconv : ∀ e ∈ buildDesiredDNSMap desired,
      ∃ r, lookupKey (buildDNSCurrentMap ledger) e.1 = some r
        ∧ r.agentID = e.2.container.agentID
        ∧ dnsUpdateBranch r e.2.service = false)
    (horph : ∀ p ∈ buildDNSCurrentMap ledger,
      (¬ ∃ e ∈ buildDesiredDNSMap desired, e.1 = p.1) → p.2.status = .orphaned) :
    (dnsReconcile remote now desired ledger).ledger = ledger
      ∧ (dnsReconcile remote now desired ledger).calls = [] := by
  have hwfmap := buildDesiredDNSMap_wf desired
  have hfold := @dnsFold_converged remote now ledger (buildDesiredDNSMap desired)
    ⟨buildDNSCurrentMap ledger, ledger, []⟩ hwfmap.2 hconv rfl rfl (fun e he => rfl)
  have horph2 : ∀ p ∈ ((buildDesiredDNSMap desired).foldl (dnsStep remote now)
      (⟨buildDNSCurrentMap ledger, ledger, []⟩ : DNSPassState)).currentMap,
      p.2.status = .orphaned := by
    intro p hp
    obtain ⟨hp0, hpk⟩ := hfold.2.2 p hp
    refine horph p hp0 ?_
    rintro ⟨e, he, hek⟩
    exact hpk e he hek.symm
  show (dnsReconcile remote now desired ledger).ledger = ledger
    ∧ (dnsReconcile remote now desired ledger).calls = []
  unfold dnsReconcile
  dsimp only
  rw [dnsOrphanPhase_noop horph2]
  exact ⟨hfold.1, hfold.2.1⟩

/-- Witness: a converged concrete naming state passes through untouched. -/
theorem C1_dns_converged_pass_is_noop_witness :
    (dnsReconcile cDNSRemoteFail 1 [cDNSContainer] [cConvergedRow]).ledger = [cConvergedRow]
      ∧ (dnsReconcile cDNSRemoteFail 1 [cDNSContainer] [cConvergedRow]).calls = [] :=
  C1_dns_converged_pass_is_noop cDNSRemoteFail 1 [cDNSContainer] [cConvergedRow]
    (by
      intro e he
      have he2 : e ∈ [(("web.example.com:A" : String),
          (⟨cDNSContainer, cDNSService0⟩ : DesiredDNS))] := he
      simp only [List.mem_singleton] at he2
      subst he2
      exact ⟨cConvergedRow, by decide, by decide, by decide⟩)
    (by
      intro p hp hne
      exfalso
      apply hne
      have hp2 : p ∈ [(("web.example.com:A" : String), cConvergedRow)] := hp
      simp only [List.mem_singleton] at hp2
      subst hp2
      exact ⟨(("web.example.com:A" : String), (⟨cDNSContainer, cDNSService0⟩ : DesiredDNS)),
        by decide, rfl⟩)

/-- C1 (counterexample): with an unchanged desired set and an unchanged
remote, the second access pass issues a mutating remote ensure call and
bumps the row timestamp, so the ledger is not byte-identical — the
operator-wide idempotence claim fails. -/
theorem C1_counterexample_access_second_pass_mutates :
    ((accessReconcile cAccessRemote "acct" 2 [cBinding]
        (accessReconcile cAccessRemote "acct" 1 [cBinding] []).ledger).calls.filter
          isMutatingAccessCall ≠ [])
      ∧ (accessReconcile cAccessRemote "acct" 2 [cBinding]
          (accessReconcile cAccessRemote "acct" 1 [cBinding] []).ledger).ledger
        ≠ (accessReconcile cAccessRemote "acct" 1 [cBinding] []).ledger := by
  decide

end Labelgate
